import Mathlib

/-!
# Change gears for an 8x14 lathe: a verification development of `gears.c`

The search engine of `src/old/gears.c` is embedded shallowly:

* the enumeration `GEAR_CONFIG_0 .. GEAR_CONFIG_3` becomes the inductive type `Cfg`
  (the `default: assert( 0 )` arms of the switches have no counterpart);
* `int` values are mathematical integers (no overflow is modelled; every catalog
  value is at most 100);
* `double` pitch arithmetic is read over exact rationals; the conversion of a
  `double` to `int` is truncation toward zero (`toInt`);
* the process-wide variables `soln`, `goal_pitch`, `valid_count`, `vec` are the
  fields of `State`, and every function that touches them is a state transformer;
* two observational fields are added to the state and are never read by the
  program: `trace` records every entry into `Permute_Gears` and `Check_Gears`
  together with the contents of `vec` at that moment, `hist` records the solution
  table after every `Check_Gears`;
* an array read outside its bounds yields `0` and a write outside its bounds is
  dropped (the C behaviour is undefined there).
-/

namespace Gears

/-! ## Constants and data -/

/-- Gear configurations (`enum` of the source). -/
inductive Cfg
  | GEAR_CONFIG_0   -- A to B to C
  | GEAR_CONFIG_1   -- AB to CD to E
  | GEAR_CONFIG_2   -- AB to C to D
  | GEAR_CONFIG_3   -- A to BC to D
  deriving DecidableEq, Repr

/-- Numeric value of an enumerator. -/
def Cfg.idx : Cfg → Nat
  | .GEAR_CONFIG_0 => 0
  | .GEAR_CONFIG_1 => 1
  | .GEAR_CONFIG_2 => 2
  | .GEAR_CONFIG_3 => 3

/-- The enumerators in the order of `for( i = 0; i < GEAR_CONFIG_MAX; i ++ )`. -/
def allCfgs : List Cfg :=
  [.GEAR_CONFIG_0, .GEAR_CONFIG_1, .GEAR_CONFIG_2, .GEAR_CONFIG_3]

def MM_PER_INCH : ℚ := 254 / 10
def IDLER_TEETH : ℚ := 40
def LEADSCREW_TPI : ℚ := 12

def MINIMUM_GTL : Int := 154
def MIN_FINAL_GEARS : Int := 80
def MAX_AB_DIFFERENCE : Int := 6
def MIN_GEAR_CLEARANCE : Int := 4
def GEAR_X_SIZE : Int := 30
def MAX_SLOT_GEARS : Int := 168

def gear_set : List Int :=
  [30, 35, 40, 45, 48, 50, 60, 66,
   68, 70, 70, 72, 75, 80, 90, 100]

def NUM_GEARS : Nat := gear_set.length

def INITIAL_ERROR : ℚ := 1

/-- Gear solution record `GS`. -/
structure GS where
  error : ℚ
  a : Int
  b : Int
  c : Int
  d : Int
  e : Int

/-- Entries of the observational trace. -/
inductive Event
  | permute (cfg : Cfg) (n : Nat) (vec : List Nat)
  | check (cfg : Cfg) (vec : List Nat)
  deriving DecidableEq

/-- The process-wide variables, plus the observational fields `trace` and `hist`. -/
structure State where
  soln : Cfg → GS
  goal_pitch : ℚ
  valid_count : Int
  vec : List Nat
  trace : List Event
  hist : List (Cfg → GS)

/-! ## Geometry -/

/-- Conversion of a `double` to `int`: truncation toward zero. -/
def toInt (x : ℚ) : Int := if 0 ≤ x then ⌊x⌋ else ⌈x⌉

/-- Return the screw pitch in inches. -/
def Calc_Pitch (cfg : Cfg) (ga gb gc gd ge : Int) : ℚ :=
  let ratio : ℚ := IDLER_TEETH / (ga : ℚ)
  let ratio : ℚ :=
    match cfg with
    | .GEAR_CONFIG_0 => ratio * ((ga : ℚ) / (gc : ℚ))
    | .GEAR_CONFIG_1 => ratio * ((gb : ℚ) / (gc : ℚ)) * ((gd : ℚ) / (ge : ℚ))
    | .GEAR_CONFIG_2 => ratio * ((gb : ℚ) / (gd : ℚ))
    | .GEAR_CONFIG_3 => ratio * ((ga : ℚ) / (gb : ℚ)) * ((gc : ℚ) / (gd : ℚ))
  ratio / LEADSCREW_TPI

/-- Return the gear train length in teeth.  `length` is an `int`, so every
`length += <double>` converts the sum back to `int`. -/
def Calc_Length (cfg : Cfg) (ga gb gc gd ge : Int) : Int :=
  let length : Int := toInt (IDLER_TEETH / 2)
  match cfg with
  | .GEAR_CONFIG_0 =>
    let length := toInt ((length : ℚ) + (ga : ℚ))
    let length := toInt ((length : ℚ) + (gb : ℚ))
    let length := toInt ((length : ℚ) + (gc : ℚ) / 2)
    length
  | .GEAR_CONFIG_1 =>
    let length := toInt ((length : ℚ) + (ga : ℚ) / 2)
    let length := toInt ((length : ℚ) + (gb : ℚ) / 2)
    let length := toInt ((length : ℚ) + (gc : ℚ) / 2)
    let length := toInt ((length : ℚ) + (gd : ℚ) / 2)
    let length := toInt ((length : ℚ) + (ge : ℚ) / 2)
    length
  | .GEAR_CONFIG_2 =>
    let length := toInt ((length : ℚ) + (ga : ℚ) / 2)
    let length := toInt ((length : ℚ) + (gb : ℚ) / 2)
    let length := toInt ((length : ℚ) + (gc : ℚ))
    let length := toInt ((length : ℚ) + (gd : ℚ) / 2)
    length
  | .GEAR_CONFIG_3 =>
    let length := toInt ((length : ℚ) + (ga : ℚ))
    let length := toInt ((length : ℚ) + (gb : ℚ) / 2)
    let length := toInt ((length : ℚ) + (gc : ℚ) / 2)
    let length := toInt ((length : ℚ) + (gd : ℚ) / 2)
    length

/-! ## Feasibility -/

/-- Is this a geometrically valid gear configuration?  Returns `0` or `1`. -/
def Gear_Valid (cfg : Cfg) (ga gb gc gd ge : Int) : Int :=
  let specific : Bool :=
    match cfg with
    | .GEAR_CONFIG_0 =>
      if (ga + gb) > MAX_SLOT_GEARS then false
      else if (gb + gc) < MIN_FINAL_GEARS then false
      else true
    | .GEAR_CONFIG_1 =>
      if (gb + gc) > MAX_SLOT_GEARS then false
      else if (gd + ge) < MIN_FINAL_GEARS then false
      else if (gb - ga) > MAX_AB_DIFFERENCE then false
      else if (gb + gc) - (ga + gd) < MIN_GEAR_CLEARANCE then false
      else if (gd + ge) - (gc + GEAR_X_SIZE) < MIN_GEAR_CLEARANCE then false
      else true
    | .GEAR_CONFIG_2 =>
      if (gb + gc) > MAX_SLOT_GEARS then false
      else if (gc + gd) < MIN_FINAL_GEARS then false
      else if (gb - ga) > MAX_AB_DIFFERENCE then false
      else true
    | .GEAR_CONFIG_3 =>
      if (ga + gb) > MAX_SLOT_GEARS then false
      else if (gc + gd) < MIN_FINAL_GEARS then false
      else if (ga + gb) - (gc + GEAR_X_SIZE) < MIN_GEAR_CLEARANCE then false
      else if (gc + gd) - (gb + GEAR_X_SIZE) < MIN_GEAR_CLEARANCE then false
      else true
  if !specific then 0
  else if Calc_Length cfg ga gb gc gd ge < MINIMUM_GTL then 0
  else 1

/-! ## Evaluation and solution update -/

/-- Tooth count read by `gear_set[ vec[ i ] ]`. -/
def gearAt (vec : List Nat) (i : Nat) : Int := gear_set.getD (vec.getD i 0) 0

def Check_Gears (cfg : Cfg) (s : State) : State :=
  let s : State := { s with trace := s.trace ++ [Event.check cfg s.vec] }
  let ga := gearAt s.vec 0
  let gb := gearAt s.vec 1
  let gc := gearAt s.vec 2
  let gd := gearAt s.vec 3
  let ge := gearAt s.vec 4
  let s : State :=
    if Gear_Valid cfg ga gb gc gd ge ≠ 0 then
      let s : State := { s with valid_count := s.valid_count + 1 }
      let pitch := Calc_Pitch cfg ga gb gc gd ge
      let error := |pitch - s.goal_pitch|
      if error < (s.soln cfg).error then
        { s with soln := Function.update s.soln cfg
                   { error := error, a := ga, b := gb, c := gc, d := gd, e := ge } }
      else s
    else s
  { s with hist := s.hist ++ [s.soln] }

/-! ## Combinatorial generator -/

def swap (i j : Nat) (s : State) : State :=
  let tmp := s.vec.getD i 0
  let s : State := { s with vec := s.vec.set i (s.vec.getD j 0) }
  { s with vec := s.vec.set j tmp }

def Permute_Gears (cfg : Cfg) : Nat → State → State
  | 0, s =>
    let s : State := { s with trace := s.trace ++ [Event.permute cfg 0 s.vec] }
    Check_Gears cfg s
  | n + 1, s =>
    let s : State := { s with trace := s.trace ++ [Event.permute cfg (n + 1) s.vec] }
    (List.range (n + 2)).foldl
      (fun s i => swap (n + 1) i (Permute_Gears cfg n (swap (n + 1) i s))) s

/-- Recursive descent over increasing catalog positions; the loop
`for( i = ix; i <= n; i ++ )` runs over `List.range' ix (n + 1 - ix)`. -/
def Combine_Gears (ix kx n k : Nat) (s : State) : State :=
  let s : State := if kx = 3 then Permute_Gears .GEAR_CONFIG_0 2 s else s
  let s : State :=
    if kx = 4 then Permute_Gears .GEAR_CONFIG_3 3 (Permute_Gears .GEAR_CONFIG_2 3 s) else s
  if kx = k then
    Permute_Gears .GEAR_CONFIG_1 4 s
  else
    (List.range' ix (n + 1 - ix)).attach.foldl
      (fun s i => Combine_Gears (i.1 + 1) (kx + 1) n k { s with vec := s.vec.set kx i.1 }) s
termination_by n + 1 - ix
decreasing_by
  have h := i.2
  rw [List.mem_range'_1] at h
  omega

/-! ## Search orchestrator -/

/-- The first loop of `Search_Gears`: every error is set to the sentinel, the
tooth counts are left as they are. -/
def resetErrors (s : State) : State :=
  allCfgs.foldl
    (fun s i => { s with soln := Function.update s.soln i { s.soln i with error := INITIAL_ERROR } })
    s

/-- The selection loop of `Search_Gears`, on the locals `(error, best)`;
`best` is `none` while it has not been assigned. -/
def findBest (soln : Cfg → GS) : ℚ × Option Cfg :=
  allCfgs.foldl
    (fun (eb : ℚ × Option Cfg) i =>
      if (soln i).error < eb.1 then ((soln i).error, some i) else eb)
    (INITIAL_ERROR, none)

/-- The search: the final state and the value of `best` handed to `Display_Gears`
(`none` when `best` was never assigned). -/
def Search_Gears (mode : Int) (s : State) : State × Option Cfg :=
  let s := resetErrors s
  let s := Combine_Gears 0 0 (NUM_GEARS - 1) 5 s
  (s, (findBest s.soln).2)

/-- A call of the reporter: the value of `best` it receives (`none` when `best` was
never assigned) and the display mode. -/
inductive Call
  | Display_Gears (best : Option Cfg) (mode : Int)

/-- The calls of the reporter made by `Search_Gears`: the statement
`Display_Gears(best, mode)` that follows the selection loop, under no condition. -/
def Search_Gears_calls (mode : Int) (s : State) : List Call :=
  [Call.Display_Gears (Search_Gears mode s).2 mode]

/-! ## Vocabulary for the statements

Nothing below is part of the program: these definitions name what the program
reads and logs, so that the claims can be stated. -/

/-- The state of the program at start-up: zero-initialised statics, and the target
pitch set in `main`. -/
def initState : State :=
  { soln := fun _ => { error := 0, a := 0, b := 0, c := 0, d := 0, e := 0 }
    goal_pitch := (175 / 100) / MM_PER_INCH
    valid_count := 0
    vec := List.replicate 10 0
    trace := []
    hist := [] }

/-- Number of slots of a configuration: `Combine_Gears` starts the permutation
search of a configuration when that many positions have been chosen. -/
def arity : Cfg → Nat
  | .GEAR_CONFIG_0 => 3
  | .GEAR_CONFIG_1 => 5
  | .GEAR_CONFIG_2 => 4
  | .GEAR_CONFIG_3 => 4

/-- Verdict of `Gear_Valid` on the tooth counts that `Check_Gears` reads from `vec`. -/
def validAt (cfg : Cfg) (vec : List Nat) : Int :=
  Gear_Valid cfg (gearAt vec 0) (gearAt vec 1) (gearAt vec 2) (gearAt vec 3) (gearAt vec 4)

/-- Pitch of the tooth counts that `Check_Gears` reads from `vec`. -/
def pitchAt (cfg : Cfg) (vec : List Nat) : ℚ :=
  Calc_Pitch cfg (gearAt vec 0) (gearAt vec 1) (gearAt vec 2) (gearAt vec 3) (gearAt vec 4)

/-- An assignment of a configuration: pairwise distinct catalog positions, one for
each of its slots. -/
def Assignment (cfg : Cfg) (p : List Nat) : Prop :=
  p.length = arity cfg ∧ p.Nodup ∧ ∀ x ∈ p, x < NUM_GEARS

/-- A solution table is sound for a target pitch when every entry whose error is
below the sentinel holds tooth counts that `Gear_Valid` accepts and whose pitch
error is the stored error. -/
def SolnSound (goal : ℚ) (soln : Cfg → GS) : Prop :=
  ∀ cfg, (soln cfg).error < INITIAL_ERROR →
    Gear_Valid cfg (soln cfg).a (soln cfg).b (soln cfg).c (soln cfg).d (soln cfg).e = 1 ∧
    (soln cfg).error =
      |Calc_Pitch cfg (soln cfg).a (soln cfg).b (soln cfg).c (soln cfg).d (soln cfg).e - goal|

/-- Contents of `vec` at a logged entry. -/
def Event.buf : Event → List Nat
  | .permute _ _ v => v
  | .check _ v => v

/-- The `Check_Gears` entries of a trace. -/
def checkEvents (es : List Event) : List (Cfg × List Nat) :=
  es.flatMap fun e =>
    match e with
    | .check c v => [(c, v)]
    | .permute _ _ _ => []

/-- Contents of `vec` at the `Check_Gears` entries of one configuration. -/
def checksOf (cfg : Cfg) (es : List Event) : List (List Nat) :=
  es.flatMap fun e =>
    match e with
    | .check c v => if c = cfg then [v] else []
    | .permute _ _ _ => []

/-- Contents of `vec` at the entries into `Permute_Gears` that `Combine_Gears` makes
for one configuration (the recursive entries have a smaller `n`). -/
def trigsOf (cfg : Cfg) (es : List Event) : List (List Nat) :=
  es.flatMap fun e =>
    match e with
    | .permute c n v => if c = cfg ∧ n + 1 = arity cfg then [v] else []
    | .check _ _ => []

/-- The part of the trace written since a state with trace `old`. -/
def newTrace (old : State) (new : State) : List Event := new.trace.drop old.trace.length

/-- The part of the history written since a state `old`. -/
def newHist (old : State) (new : State) : List (Cfg → GS) := new.hist.drop old.hist.length

/-- Overwrite the scratch buffer. -/
def setVec (v : List Nat) (s : State) : State := { s with vec := v }

/-- `swap` on the buffer alone. -/
def swapVec (i j : Nat) (v : List Nat) : List Nat :=
  (v.set i (v.getD j 0)).set j (v.getD i 0)

/-- Effect of one logged function entry on the state: an entry into `Permute_Gears`
only logs, an entry into `Check_Gears` runs it on the logged buffer. -/
def Event.apply : Event → State → State
  | .permute cfg n v, s => { s with vec := v, trace := s.trace ++ [Event.permute cfg n v] }
  | .check cfg v, s => Check_Gears cfg { s with vec := v }

/-- Run a list of logged entries. -/
def replay (es : List Event) (s : State) : State := es.foldl (fun t e => e.apply t) s

/-- The entries logged by `Permute_Gears cfg n` on buffer `v`. -/
def permTrace (cfg : Cfg) : Nat → List Nat → List Event
  | 0, v => [Event.permute cfg 0 v, Event.check cfg v]
  | n + 1, v =>
    Event.permute cfg (n + 1) v ::
      (List.range (n + 2)).flatMap fun i => permTrace cfg n (swapVec (n + 1) i v)

/-- The buffers at the `Check_Gears` calls of `Permute_Gears cfg n` on buffer `v`. -/
def perms : Nat → List Nat → List (List Nat)
  | 0, v => [v]
  | n + 1, v => (List.range (n + 2)).flatMap fun i => perms n (swapVec (n + 1) i v)

/-- Strictly increasing `j`-tuples with entries in `lo .. n`, in lexicographic order. -/
def incTuples (n : Nat) : Nat → Nat → List (List Nat)
  | 0, _ => [[]]
  | j + 1, lo =>
    (List.range' lo (n + 1 - lo)).flatMap fun i => (incTuples n j (i + 1)).map (i :: ·)

/-- The entries logged by the `Permute_Gears` calls that `Combine_Gears` makes at
depth `kx` on buffer `v` (for `k = 5`). -/
def levelTrace (kx : Nat) (v : List Nat) : List Event :=
  (if kx = 3 then permTrace .GEAR_CONFIG_0 2 v else []) ++
  (if kx = 4 then permTrace .GEAR_CONFIG_2 3 v ++ permTrace .GEAR_CONFIG_3 3 v else []) ++
  (if kx = 5 then permTrace .GEAR_CONFIG_1 4 v else [])

/-- On every state with buffer `v`, `f` acts as the logged entries `es` followed by
leaving the buffer `w`. -/
def Runs (f : State → State) (v : List Nat) (es : List Event) (w : List Nat) : Prop :=
  ∀ s : State, s.vec = v → f s = setVec w (replay es s)

/-- What the entries logged by `Combine_Gears ix kx n 5` on buffer `v` look like,
configuration by configuration: the checks are the orderings of the buffers at the
permutation searches, and the prefixes at those searches are the prefix of `v`
extended by the increasing tuples over `ix .. n`. -/
def TraceShape (n kx ix : Nat) (v : List Nat) (es : List Event) : Prop :=
  ∀ c : Cfg,
    (∀ u ∈ trigsOf c es, u.length = v.length) ∧
    checksOf c es = (trigsOf c es).flatMap (perms (arity c - 1)) ∧
    (trigsOf c es).map (List.take (arity c)) =
      if kx ≤ arity c then (incTuples n (arity c - kx) ix).map (v.take kx ++ ·) else []

/-! ## Vocabulary for the search as a whole -/

/-- A state whose target pitch, 10 inches, is out of reach of every gear train. -/
def farState : State := { initState with goal_pitch := 10 }

/-- The `n` of a logged entry into `Permute_Gears` (0 for an entry into
`Check_Gears`): `Permute_Gears(cfg, n)` swaps positions `0 .. n` only. -/
def Event.depth : Event → Nat
  | .permute _ n _ => n
  | .check _ _ => 0

/-- Every logged entry sees a buffer of length `L` whose entries are at most `n` and
whose positions from 5 on are `D`, and no entry into `Permute_Gears` is deeper than 4. -/
def GoodTrace (n L : Nat) (D : List Nat) (es : List Event) : Prop :=
  ∀ e ∈ es, e.buf.length = L ∧ e.buf.drop 5 = D ∧ (∀ x ∈ e.buf, x ≤ n) ∧ e.depth ≤ 4

/-- The loop of `Combine_Gears` at depth `kx` over the positions `l` (for `k = 5`). -/
def combineLoop (n kx : Nat) (l : List Nat) (s : State) : State :=
  l.foldl (fun s i => Combine_Gears (i + 1) (kx + 1) n 5 { s with vec := s.vec.set kx i }) s

/-- Position `j` holds `n` at every permutation search of a configuration that does
not use position `j`. -/
def StaleAll (n j : Nat) (es : List Event) : Prop :=
  ∀ c, arity c ≤ j → ∀ u ∈ trigsOf c es, u.getD j 0 = n

/-- As `StaleAll`, but leaving out the first permutation search of each configuration. -/
def StaleTail (n j : Nat) (es : List Event) : Prop :=
  ∀ c, arity c ≤ j → ∀ u ∈ (trigsOf c es).tail, u.getD j 0 = n

/-- No permutation search of a configuration with fewer than `kx` slots. -/
def NoTrigs (kx : Nat) (es : List Event) : Prop :=
  ∀ c, arity c < kx → trigsOf c es = []

/-- What the descent `Combine_Gears ix kx n 5` on buffer `v` does to the stale
position `j`: with logged entries `es` and final buffer `w`. -/
def StaleSpec (n j kx ix : Nat) (v : List Nat) (es : List Event) (w : List Nat) : Prop :=
  w.length = v.length ∧ w.take kx = v.take kx ∧ NoTrigs kx es ∧
    (kx ≤ j → v.getD j 0 = n → w.getD j 0 = n ∧ StaleAll n j es) ∧
    (kx ≤ j → ix + (j - kx) ≤ n → w.getD j 0 = n ∧ StaleTail n j es)

/-- The update of one solution by one `Check_Gears` call on buffer `w`. -/
def pick (c : Cfg) (goal : ℚ) (g : GS) (w : List Nat) : GS :=
  if validAt c w ≠ 0 ∧ |pitchAt c w - goal| < g.error then
    { error := |pitchAt c w - goal|
      a := gearAt w 0, b := gearAt w 1, c := gearAt w 2, d := gearAt w 3, e := gearAt w 4 }
  else g

/-- The solution of one configuration after the `Check_Gears` calls on the buffers `L`. -/
def bestOf (c : Cfg) (goal : ℚ) (L : List (List Nat)) (g : GS) : GS :=
  L.foldl (pick c goal) g

/-- Two solutions with the same error that are the same solution once the error is
below `E`. -/
def SameBelow (E : ℚ) (g g' : GS) : Prop :=
  g.error = g'.error ∧ (g.error < E → g = g')

/-- The first five buffer positions at the `Check_Gears` calls of a configuration,
the calls of its first permutation search left out. -/
def canonChecks (c : Cfg) : List (List Nat) :=
  ((incTuples 15 (arity c) 0).tail.map (· ++ List.replicate (5 - arity c) 15)).flatMap
    (perms (arity c - 1))

/-! ## Truncation and train length -/

theorem toInt_intCast (n : Int) : toInt (n : ℚ) = n := by
  unfold toInt
  split <;> simp

theorem toInt_add_half (l g : Int) :
    toInt ((l : ℚ) + (g : ℚ) / 2) = (2 * l + g).tdiv 2 := by
  have e : (l : ℚ) + (g : ℚ) / 2 = ((2 * l + g : Int) : ℚ) / ((2 : Nat) : ℚ) := by
    push_cast
    ring
  have e' : -(((2 * l + g : Int) : ℚ) / ((2 : Nat) : ℚ))
      = ((-(2 * l + g) : Int) : ℚ) / ((2 : Nat) : ℚ) := by
    push_cast
    ring
  unfold toInt
  rw [e]
  split
  · rename_i h
    have h0 : 0 ≤ 2 * l + g := by
      by_contra hc
      have hneg : ((2 * l + g : Int) : ℚ) < 0 := by exact_mod_cast (not_le.mp hc)
      have : ((2 * l + g : Int) : ℚ) / ((2 : Nat) : ℚ) < 0 :=
        div_neg_of_neg_of_pos hneg (by norm_num)
      exact absurd h (not_le.mpr this)
    rw [Rat.floor_intCast_div_natCast, Int.tdiv_eq_ediv h0 (by norm_num)]
    rfl
  · rename_i h
    have h0 : 2 * l + g < 0 := by
      by_contra hc
      have hpos : (0 : ℚ) ≤ ((2 * l + g : Int) : ℚ) := by exact_mod_cast (not_lt.mp hc)
      exact h (div_nonneg hpos (by norm_num))
    have hc : ⌈((2 * l + g : Int) : ℚ) / ((2 : Nat) : ℚ)⌉
        = -⌊-(((2 * l + g : Int) : ℚ) / ((2 : Nat) : ℚ))⌋ := by
      rw [Int.floor_neg, neg_neg]
    rw [hc, e', Rat.floor_intCast_div_natCast]
    have h1 : (2 * l + g).tdiv 2 = -((-(2 * l + g)).tdiv 2) := by
      rw [Int.neg_tdiv, neg_neg]
    rw [h1, Int.tdiv_eq_ediv (by omega) (by norm_num)]
    rfl

theorem toInt_add_int (l g : Int) : toInt ((l : ℚ) + (g : ℚ)) = l + g := by
  have : (l : ℚ) + (g : ℚ) = ((l + g : Int) : ℚ) := by push_cast; ring
  rw [this, toInt_intCast]

theorem toInt_idler : toInt (IDLER_TEETH / 2) = 20 := by
  have : IDLER_TEETH / 2 = ((20 : Int) : ℚ) := by unfold IDLER_TEETH; norm_num
  rw [this, toInt_intCast]

/-- The train length in integer arithmetic: every half is truncated on its own. -/
theorem Calc_Length_eq (cfg : Cfg) (ga gb gc gd ge : Int) :
    Calc_Length cfg ga gb gc gd ge =
      match cfg with
      | .GEAR_CONFIG_0 => (2 * (20 + ga + gb) + gc).tdiv 2
      | .GEAR_CONFIG_1 =>
        (2 * (2 * (2 * (2 * (2 * 20 + ga).tdiv 2 + gb).tdiv 2 + gc).tdiv 2 + gd).tdiv 2
          + ge).tdiv 2
      | .GEAR_CONFIG_2 =>
        (2 * ((2 * (2 * 20 + ga).tdiv 2 + gb).tdiv 2 + gc) + gd).tdiv 2
      | .GEAR_CONFIG_3 =>
        (2 * (2 * (2 * (20 + ga) + gb).tdiv 2 + gc).tdiv 2 + gd).tdiv 2 := by
  cases cfg <;>
    simp only [Calc_Length, toInt_idler, toInt_add_half, toInt_add_int]

/-! ## Feasibility checker -/

theorem Gear_Valid_zero_or_one (cfg : Cfg) (ga gb gc gd ge : Int) :
    Gear_Valid cfg ga gb gc gd ge = 0 ∨ Gear_Valid cfg ga gb gc gd ge = 1 := by
  cases cfg <;> simp only [Gear_Valid] <;> split_ifs <;> simp

theorem Gear_Valid_0_iff (ga gb gc gd ge : Int) :
    Gear_Valid .GEAR_CONFIG_0 ga gb gc gd ge = 1 ↔
      ga + gb ≤ 168 ∧ 80 ≤ gb + gc ∧ 154 ≤ Calc_Length .GEAR_CONFIG_0 ga gb gc gd ge := by
  simp only [Gear_Valid, MAX_SLOT_GEARS, MIN_FINAL_GEARS, MINIMUM_GTL]
  constructor
  · intro h
    split_ifs at h <;> simp_all
  · rintro ⟨h1, h2, h3⟩
    split_ifs <;> simp_all <;> omega

theorem Gear_Valid_1_iff (ga gb gc gd ge : Int) :
    Gear_Valid .GEAR_CONFIG_1 ga gb gc gd ge = 1 ↔
      gb + gc ≤ 168 ∧ 80 ≤ gd + ge ∧ gb - ga ≤ 6 ∧ 4 ≤ (gb + gc) - (ga + gd) ∧
        4 ≤ (gd + ge) - (gc + 30) ∧ 154 ≤ Calc_Length .GEAR_CONFIG_1 ga gb gc gd ge := by
  simp only [Gear_Valid, MAX_SLOT_GEARS, MIN_FINAL_GEARS, MINIMUM_GTL, MAX_AB_DIFFERENCE,
    MIN_GEAR_CLEARANCE, GEAR_X_SIZE]
  constructor
  · intro h
    split_ifs at h <;> simp_all
  · rintro ⟨h1, h2, h3, h4, h5, h6⟩
    split_ifs <;> simp_all <;> omega

theorem Gear_Valid_2_iff (ga gb gc gd ge : Int) :
    Gear_Valid .GEAR_CONFIG_2 ga gb gc gd ge = 1 ↔
      gb + gc ≤ 168 ∧ 80 ≤ gc + gd ∧ gb - ga ≤ 6 ∧
        154 ≤ Calc_Length .GEAR_CONFIG_2 ga gb gc gd ge := by
  simp only [Gear_Valid, MAX_SLOT_GEARS, MIN_FINAL_GEARS, MINIMUM_GTL, MAX_AB_DIFFERENCE]
  constructor
  · intro h
    split_ifs at h <;> simp_all
  · rintro ⟨h1, h2, h3, h4⟩
    split_ifs <;> simp_all <;> omega

theorem Gear_Valid_3_iff (ga gb gc gd ge : Int) :
    Gear_Valid .GEAR_CONFIG_3 ga gb gc gd ge = 1 ↔
      ga + gb ≤ 168 ∧ 80 ≤ gc + gd ∧ 4 ≤ (ga + gb) - (gc + 30) ∧
        4 ≤ (gc + gd) - (gb + 30) ∧ 154 ≤ Calc_Length .GEAR_CONFIG_3 ga gb gc gd ge := by
  simp only [Gear_Valid, MAX_SLOT_GEARS, MIN_FINAL_GEARS, MINIMUM_GTL,
    MIN_GEAR_CLEARANCE, GEAR_X_SIZE]
  constructor
  · intro h
    split_ifs at h <;> simp_all
  · rintro ⟨h1, h2, h3, h4, h5⟩
    split_ifs <;> simp_all <;> omega

/-! ## The scratch buffer under `swap` -/

theorem swapVec_length (i j : Nat) (v : List Nat) : (swapVec i j v).length = v.length := by
  simp [swapVec]

theorem swapVec_drop (n i : Nat) (v : List Nat) (hi : i ≤ n) :
    (swapVec n i v).drop (n + 1) = v.drop (n + 1) := by
  unfold swapVec
  rw [List.drop_set, if_pos (by omega), List.drop_set, if_pos (by omega)]

theorem getD_swapVec (i j k : Nat) (v : List Nat) (hi : i < v.length) (hj : j < v.length) :
    (swapVec i j v).getD k 0 =
      if k = j then v.getD i 0 else if k = i then v.getD j 0 else v.getD k 0 := by
  unfold swapVec
  simp only [List.getD_eq_getElem?_getD, List.getElem?_set, List.length_set]
  by_cases hkj : k = j
  · subst hkj
    simp [hj]
  · by_cases hki : k = i
    · subst hki
      simp [hi, hkj, Ne.symm hkj]
    · simp [hkj, hki, Ne.symm hkj, Ne.symm hki]

theorem swapVec_swapVec (i j : Nat) (v : List Nat) (hi : i < v.length) (hj : j < v.length) :
    swapVec i j (swapVec i j v) = v := by
  apply List.ext_getElem?
  intro k
  have hlen : (swapVec i j (swapVec i j v)).length = v.length := by
    rw [swapVec_length, swapVec_length]
  by_cases hk : k < v.length
  · have h2 : (swapVec i j (swapVec i j v)).getD k 0 = v.getD k 0 := by
      rw [getD_swapVec i j k (swapVec i j v) (by rw [swapVec_length]; exact hi)
        (by rw [swapVec_length]; exact hj), getD_swapVec i j i v hi hj,
        getD_swapVec i j j v hi hj, getD_swapVec i j k v hi hj]
      split_ifs <;> simp_all
    rw [List.getElem?_eq_getElem (by rw [hlen]; exact hk), List.getElem?_eq_getElem hk]
    rw [List.getD_eq_getElem _ _ (by rw [hlen]; exact hk), List.getD_eq_getElem _ _ hk] at h2
    rw [h2]
  · rw [List.getElem?_eq_none (by rw [hlen]; omega), List.getElem?_eq_none (by omega)]

theorem cons_set_perm (t : List Nat) (j x : Nat) (hj : j < t.length) :
    (t.getD j 0 :: t.set j x).Perm (x :: t) := by
  induction t generalizing j with
  | nil => simp at hj
  | cons y t ih =>
    cases j with
    | zero => simpa using List.Perm.swap x y t
    | succ j =>
      have hj' : j < t.length := by simpa using hj
      have h1 : ((y :: t).getD (j + 1) 0 :: (y :: t).set (j + 1) x)
          = (t.getD j 0 :: y :: t.set j x) := by simp
      rw [h1]
      exact (List.Perm.swap y (t.getD j 0) (t.set j x)).trans
        (((ih j hj').cons y).trans (List.Perm.swap x y t))

theorem swapVec_perm (i j : Nat) (v : List Nat) (hi : i < v.length) (hj : j < v.length) :
    (swapVec i j v).Perm v := by
  induction v generalizing i j with
  | nil => simp at hi
  | cons x t ih =>
    cases i with
    | zero =>
      cases j with
      | zero => simp [swapVec]
      | succ j =>
        have hj' : j < t.length := by simpa using hj
        simpa [swapVec] using cons_set_perm t j x hj'
    | succ i =>
      have hi' : i < t.length := by simpa using hi
      cases j with
      | zero => simpa [swapVec] using cons_set_perm t i x hi'
      | succ j =>
        have hj' : j < t.length := by simpa using hj
        simpa [swapVec] using ih i j hi' hj'

theorem swapVec_take_perm (n i : Nat) (v : List Nat) (hn : n < v.length) (hi : i ≤ n) :
    ((swapVec n i v).take (n + 1)).Perm (v.take (n + 1)) := by
  have h := swapVec_perm n i v hn (by omega)
  have e1 : (swapVec n i v).take (n + 1) ++ v.drop (n + 1) = swapVec n i v := by
    conv_rhs => rw [← List.take_append_drop (n + 1) (swapVec n i v), swapVec_drop n i v hi]
  have h1 : ((swapVec n i v).take (n + 1) ++ v.drop (n + 1)).Perm
      (v.take (n + 1) ++ v.drop (n + 1)) := by
    rw [e1, List.take_append_drop]
    exact h
  exact (List.perm_append_right_iff _).mp h1

/-! ## The orderings produced by the swap scheme -/

theorem perms_length (n : Nat) (v : List Nat) : (perms n v).length = (n + 1).factorial := by
  induction n generalizing v with
  | zero => simp [perms]
  | succ n ih =>
    rw [perms, List.length_flatMap]
    have : List.map (List.length ∘ fun i => perms n (swapVec (n + 1) i v)) (List.range (n + 2))
        = List.replicate (n + 2) (n + 1).factorial := by
      rw [List.eq_replicate_iff]
      refine ⟨by simp, ?_⟩
      intro b hb
      rw [List.mem_map] at hb
      obtain ⟨i, _, rfl⟩ := hb
      exact ih _
    rw [this, List.sum_const_nat, Nat.factorial_succ (n + 1)]

theorem perms_mem_length (n : Nat) (v w : List Nat) (h : w ∈ perms n v) :
    w.length = v.length := by
  induction n generalizing v with
  | zero => simp [perms] at h; rw [h]
  | succ n ih =>
    rw [perms, List.mem_flatMap] at h
    obtain ⟨i, _, hw⟩ := h
    rw [ih _ hw, swapVec_length]

theorem perms_mem_drop (n : Nat) (v w : List Nat) (h : w ∈ perms n v) :
    w.drop (n + 1) = v.drop (n + 1) := by
  induction n generalizing v with
  | zero => simp [perms] at h; rw [h]
  | succ n ih =>
    rw [perms, List.mem_flatMap] at h
    obtain ⟨i, hi, hw⟩ := h
    rw [List.mem_range] at hi
    have h1 := ih _ hw
    have h2 : List.drop 1 (w.drop (n + 1)) = List.drop 1 ((swapVec (n + 1) i v).drop (n + 1)) := by
      rw [h1]
    rw [List.drop_drop, List.drop_drop] at h2
    rw [h2, swapVec_drop (n + 1) i v (by omega)]

theorem perms_mem_take (n : Nat) (v w : List Nat) (hn : n < v.length) (h : w ∈ perms n v) :
    (w.take (n + 1)).Perm (v.take (n + 1)) := by
  induction n generalizing v with
  | zero => simp [perms] at h; rw [h]
  | succ n ih =>
    rw [perms, List.mem_flatMap] at h
    obtain ⟨i, hi, hw⟩ := h
    rw [List.mem_range] at hi
    have hlen : n < (swapVec (n + 1) i v).length := by rw [swapVec_length]; omega
    have h1 := ih _ hlen hw
    have h2 := perms_mem_drop n _ w hw
    have h3 : (w.take (n + 1 + 1)).Perm ((swapVec (n + 1) i v).take (n + 1 + 1)) := by
      rw [List.take_add w (n + 1) 1, List.take_add (swapVec (n + 1) i v) (n + 1) 1, h2]
      exact h1.append_right _
    exact h3.trans (swapVec_take_perm (n + 1) i v hn (by omega))

theorem perms_complete (n : Nat) (v w : List Nat) (hn : n < v.length)
    (hlen : w.length = v.length) (hdrop : w.drop (n + 1) = v.drop (n + 1))
    (htake : (w.take (n + 1)).Perm (v.take (n + 1))) : w ∈ perms n v := by
  induction n generalizing v with
  | zero =>
    have h1 : w.take 1 = v.take 1 := by
      have hw : w.take 1 = [w[0]] := by
        rw [List.take_succ, List.getElem?_eq_getElem (by omega)]; simp
      have hv : v.take 1 = [v[0]] := by
        rw [List.take_succ, List.getElem?_eq_getElem (by omega)]; simp
      rw [hw, hv] at htake
      rw [hw, hv, List.perm_singleton.mp htake]
    have : w = v := by
      rw [← List.take_append_drop 1 w, ← List.take_append_drop 1 v, h1]
      simpa using hdrop
    simp [perms, this]
  | succ n ih =>
    have hwn : n + 1 < w.length := by omega
    have hx : w[n + 1] ∈ v.take (n + 1 + 1) := by
      rw [← htake.mem_iff, List.mem_take_iff_getElem]
      exact ⟨n + 1, by simp; omega, rfl⟩
    rw [List.mem_take_iff_getElem] at hx
    obtain ⟨i, hi, hvi⟩ := hx
    have hi1 : i < n + 2 := by
      have := Nat.lt_of_lt_of_le hi (Nat.min_le_left _ _)
      omega
    have hi2 : i < v.length := Nat.lt_of_lt_of_le hi (Nat.min_le_right _ _)
    rw [perms, List.mem_flatMap]
    refine ⟨i, List.mem_range.mpr hi1, ?_⟩
    have hul : (swapVec (n + 1) i v).length = v.length := swapVec_length _ _ _
    have hub : n + 1 < (swapVec (n + 1) i v).length := by rw [hul]; exact hn
    have hun : (swapVec (n + 1) i v)[n + 1] = w[n + 1] := by
      have hg := getD_swapVec (n + 1) i (n + 1) v hn hi2
      rw [List.getD_eq_getElem _ _ hub] at hg
      rw [hg, ← hvi]
      by_cases hc : n + 1 = i
      · subst hc
        rw [if_pos rfl, List.getD_eq_getElem _ _ hn]
      · rw [if_neg hc, if_pos rfl, List.getD_eq_getElem _ _ hi2]
    have hd : w.drop (n + 1) = (swapVec (n + 1) i v).drop (n + 1) := by
      rw [List.drop_eq_getElem_cons hwn, List.drop_eq_getElem_cons hub,
        hun, hdrop, swapVec_drop (n + 1) i v (by omega)]
    apply ih _ (by rw [hul]; omega) (by rw [hul]; exact hlen) hd
    have h3 : (w.take (n + 1 + 1)).Perm ((swapVec (n + 1) i v).take (n + 1 + 1)) :=
      htake.trans (swapVec_take_perm (n + 1) i v hn (by omega)).symm
    rw [List.take_add w (n + 1) 1, List.take_add (swapVec (n + 1) i v) (n + 1) 1, hd] at h3
    exact (List.perm_append_right_iff _).mp h3

/-- With pairwise distinct entries in `v[0..n]`, the prefixes seen at the checks are
the permutations of the entry prefix, each once. -/
theorem perms_take_perm (n : Nat) (v : List Nat) (hn : n < v.length)
    (hnd : (v.take (n + 1)).Nodup) :
    ((perms n v).map (List.take (n + 1))).Perm (v.take (n + 1)).permutations := by
  symm
  apply List.Subperm.perm_of_length_le
  · apply (List.nodup_permutations _ hnd).subperm
    intro p hp
    rw [List.mem_permutations] at hp
    rw [List.mem_map]
    refine ⟨p ++ v.drop (n + 1), ?_, ?_⟩
    · have hpl : p.length = n + 1 := by
        rw [hp.length_eq, List.length_take]; omega
      apply perms_complete n v _ hn
      · rw [List.length_append, List.length_drop, hpl]; omega
      · rw [List.drop_append_of_le_length (by omega), List.drop_of_length_le (by omega)]
        rfl
      · rw [List.take_append_of_le_length (by omega), List.take_of_length_le (by omega)]
        exact hp
    · have hpl : p.length = n + 1 := by
        rw [hp.length_eq, List.length_take]; omega
      rw [List.take_append_of_le_length (by omega), List.take_of_length_le (by omega)]
  · rw [List.length_map, perms_length, List.length_permutations, List.length_take]
    have : min (n + 1) v.length = n + 1 := by omega
    rw [this]

/-! ## Running logged entries -/

theorem setVec_self (v : List Nat) (s : State) (h : s.vec = v) : setVec v s = s := by
  subst h
  rfl

theorem setVec_setVec (v w : List Nat) (s : State) : setVec v (setVec w s) = setVec v s := rfl

theorem setVec_vec (v : List Nat) (s : State) : (setVec v s).vec = v := rfl

theorem swap_eq (i j : Nat) (s : State) : swap i j s = setVec (swapVec i j s.vec) s := rfl

theorem Check_Gears_vec (cfg : Cfg) (s : State) : (Check_Gears cfg s).vec = s.vec := by
  unfold Check_Gears
  simp only []
  split_ifs <;> rfl

theorem Check_Gears_goal (cfg : Cfg) (s : State) :
    (Check_Gears cfg s).goal_pitch = s.goal_pitch := by
  unfold Check_Gears
  simp only []
  split_ifs <;> rfl

theorem Check_Gears_trace (cfg : Cfg) (s : State) :
    (Check_Gears cfg s).trace = s.trace ++ [Event.check cfg s.vec] := by
  unfold Check_Gears
  simp only []
  split_ifs <;> rfl

theorem apply_setVec (e : Event) (w : List Nat) (s : State) :
    e.apply (setVec w s) = e.apply s := by
  cases e <;> rfl

theorem replay_nil (s : State) : replay [] s = s := rfl

theorem replay_cons (e : Event) (es : List Event) (s : State) :
    replay (e :: es) s = replay es (e.apply s) := rfl

theorem replay_append (es fs : List Event) (s : State) :
    replay (es ++ fs) s = replay fs (replay es s) := by
  unfold replay
  rw [List.foldl_append]

theorem replay_setVec (es : List Event) (v w : List Nat) (s : State) :
    setVec v (replay es (setVec w s)) = setVec v (replay es s) := by
  cases es with
  | nil => rfl
  | cons e es => rw [replay_cons, replay_cons, apply_setVec]

theorem apply_trace (e : Event) (s : State) : (e.apply s).trace = s.trace ++ [e] := by
  cases e with
  | permute c n v => rfl
  | check c v => exact Check_Gears_trace c _

theorem apply_goal (e : Event) (s : State) : (e.apply s).goal_pitch = s.goal_pitch := by
  cases e with
  | permute c n v => rfl
  | check c v => exact Check_Gears_goal c _

theorem replay_trace (es : List Event) (s : State) :
    (replay es s).trace = s.trace ++ es := by
  induction es generalizing s with
  | nil => simp [replay_nil]
  | cons e es ih => rw [replay_cons, ih, apply_trace]; simp

theorem replay_goal (es : List Event) (s : State) :
    (replay es s).goal_pitch = s.goal_pitch := by
  induction es generalizing s with
  | nil => rfl
  | cons e es ih => rw [replay_cons, ih, apply_goal]

theorem Runs.comp {f g : State → State} {v w u : List Nat} {es fs : List Event}
    (hf : Runs f v es w) (hg : Runs g w fs u) : Runs (fun s => g (f s)) v (es ++ fs) u := by
  intro s hs
  show g (f s) = _
  rw [hf s hs, hg _ (setVec_vec _ _), replay_setVec, replay_append]

theorem Runs.id (v : List Nat) : Runs (fun s => s) v [] v := by
  intro s hs
  rw [replay_nil, setVec_self v s hs]

theorem Runs.write (v : List Nat) (kx i : Nat) :
    Runs (fun s => { s with vec := s.vec.set kx i }) v [] (v.set kx i) := by
  intro s hs
  subst hs
  rfl

theorem Runs_permute_loop (cfg : Cfg) (n : Nat) (v : List Nat) (hn : n + 1 < v.length)
    (ih : ∀ u : List Nat, n < u.length → Runs (Permute_Gears cfg n) u (permTrace cfg n u) u)
    (l : List Nat) (hl : ∀ i ∈ l, i ≤ n + 1) :
    Runs (fun s => l.foldl
        (fun s i => swap (n + 1) i (Permute_Gears cfg n (swap (n + 1) i s))) s) v
      (l.flatMap fun i => permTrace cfg n (swapVec (n + 1) i v)) v := by
  induction l with
  | nil => exact Runs.id v
  | cons i l ihl =>
    intro s hs
    have hi : i ≤ n + 1 := hl i (List.mem_cons_self _ _)
    have hu : n < (swapVec (n + 1) i v).length := by rw [swapVec_length]; omega
    have hbody : swap (n + 1) i (Permute_Gears cfg n (swap (n + 1) i s))
        = setVec v (replay (permTrace cfg n (swapVec (n + 1) i v)) s) := by
      rw [swap_eq (n + 1) i s, hs, ih _ hu _ (setVec_vec _ _), swap_eq, setVec_vec,
        swapVec_swapVec (n + 1) i v hn (by omega), setVec_setVec, replay_setVec]
    have htail := ihl (fun j hj => hl j (List.mem_cons_of_mem _ hj))
      (setVec v (replay (permTrace cfg n (swapVec (n + 1) i v)) s)) (setVec_vec _ _)
    beta_reduce at htail
    show List.foldl _ s (i :: l) = _
    rw [List.foldl_cons, hbody, htail, replay_setVec, List.flatMap_cons, replay_append]

/-- `Permute_Gears` is its logged entries, and it leaves the buffer as it found it. -/
theorem Runs_permute (cfg : Cfg) (n : Nat) (v : List Nat) (hn : n < v.length) :
    Runs (Permute_Gears cfg n) v (permTrace cfg n v) v := by
  induction n generalizing v with
  | zero =>
    intro s hs
    subst hs
    have : Permute_Gears cfg 0 s = Check_Gears cfg ((Event.permute cfg 0 s.vec).apply s) := rfl
    rw [this, permTrace, replay_cons, replay_cons, replay_nil]
    have h2 : (Event.check cfg s.vec).apply ((Event.permute cfg 0 s.vec).apply s)
        = Check_Gears cfg ((Event.permute cfg 0 s.vec).apply s) := rfl
    rw [h2, setVec_self]
    rw [Check_Gears_vec]
    rfl
  | succ n ih =>
    intro s hs
    have h1 : Permute_Gears cfg (n + 1) s
        = (List.range (n + 2)).foldl
            (fun s i => swap (n + 1) i (Permute_Gears cfg n (swap (n + 1) i s)))
            ((Event.permute cfg (n + 1) s.vec).apply s) := rfl
    have hloop := Runs_permute_loop cfg n v hn ih (List.range (n + 2))
      (fun i hi => by rw [List.mem_range] at hi; omega)
    have h2 := hloop ((Event.permute cfg (n + 1) s.vec).apply s) (by rw [← hs]; rfl)
    beta_reduce at h2
    rw [h1, h2, permTrace, replay_cons, hs]

/-! ## Reading a trace -/

@[simp] theorem checksOf_nil (c : Cfg) : checksOf c [] = [] := rfl

@[simp] theorem checksOf_append (c : Cfg) (es fs : List Event) :
    checksOf c (es ++ fs) = checksOf c es ++ checksOf c fs := by
  simp [checksOf]

@[simp] theorem checksOf_cons_permute (c cfg : Cfg) (n : Nat) (v : List Nat) (es : List Event) :
    checksOf c (Event.permute cfg n v :: es) = checksOf c es := by
  simp [checksOf]

@[simp] theorem checksOf_cons_check (c cfg : Cfg) (v : List Nat) (es : List Event) :
    checksOf c (Event.check cfg v :: es) = (if cfg = c then [v] else []) ++ checksOf c es := by
  simp [checksOf]

theorem checksOf_flatMap (c : Cfg) (l : List Nat) (f : Nat → List Event) :
    checksOf c (l.flatMap f) = l.flatMap fun i => checksOf c (f i) := by
  simp [checksOf, List.flatMap_assoc]

@[simp] theorem trigsOf_nil (c : Cfg) : trigsOf c [] = [] := rfl

@[simp] theorem trigsOf_append (c : Cfg) (es fs : List Event) :
    trigsOf c (es ++ fs) = trigsOf c es ++ trigsOf c fs := by
  simp [trigsOf]

@[simp] theorem trigsOf_cons_check (c cfg : Cfg) (v : List Nat) (es : List Event) :
    trigsOf c (Event.check cfg v :: es) = trigsOf c es := by
  simp [trigsOf]

@[simp] theorem trigsOf_cons_permute (c cfg : Cfg) (n : Nat) (v : List Nat) (es : List Event) :
    trigsOf c (Event.permute cfg n v :: es)
      = (if cfg = c ∧ n + 1 = arity c then [v] else []) ++ trigsOf c es := by
  simp [trigsOf]

theorem trigsOf_flatMap (c : Cfg) (l : List Nat) (f : Nat → List Event) :
    trigsOf c (l.flatMap f) = l.flatMap fun i => trigsOf c (f i) := by
  simp [trigsOf, List.flatMap_assoc]

@[simp] theorem checkEvents_nil : checkEvents [] = [] := rfl

@[simp] theorem checkEvents_append (es fs : List Event) :
    checkEvents (es ++ fs) = checkEvents es ++ checkEvents fs := by
  simp [checkEvents]

@[simp] theorem checkEvents_cons_permute (cfg : Cfg) (n : Nat) (v : List Nat) (es : List Event) :
    checkEvents (Event.permute cfg n v :: es) = checkEvents es := by
  simp [checkEvents]

@[simp] theorem checkEvents_cons_check (cfg : Cfg) (v : List Nat) (es : List Event) :
    checkEvents (Event.check cfg v :: es) = (cfg, v) :: checkEvents es := by
  simp [checkEvents]

theorem checkEvents_flatMap (l : List Nat) (f : Nat → List Event) :
    checkEvents (l.flatMap f) = l.flatMap fun i => checkEvents (f i) := by
  simp [checkEvents, List.flatMap_assoc]

theorem flatMap_nil_fun {α β : Type} (l : List α) : (l.flatMap fun _ => ([] : List β)) = [] := by
  induction l with
  | nil => rfl
  | cons a l ih => simp

theorem checkEvents_permTrace (cfg : Cfg) (n : Nat) (v : List Nat) :
    checkEvents (permTrace cfg n v) = (perms n v).map fun w => (cfg, w) := by
  induction n generalizing v with
  | zero => simp [permTrace, perms]
  | succ n ih =>
    rw [permTrace, checkEvents_cons_permute, checkEvents_flatMap, perms, List.map_flatMap]
    congr 1
    funext i
    exact ih _

theorem checksOf_permTrace (c cfg : Cfg) (n : Nat) (v : List Nat) :
    checksOf c (permTrace cfg n v) = if cfg = c then perms n v else [] := by
  induction n generalizing v with
  | zero => simp [permTrace, perms]
  | succ n ih =>
    rw [permTrace, checksOf_cons_permute, checksOf_flatMap, perms]
    by_cases h : cfg = c
    · have ih' : ∀ u, checksOf c (permTrace cfg n u) = perms n u := fun u => by
        rw [ih, if_pos h]
      simp only [ih']
      rw [if_pos h]
    · have ih' : ∀ u, checksOf c (permTrace cfg n u) = [] := fun u => by
        rw [ih, if_neg h]
      simp only [ih']
      rw [if_neg h]
      exact flatMap_nil_fun _

theorem trigsOf_permTrace_low (c cfg : Cfg) (n : Nat) (v : List Nat)
    (h : cfg ≠ c ∨ n + 1 < arity c) : trigsOf c (permTrace cfg n v) = [] := by
  induction n generalizing v with
  | zero =>
    have : ¬ (cfg = c ∧ 0 + 1 = arity c) := by
      rintro ⟨h1, h2⟩
      rcases h with h | h
      · exact h h1
      · omega
    simp [permTrace, this]
  | succ n ih =>
    have h' : ¬ (cfg = c ∧ n + 1 + 1 = arity c) := by
      rintro ⟨h1, h2⟩
      rcases h with h | h
      · exact h h1
      · omega
    have hn : cfg ≠ c ∨ n + 1 < arity c := by
      rcases h with h | h
      · exact Or.inl h
      · exact Or.inr (by omega)
    rw [permTrace, trigsOf_cons_permute, if_neg h', trigsOf_flatMap]
    simp only [ih _ hn, List.nil_append]
    exact flatMap_nil_fun _

theorem trigsOf_permTrace_top (cfg : Cfg) (n : Nat) (v : List Nat) (h : n + 1 = arity cfg) :
    trigsOf cfg (permTrace cfg n v) = [v] := by
  cases n with
  | zero => simp [permTrace, h]
  | succ n =>
    rw [permTrace, trigsOf_cons_permute, if_pos ⟨rfl, h⟩, trigsOf_flatMap]
    have : ∀ i, trigsOf cfg (permTrace cfg n (swapVec (n + 1) i v)) = [] :=
      fun i => trigsOf_permTrace_low cfg cfg n _ (Or.inr (by omega))
    simp only [this]
    rw [flatMap_nil_fun]
    rfl

theorem trigsOf_levelTrace (c : Cfg) (kx : Nat) (v : List Nat) :
    trigsOf c (levelTrace kx v) = if arity c = kx then [v] else [] := by
  unfold levelTrace
  by_cases h3 : kx = 3
  · subst h3
    cases c
    · simp [trigsOf_permTrace_top, arity]
    all_goals simp [trigsOf_permTrace_low, arity]
  by_cases h4 : kx = 4
  · subst h4
    cases c
    · simp [trigsOf_permTrace_low, arity]
    · simp [trigsOf_permTrace_low, arity]
    · simp [trigsOf_permTrace_top, trigsOf_permTrace_low, arity]
    · simp [trigsOf_permTrace_top, trigsOf_permTrace_low, arity]
  by_cases h5 : kx = 5
  · subst h5
    cases c
    · simp [trigsOf_permTrace_low, arity]
    · simp [trigsOf_permTrace_top, arity]
    · simp [trigsOf_permTrace_low, arity]
    · simp [trigsOf_permTrace_low, arity]
  have : arity c ≠ kx := by
    cases c <;> simp [arity] <;> omega
  simp [h3, h4, h5, this]

theorem checksOf_levelTrace (c : Cfg) (kx : Nat) (v : List Nat) :
    checksOf c (levelTrace kx v) = if arity c = kx then perms (arity c - 1) v else [] := by
  unfold levelTrace
  by_cases h3 : kx = 3
  · subst h3
    cases c <;> simp [checksOf_permTrace, arity]
  by_cases h4 : kx = 4
  · subst h4
    cases c <;> simp [checksOf_permTrace, arity]
  by_cases h5 : kx = 5
  · subst h5
    cases c <;> simp [checksOf_permTrace, arity]
  have : arity c ≠ kx := by
    cases c <;> simp [arity] <;> omega
  simp [h3, h4, h5, this]

theorem permTrace_buf (cfg : Cfg) (n : Nat) (v : List Nat) (e : Event)
    (he : e ∈ permTrace cfg n v) :
    e.buf.length = v.length ∧ e.buf.drop (n + 1) = v.drop (n + 1) := by
  induction n generalizing v with
  | zero =>
    simp only [permTrace, List.mem_cons, List.mem_singleton, List.not_mem_nil, or_false] at he
    rcases he with rfl | rfl <;> exact ⟨rfl, rfl⟩
  | succ n ih =>
    rw [permTrace, List.mem_cons, List.mem_flatMap] at he
    rcases he with rfl | ⟨i, hi, he⟩
    · exact ⟨rfl, rfl⟩
    · rw [List.mem_range] at hi
      obtain ⟨h1, h2⟩ := ih _ he
      refine ⟨by rw [h1, swapVec_length], ?_⟩
      have h3 : List.drop 1 (e.buf.drop (n + 1))
          = List.drop 1 ((swapVec (n + 1) i v).drop (n + 1)) := by rw [h2]
      rw [List.drop_drop, List.drop_drop] at h3
      rw [h3, swapVec_drop (n + 1) i v (by omega)]

/-! ## The descent of `Combine_Gears` -/

theorem Combine_Gears_unfold (ix kx n k : Nat) (s : State) :
    Combine_Gears ix kx n k s =
      if kx = k then
        Permute_Gears .GEAR_CONFIG_1 4
          (if kx = 4 then
            Permute_Gears .GEAR_CONFIG_3 3 (Permute_Gears .GEAR_CONFIG_2 3
              (if kx = 3 then Permute_Gears .GEAR_CONFIG_0 2 s else s))
          else (if kx = 3 then Permute_Gears .GEAR_CONFIG_0 2 s else s))
      else
        (List.range' ix (n + 1 - ix)).foldl
          (fun s i => Combine_Gears (i + 1) (kx + 1) n k { s with vec := s.vec.set kx i })
          (if kx = 4 then
            Permute_Gears .GEAR_CONFIG_3 3 (Permute_Gears .GEAR_CONFIG_2 3
              (if kx = 3 then Permute_Gears .GEAR_CONFIG_0 2 s else s))
          else (if kx = 3 then Permute_Gears .GEAR_CONFIG_0 2 s else s)) := by
  rw [Combine_Gears]
  split
  · rfl
  · exact List.foldl_attach (List.range' ix (n + 1 - ix))
      (fun s i => Combine_Gears (i + 1) (kx + 1) n k { s with vec := s.vec.set kx i }) _

theorem Runs_level (kx : Nat) (v : List Nat) (hv : 5 ≤ v.length) (hk : kx ≠ 5) :
    Runs (fun s =>
        if kx = 4 then
          Permute_Gears .GEAR_CONFIG_3 3 (Permute_Gears .GEAR_CONFIG_2 3
            (if kx = 3 then Permute_Gears .GEAR_CONFIG_0 2 s else s))
        else (if kx = 3 then Permute_Gears .GEAR_CONFIG_0 2 s else s))
      v (levelTrace kx v) v := by
  unfold levelTrace
  by_cases h3 : kx = 3
  · subst h3
    simpa using Runs_permute .GEAR_CONFIG_0 2 v (by omega)
  by_cases h4 : kx = 4
  · subst h4
    simpa using (Runs_permute .GEAR_CONFIG_2 3 v (by omega)).comp
      (Runs_permute .GEAR_CONFIG_3 3 v (by omega))
  simpa [h3, h4, hk] using Runs.id v

theorem Runs_level_five (ix n : Nat) (v : List Nat) (hv : 5 ≤ v.length) :
    Runs (Combine_Gears ix 5 n 5) v (levelTrace 5 v) v := by
  intro s hs
  rw [Combine_Gears_unfold]
  simpa [levelTrace] using Runs_permute .GEAR_CONFIG_1 4 v (by omega) s hs

theorem take_set_self (v : List Nat) (kx i : Nat) : (v.set kx i).take kx = v.take kx := by
  rw [List.set_eq_take_append_cons_drop]
  split
  · rename_i h
    rw [List.take_append_of_le_length (by rw [List.length_take]; omega),
      List.take_take, Nat.min_self]
  · rfl

theorem take_succ_set (v : List Nat) (kx i : Nat) (h : kx < v.length) :
    (v.set kx i).take (kx + 1) = v.take kx ++ [i] := by
  rw [List.set_eq_take_append_cons_drop, if_pos h]
  have hl : (v.take kx).length = kx := by rw [List.length_take]; omega
  rw [List.take_append_eq_append_take, hl, List.take_of_length_le (by omega)]
  simp

theorem Combine_loop_runs (n kx : Nat) (v : List Nat) (hv : 5 ≤ v.length) (hk : kx < 5)
    (ih : ∀ ix u, 5 ≤ u.length → ∃ es w, Runs (Combine_Gears ix (kx + 1) n 5) u es w ∧
      w.length = u.length ∧ w.take (kx + 1) = u.take (kx + 1) ∧ TraceShape n (kx + 1) ix u es)
    (l : List Nat) (v0 : List Nat) (hlen : v0.length = v.length)
    (hpre : v0.take kx = v.take kx) :
    ∃ es w,
      Runs (fun s => l.foldl
        (fun s i => Combine_Gears (i + 1) (kx + 1) n 5 { s with vec := s.vec.set kx i }) s)
        v0 es w ∧
      w.length = v.length ∧ w.take kx = v.take kx ∧
      ∀ c : Cfg,
        (∀ u ∈ trigsOf c es, u.length = v.length) ∧
        checksOf c es = (trigsOf c es).flatMap (perms (arity c - 1)) ∧
        (trigsOf c es).map (List.take (arity c)) =
          l.flatMap fun i =>
            if kx + 1 ≤ arity c then
              (incTuples n (arity c - (kx + 1)) (i + 1)).map ((v.take kx ++ [i]) ++ ·)
            else [] := by
  induction l generalizing v0 with
  | nil =>
    exact ⟨[], v0, Runs.id v0, hlen, hpre, fun c => ⟨by simp, by simp, by simp⟩⟩
  | cons i l ihl =>
    obtain ⟨es1, w1, hr1, hl1, ht1, hs1⟩ := ih (i + 1) (v0.set kx i)
      (by rw [List.length_set]; omega)
    have hw1len : w1.length = v.length := by rw [hl1, List.length_set, hlen]
    have htk : (v0.set kx i).take (kx + 1) = v.take kx ++ [i] := by
      rw [take_succ_set v0 kx i (by omega), hpre]
    have hw1pre : w1.take kx = v.take kx := by
      have : w1.take kx = (w1.take (kx + 1)).take kx := by
        rw [List.take_take, Nat.min_eq_left (by omega)]
      rw [this, ht1, List.take_take, Nat.min_eq_left (by omega), take_set_self, hpre]
    obtain ⟨es2, w2, hr2, hl2, ht2, hs2⟩ := ihl w1 hw1len hw1pre
    refine ⟨es1 ++ es2, w2, ?_, hl2, ht2, ?_⟩
    · intro s hs
      show List.foldl _ s (i :: l) = _
      rw [List.foldl_cons]
      have hb : Combine_Gears (i + 1) (kx + 1) n 5 { s with vec := s.vec.set kx i }
          = setVec w1 (replay es1 s) := by
        have := hr1 (setVec (v0.set kx i) s) (setVec_vec _ _)
        rw [replay_setVec] at this
        rw [← this, hs]
        rfl
      have h2 := hr2 (setVec w1 (replay es1 s)) (setVec_vec _ _)
      beta_reduce at h2
      rw [hb, h2, replay_setVec, replay_append]
    · intro c
      obtain ⟨a1, b1, c1⟩ := hs1 c
      obtain ⟨a2, b2, c2⟩ := hs2 c
      refine ⟨?_, ?_, ?_⟩
      · intro u hu
        rw [trigsOf_append, List.mem_append] at hu
        rcases hu with hu | hu
        · rw [a1 u hu, List.length_set, hlen]
        · exact a2 u hu
      · rw [checksOf_append, trigsOf_append, List.flatMap_append, b1, b2]
      · rw [trigsOf_append, List.map_append, c1, c2, List.flatMap_cons, htk]

theorem TraceShape_level (n kx ix : Nat) (v : List Nat) (c : Cfg) (es : List Event)
    (a : ∀ u ∈ trigsOf c es, u.length = v.length)
    (b : checksOf c es = (trigsOf c es).flatMap (perms (arity c - 1)))
    (d : (trigsOf c es).map (List.take (arity c)) =
      (List.range' ix (n + 1 - ix)).flatMap fun i =>
        if kx + 1 ≤ arity c then
          (incTuples n (arity c - (kx + 1)) (i + 1)).map ((v.take kx ++ [i]) ++ ·)
        else []) :
    (∀ u ∈ trigsOf c (levelTrace kx v ++ es), u.length = v.length) ∧
    checksOf c (levelTrace kx v ++ es)
      = (trigsOf c (levelTrace kx v ++ es)).flatMap (perms (arity c - 1)) ∧
    (trigsOf c (levelTrace kx v ++ es)).map (List.take (arity c)) =
      if kx ≤ arity c then (incTuples n (arity c - kx) ix).map (v.take kx ++ ·) else [] := by
  rw [trigsOf_append, checksOf_append, trigsOf_levelTrace, checksOf_levelTrace]
  by_cases h : arity c = kx
  · have hnot : ¬ kx + 1 ≤ arity c := by omega
    simp only [hnot, if_false, flatMap_nil_fun] at d
    have he : trigsOf c es = [] := List.map_eq_nil_iff.mp d
    rw [if_pos h, if_pos h, b, he, if_pos (by omega)]
    refine ⟨by simp, by simp, ?_⟩
    have : arity c - kx = 0 := by omega
    rw [this, h]
    simp [incTuples]
  · rw [if_neg h, if_neg h]
    refine ⟨by simpa using a, by simpa using b, ?_⟩
    rw [List.nil_append, d]
    by_cases h2 : kx + 1 ≤ arity c
    · have h3 : arity c - kx = (arity c - (kx + 1)) + 1 := by omega
      rw [if_pos (by omega), h3, incTuples, List.map_flatMap]
      simp only [h2, if_true, List.map_map]
      congr 1
      funext i
      apply List.map_congr_left
      intro t _
      simp
    · have h3 : ¬ kx ≤ arity c := by omega
      rw [if_neg h3]
      simp only [h2, if_false]
      exact flatMap_nil_fun _

/-- `Combine_Gears ix kx n 5` is a list of logged entries of the shape `TraceShape`;
it leaves the first `kx` buffer positions as it found them. -/
theorem Combine_runs (n : Nat) (d : Nat) :
    ∀ kx ix (v : List Nat), kx + d = 5 → 5 ≤ v.length →
      ∃ es w, Runs (Combine_Gears ix kx n 5) v es w ∧
        w.length = v.length ∧ w.take kx = v.take kx ∧ TraceShape n kx ix v es := by
  induction d with
  | zero =>
    intro kx ix v hk hv
    have hk5 : kx = 5 := by omega
    subst hk5
    refine ⟨levelTrace 5 v, v, Runs_level_five ix n v hv, rfl, rfl, ?_⟩
    intro c
    have := TraceShape_level n 5 ix v c [] (by simp) (by simp)
      (by
        have : ∀ i, (if 5 + 1 ≤ arity c then
            (incTuples n (arity c - (5 + 1)) (i + 1)).map ((v.take 5 ++ [i]) ++ ·)
          else []) = [] := by
          intro i
          rw [if_neg]
          cases c <;> simp [arity]
        simp only [this, flatMap_nil_fun]
        rfl)
    simpa using this
  | succ d ih =>
    intro kx ix v hk hv
    have hk5 : kx < 5 := by omega
    obtain ⟨es, w, hr, hl, ht, hs⟩ := Combine_loop_runs n kx v hv hk5
      (fun ix u hu => ih (kx + 1) ix u (by omega) hu)
      (List.range' ix (n + 1 - ix)) v rfl rfl
    refine ⟨levelTrace kx v ++ es, w, ?_, hl, ht, ?_⟩
    · intro s hs'
      rw [Combine_Gears_unfold, if_neg (by omega)]
      have h1 := Runs_level kx v hv (by omega) s hs'
      beta_reduce at h1
      have h2 := hr (setVec v (replay (levelTrace kx v) s)) (setVec_vec _ _)
      beta_reduce at h2
      rw [h1, h2, replay_setVec, replay_append]
    · intro c
      obtain ⟨a, b, e⟩ := hs c
      exact TraceShape_level n kx ix v c es a b e

/-! ## Increasing tuples -/

theorem incTuples_succ_of_le (n j lo : Nat) (h : lo ≤ n) :
    incTuples n (j + 1) lo
      = (incTuples n j (lo + 1)).map (lo :: ·) ++ incTuples n (j + 1) (lo + 1) := by
  have e : n + 1 - lo = (n + 1 - (lo + 1)) + 1 := by omega
  rw [incTuples, e, List.range'_succ, List.flatMap_cons, incTuples]

theorem incTuples_length (n : Nat) (d : Nat) :
    ∀ j lo, n + 1 - lo = d → (incTuples n j lo).length = Nat.choose d j := by
  induction d with
  | zero =>
    intro j lo h
    cases j with
    | zero => simp [incTuples]
    | succ j => simp [incTuples, h]
  | succ d ih =>
    intro j lo h
    cases j with
    | zero => simp [incTuples]
    | succ j =>
      rw [incTuples_succ_of_le n j lo (by omega), List.length_append, List.length_map,
        ih j (lo + 1) (by omega), ih (j + 1) (lo + 1) (by omega), Nat.choose_succ_succ]

theorem mem_incTuples (n j : Nat) :
    ∀ lo (t : List Nat), t ∈ incTuples n j lo ↔
      t.length = j ∧ t.Sorted (· < ·) ∧ ∀ x ∈ t, lo ≤ x ∧ x ≤ n := by
  induction j with
  | zero =>
    intro lo t
    simp only [incTuples, List.mem_singleton]
    constructor
    · rintro rfl
      simp
    · rintro ⟨h, _⟩
      exact List.length_eq_zero.mp h
  | succ j ih =>
    intro lo t
    simp only [incTuples, List.mem_flatMap, List.mem_map, List.mem_range'_1]
    constructor
    · rintro ⟨i, hi, t', ht', rfl⟩
      rw [ih] at ht'
      obtain ⟨h1, h2, h3⟩ := ht'
      refine ⟨by simp [h1], ?_, ?_⟩
      · rw [List.sorted_cons]
        exact ⟨fun b hb => by have := (h3 b hb).1; omega, h2⟩
      · intro x hx
        rw [List.mem_cons] at hx
        rcases hx with rfl | hx
        · omega
        · have := h3 x hx
          omega
    · rintro ⟨h1, h2, h3⟩
      cases t with
      | nil => simp at h1
      | cons i t' =>
        rw [List.sorted_cons] at h2
        have hi := h3 i (List.mem_cons_self _ _)
        refine ⟨i, by omega, t', ?_, rfl⟩
        rw [ih]
        refine ⟨by simpa using h1, h2.2, ?_⟩
        intro x hx
        have := h3 x (List.mem_cons_of_mem _ hx)
        have := h2.1 x hx
        omega

theorem incTuples_nodup (n j : Nat) : ∀ lo, (incTuples n j lo).Nodup := by
  induction j with
  | zero =>
    intro lo
    simp [incTuples]
  | succ j ih =>
    intro lo
    rw [incTuples, List.nodup_flatMap]
    refine ⟨fun i _ => (ih (i + 1)).map List.cons_injective, ?_⟩
    apply (List.pairwise_lt_range' lo (n + 1 - lo)).imp
    intro a b hab
    show List.Disjoint _ _
    rw [List.disjoint_left]
    intro t h1 h2
    rw [List.mem_map] at h1 h2
    obtain ⟨t1, _, rfl⟩ := h1
    obtain ⟨t2, _, h⟩ := h2
    have : b = a := (List.cons.inj h).1
    omega

/-! ## The solution table under `Check_Gears` -/

theorem Check_Gears_soln (cfg : Cfg) (s : State) :
    (Check_Gears cfg s).soln =
      if validAt cfg s.vec ≠ 0 ∧ |pitchAt cfg s.vec - s.goal_pitch| < (s.soln cfg).error then
        Function.update s.soln cfg
          { error := |pitchAt cfg s.vec - s.goal_pitch|
            a := gearAt s.vec 0, b := gearAt s.vec 1, c := gearAt s.vec 2
            d := gearAt s.vec 3, e := gearAt s.vec 4 }
      else s.soln := by
  unfold Check_Gears validAt pitchAt
  simp only []
  split_ifs with h1 h2 h3 h3 h3
  · rfl
  · exact absurd ⟨h1, h2⟩ h3
  · exact absurd h3.2 h2
  · rfl
  · exact absurd h3.1 h1
  · rfl

theorem Check_Gears_hist (cfg : Cfg) (s : State) :
    (Check_Gears cfg s).hist = s.hist ++ [(Check_Gears cfg s).soln] := by
  unfold Check_Gears
  simp only []
  split_ifs <;> rfl

theorem validAt_ne_zero_iff (cfg : Cfg) (v : List Nat) : validAt cfg v ≠ 0 ↔ validAt cfg v = 1 := by
  unfold validAt
  rcases Gear_Valid_zero_or_one cfg (gearAt v 0) (gearAt v 1) (gearAt v 2) (gearAt v 3)
    (gearAt v 4) with h | h <;> simp [h]

theorem step_error_le (cfg c : Cfg) (s : State) :
    ((Check_Gears cfg s).soln c).error ≤ (s.soln c).error := by
  rw [Check_Gears_soln]
  split_ifs with h
  · by_cases hc : c = cfg
    · subst hc
      rw [Function.update_same]
      exact le_of_lt h.2
    · rw [Function.update_noteq hc]
  · exact le_refl _

theorem step_error_bound (cfg : Cfg) (s : State) (hv : validAt cfg s.vec = 1) :
    ((Check_Gears cfg s).soln cfg).error ≤ |pitchAt cfg s.vec - s.goal_pitch| := by
  rw [Check_Gears_soln]
  split_ifs with h
  · rw [Function.update_same]
  · have : ¬ |pitchAt cfg s.vec - s.goal_pitch| < (s.soln cfg).error :=
      fun h2 => h ⟨(validAt_ne_zero_iff cfg s.vec).mpr hv, h2⟩
    exact not_lt.mp this

theorem step_cases (cfg c : Cfg) (s : State) :
    (Check_Gears cfg s).soln c = s.soln c ∨
      (c = cfg ∧ validAt cfg s.vec = 1 ∧
        (Check_Gears cfg s).soln c =
          { error := |pitchAt cfg s.vec - s.goal_pitch|
            a := gearAt s.vec 0, b := gearAt s.vec 1, c := gearAt s.vec 2
            d := gearAt s.vec 3, e := gearAt s.vec 4 }) := by
  rw [Check_Gears_soln]
  split_ifs with h
  · by_cases hc : c = cfg
    · subst hc
      right
      exact ⟨rfl, (validAt_ne_zero_iff c s.vec).mp h.1, Function.update_same _ _ _⟩
    · left
      rw [Function.update_noteq hc]
  · left
    rfl

theorem step_sound (cfg : Cfg) (s : State) (h : SolnSound s.goal_pitch s.soln) :
    SolnSound s.goal_pitch (Check_Gears cfg s).soln := by
  intro c hc
  rcases step_cases cfg c s with h1 | ⟨h1, h2, h3⟩
  · rw [h1] at hc ⊢
    exact h c hc
  · subst h1
    rw [h3]
    exact ⟨h2, rfl⟩

/-! ## The solution table under a list of logged entries -/

theorem apply_soln_permute (cfg : Cfg) (n : Nat) (v : List Nat) (s : State) :
    ((Event.permute cfg n v).apply s).soln = s.soln := rfl

theorem replay_error_le (es : List Event) (s : State) (c : Cfg) :
    ((replay es s).soln c).error ≤ (s.soln c).error := by
  induction es generalizing s with
  | nil => exact le_refl _
  | cons e es ih =>
    rw [replay_cons]
    refine le_trans (ih _) ?_
    cases e with
    | permute cfg n v => exact le_refl _
    | check cfg v => exact step_error_le cfg c (setVec v s)

theorem replay_error_bound (es : List Event) (s : State) (c : Cfg) (v : List Nat)
    (hv : v ∈ checksOf c es) (hval : validAt c v = 1) :
    ((replay es s).soln c).error ≤ |pitchAt c v - s.goal_pitch| := by
  induction es generalizing s with
  | nil => simp at hv
  | cons e es ih =>
    rw [replay_cons]
    cases e with
    | permute cfg n u =>
      rw [checksOf_cons_permute] at hv
      exact ih _ hv
    | check cfg u =>
      rw [checksOf_cons_check, List.mem_append] at hv
      rcases hv with hv | hv
      · by_cases hc : cfg = c
        · rw [if_pos hc, List.mem_singleton] at hv
          subst hc
          subst hv
          exact le_trans (replay_error_le es _ cfg) (step_error_bound cfg (setVec v s) hval)
        · rw [if_neg hc] at hv
          simp at hv
      · have := ih ((Event.check cfg u).apply s) hv
        rwa [apply_goal] at this

theorem replay_error_cases (es : List Event) (s : State) (c : Cfg) :
    (replay es s).soln c = s.soln c ∨
      ∃ v ∈ checksOf c es, validAt c v = 1 ∧
        (replay es s).soln c =
          { error := |pitchAt c v - s.goal_pitch|
            a := gearAt v 0, b := gearAt v 1, c := gearAt v 2
            d := gearAt v 3, e := gearAt v 4 } := by
  induction es generalizing s with
  | nil => exact Or.inl rfl
  | cons e es ih =>
    rw [replay_cons]
    cases e with
    | permute cfg n u =>
      rcases ih ((Event.permute cfg n u).apply s) with h | ⟨v, hv, h1, h2⟩
      · exact Or.inl h
      · exact Or.inr ⟨v, by rw [checksOf_cons_permute]; exact hv, h1, h2⟩
    | check cfg u =>
      rcases ih ((Event.check cfg u).apply s) with h | ⟨v, hv, h1, h2⟩
      · rcases step_cases cfg c (setVec u s) with h' | ⟨h1, h2, h3⟩
        · left
          rw [h]
          exact h'
        · right
          subst h1
          refine ⟨u, by simp, h2, ?_⟩
          rw [h]
          exact h3
      · right
        rw [apply_goal] at h2
        exact ⟨v, by rw [checksOf_cons_check]; exact List.mem_append_right _ hv, h1, h2⟩

theorem replay_sound (es : List Event) (s : State) (h : SolnSound s.goal_pitch s.soln) :
    SolnSound s.goal_pitch (replay es s).soln ∧
      ∃ H, (replay es s).hist = s.hist ++ H ∧ ∀ t ∈ H, SolnSound s.goal_pitch t := by
  induction es generalizing s with
  | nil => exact ⟨h, [], by simp [replay_nil], by simp⟩
  | cons e es ih =>
    rw [replay_cons]
    cases e with
    | permute cfg n u =>
      obtain ⟨h1, H, h2, h3⟩ := ih ((Event.permute cfg n u).apply s) h
      exact ⟨h1, H, h2, h3⟩
    | check cfg u =>
      have hs : SolnSound s.goal_pitch ((Event.check cfg u).apply s).soln :=
        step_sound cfg (setVec u s) h
      have hg : ((Event.check cfg u).apply s).goal_pitch = s.goal_pitch := apply_goal _ _
      have hh : ((Event.check cfg u).apply s).hist
          = s.hist ++ [((Event.check cfg u).apply s).soln] :=
        Check_Gears_hist cfg (setVec u s)
      obtain ⟨h1, H, h2, h3⟩ := ih ((Event.check cfg u).apply s) (by rw [hg]; exact hs)
      rw [hg] at h1 h3
      refine ⟨h1, ((Event.check cfg u).apply s).soln :: H, ?_, ?_⟩
      · rw [h2, hh]
        simp
      · intro t ht
        rw [List.mem_cons] at ht
        rcases ht with rfl | ht
        · exact hs
        · exact h3 t ht

/-! ## Unused trailing slots -/

theorem gearAt_take (v : List Nat) (m i : Nat) (h : i < m) :
    gearAt (v.take m) i = gearAt v i := by
  simp only [gearAt, List.getD_eq_getElem?_getD, List.getElem?_take_of_lt h]

theorem gearAt_congr (v w : List Nat) (m : Nat) (h : v.take m = w.take m) (i : Nat)
    (hi : i < m) : gearAt v i = gearAt w i := by
  rw [← gearAt_take v m i hi, h, gearAt_take w m i hi]

theorem validAt_congr (c : Cfg) (v w : List Nat) (h : v.take (arity c) = w.take (arity c)) :
    validAt c v = validAt c w := by
  have g := gearAt_congr v w (arity c) h
  cases c
  · have g0 := g 0 (by decide)
    have g1 := g 1 (by decide)
    have g2 := g 2 (by decide)
    simp only [validAt, Gear_Valid, Calc_Length, g0, g1, g2]
  · have g0 := g 0 (by decide)
    have g1 := g 1 (by decide)
    have g2 := g 2 (by decide)
    have g3 := g 3 (by decide)
    have g4 := g 4 (by decide)
    simp only [validAt, g0, g1, g2, g3, g4]
  · have g0 := g 0 (by decide)
    have g1 := g 1 (by decide)
    have g2 := g 2 (by decide)
    have g3 := g 3 (by decide)
    simp only [validAt, Gear_Valid, Calc_Length, g0, g1, g2, g3]
  · have g0 := g 0 (by decide)
    have g1 := g 1 (by decide)
    have g2 := g 2 (by decide)
    have g3 := g 3 (by decide)
    simp only [validAt, Gear_Valid, Calc_Length, g0, g1, g2, g3]

theorem pitchAt_congr (c : Cfg) (v w : List Nat) (h : v.take (arity c) = w.take (arity c)) :
    pitchAt c v = pitchAt c w := by
  have g := gearAt_congr v w (arity c) h
  cases c
  · have g0 := g 0 (by decide)
    have g2 := g 2 (by decide)
    simp only [pitchAt, Calc_Pitch, g0, g2]
  · have g0 := g 0 (by decide)
    have g1 := g 1 (by decide)
    have g2 := g 2 (by decide)
    have g3 := g 3 (by decide)
    have g4 := g 4 (by decide)
    simp only [pitchAt, g0, g1, g2, g3, g4]
  · have g0 := g 0 (by decide)
    have g1 := g 1 (by decide)
    have g3 := g 3 (by decide)
    simp only [pitchAt, Calc_Pitch, g0, g1, g3]
  · have g0 := g 0 (by decide)
    have g1 := g 1 (by decide)
    have g2 := g 2 (by decide)
    have g3 := g 3 (by decide)
    simp only [pitchAt, Calc_Pitch, g0, g1, g2, g3]

/-! ## The orchestrator -/

theorem resetErrors_soln (s : State) (c : Cfg) :
    (resetErrors s).soln c = { s.soln c with error := INITIAL_ERROR } := by
  cases c <;> simp [resetErrors, allCfgs, Function.update]

theorem resetErrors_vec (s : State) : (resetErrors s).vec = s.vec := rfl

theorem resetErrors_goal (s : State) : (resetErrors s).goal_pitch = s.goal_pitch := rfl

theorem resetErrors_trace (s : State) : (resetErrors s).trace = s.trace := rfl

theorem resetErrors_hist (s : State) : (resetErrors s).hist = s.hist := rfl

theorem resetErrors_sound (s : State) : SolnSound s.goal_pitch (resetErrors s).soln := by
  intro c hc
  rw [resetErrors_soln] at hc
  exact absurd hc (lt_irrefl _)

theorem findBest_spec (soln : Cfg → GS) :
    (∀ b, (findBest soln).2 = some b →
      (soln b).error < INITIAL_ERROR ∧ (∀ i, (soln b).error ≤ (soln i).error) ∧
      (∀ i, (soln i).error = (soln b).error → b.idx ≤ i.idx)) ∧
    ((findBest soln).2 = none ↔ ∀ i, INITIAL_ERROR ≤ (soln i).error) := by
  simp only [findBest, allCfgs, List.foldl, INITIAL_ERROR]
  constructor
  · intro b hb
    split_ifs at hb <;>
      (dsimp only at *
       simp only [Option.some.injEq, reduceCtorEq] at hb
       subst hb
       refine ⟨by linarith, fun i => by cases i <;> linarith,
         fun i hi => by
           cases i <;> simp only [Cfg.idx] <;> first | omega | (exfalso; linarith)⟩)
  · constructor
    · intro hb i
      split_ifs at hb <;>
        (dsimp only at *
         simp only [reduceCtorEq] at hb)
      cases i <;> linarith
    · intro h
      have h0 := h .GEAR_CONFIG_0
      have h1 := h .GEAR_CONFIG_1
      have h2 := h .GEAR_CONFIG_2
      have h3 := h .GEAR_CONFIG_3
      have n0 : ¬ (soln .GEAR_CONFIG_0).error < 1 := by linarith
      have n1 : ¬ (soln .GEAR_CONFIG_1).error < 1 := by linarith
      have n2 : ¬ (soln .GEAR_CONFIG_2).error < 1 := by linarith
      have n3 : ¬ (soln .GEAR_CONFIG_3).error < 1 := by linarith
      simp only [n0, n1, n2, n3, if_false]

/-- The search is the reset followed by a list of logged entries of the shape
`TraceShape 15 0 0`. -/
theorem Search_Gears_runs (mode : Int) (s : State) (hv : 5 ≤ s.vec.length) :
    ∃ es w, (Search_Gears mode s).1 = setVec w (replay es (resetErrors s)) ∧
      w.length = s.vec.length ∧ TraceShape 15 0 0 s.vec es := by
  obtain ⟨es, w, hr, hl, _, hs⟩ := Combine_runs 15 5 0 0 s.vec rfl hv
  exact ⟨es, w, hr (resetErrors s) rfl, hl, hs⟩

/-! ## What the descent covers -/

theorem arity_pos (c : Cfg) : arity c - 1 + 1 = arity c := by
  cases c <;> rfl

theorem arity_le_five (c : Cfg) : arity c ≤ 5 := by
  cases c <;> decide

theorem TraceShape_trigs (v : List Nat) (es : List Event) (h : TraceShape 15 0 0 v es)
    (c : Cfg) : (trigsOf c es).map (List.take (arity c)) = incTuples 15 (arity c) 0 := by
  have := (h c).2.2
  rw [if_pos (Nat.zero_le _)] at this
  simpa using this

theorem mem_checksOf_of_shape (v : List Nat) (es : List Event) (h : TraceShape 15 0 0 v es)
    (c : Cfg) (w : List Nat) :
    w ∈ checksOf c es ↔ ∃ u ∈ trigsOf c es, w ∈ perms (arity c - 1) u := by
  rw [(h c).2.1, List.mem_flatMap]

/-- Every assignment of a configuration is evaluated by the descent. -/
theorem checks_cover (v : List Nat) (hv : 5 ≤ v.length) (es : List Event)
    (h : TraceShape 15 0 0 v es) (c : Cfg) (p : List Nat) (hp : Assignment c p) :
    ∃ w ∈ checksOf c es, w.take (arity c) = p := by
  obtain ⟨hlen, hnd, hb⟩ := hp
  have hperm : (p.insertionSort (· ≤ ·)).Perm p := List.perm_insertionSort _ p
  have hsorted : (p.insertionSort (· ≤ ·)).Sorted (· < ·) :=
    (List.sorted_insertionSort (· ≤ ·) p).lt_of_le (hperm.nodup_iff.mpr hnd)
  have hmem : p.insertionSort (· ≤ ·) ∈ incTuples 15 (arity c) 0 := by
    rw [mem_incTuples]
    refine ⟨by rw [hperm.length_eq, hlen], hsorted, ?_⟩
    intro x hx
    have := hb x (hperm.mem_iff.mp hx)
    simp only [NUM_GEARS, gear_set, List.length_cons, List.length_nil] at this
    omega
  rw [← TraceShape_trigs v es h c, List.mem_map] at hmem
  obtain ⟨u, hu, hut⟩ := hmem
  have hul : u.length = v.length := (h c).1 u hu
  have h5 := arity_le_five c
  refine ⟨p ++ u.drop (arity c), ?_, ?_⟩
  · rw [mem_checksOf_of_shape v es h]
    refine ⟨u, hu, ?_⟩
    apply perms_complete (arity c - 1) u _ (by have := arity_pos c; omega)
    · rw [List.length_append, List.length_drop, hlen]; omega
    · rw [arity_pos, List.drop_append_of_le_length (by omega),
        List.drop_of_length_le (by omega)]
      rfl
    · rw [arity_pos, List.take_append_of_le_length (by omega),
        List.take_of_length_le (by omega), hut]
      exact hperm.symm
  · rw [List.take_append_of_le_length (by omega), List.take_of_length_le (by omega)]

/-- Only assignments of a configuration are evaluated by the descent. -/
theorem checks_sound (v : List Nat) (hv : 5 ≤ v.length) (es : List Event)
    (h : TraceShape 15 0 0 v es) (c : Cfg) (w : List Nat) (hw : w ∈ checksOf c es) :
    Assignment c (w.take (arity c)) := by
  rw [mem_checksOf_of_shape v es h] at hw
  obtain ⟨u, hu, hwu⟩ := hw
  have hul : u.length = v.length := (h c).1 u hu
  have h5 := arity_le_five c
  have hut : u.take (arity c) ∈ incTuples 15 (arity c) 0 := by
    rw [← TraceShape_trigs v es h c]
    exact List.mem_map_of_mem _ hu
  rw [mem_incTuples] at hut
  obtain ⟨h1, h2, h3⟩ := hut
  have hperm := perms_mem_take (arity c - 1) u w (by have := arity_pos c; omega) hwu
  rw [arity_pos] at hperm
  refine ⟨by rw [hperm.length_eq, h1], hperm.nodup_iff.mpr h2.nodup, ?_⟩
  intro x hx
  have := (h3 x (hperm.mem_iff.mp hx)).2
  simp only [NUM_GEARS, gear_set, List.length_cons, List.length_nil]
  omega

theorem checksOf_length (v : List Nat) (es : List Event) (h : TraceShape 15 0 0 v es)
    (c : Cfg) : (checksOf c es).length = Nat.choose 16 (arity c) * (arity c).factorial := by
  have ht : (trigsOf c es).length = Nat.choose 16 (arity c) := by
    rw [← List.length_map (trigsOf c es) (List.take (arity c)), TraceShape_trigs v es h c,
      incTuples_length 15 16 (arity c) 0 rfl]
  rw [(h c).2.1, List.length_flatMap]
  have : List.map (List.length ∘ perms (arity c - 1)) (trigsOf c es)
      = List.replicate (trigsOf c es).length (arity c).factorial := by
    rw [List.eq_replicate_iff]
    refine ⟨by simp, ?_⟩
    intro b hb
    rw [List.mem_map] at hb
    obtain ⟨u, _, rfl⟩ := hb
    show (perms (arity c - 1) u).length = _
    rw [perms_length, arity_pos]
  rw [this, List.sum_const_nat, ht]

theorem checkEvents_length (es : List Event) :
    (checkEvents es).length =
      (checksOf .GEAR_CONFIG_0 es).length + (checksOf .GEAR_CONFIG_1 es).length +
      (checksOf .GEAR_CONFIG_2 es).length + (checksOf .GEAR_CONFIG_3 es).length := by
  induction es with
  | nil => rfl
  | cons e es ih =>
    cases e with
    | permute cfg n v => simpa using ih
    | check cfg v =>
      cases cfg <;> simp [ih] <;> omega

theorem newTrace_of_runs (s t : State) (w : List Nat) (es : List Event)
    (h : t = setVec w (replay es s)) : newTrace s t = es := by
  subst h
  show List.drop _ (replay es s).trace = es
  rw [replay_trace, List.drop_left]

theorem Combine_Gears_trace (s : State) (hv : 5 ≤ s.vec.length) :
    TraceShape 15 0 0 s.vec (newTrace s (Combine_Gears 0 0 15 5 s)) := by
  obtain ⟨es, w, hr, _, _, hs⟩ := Combine_runs 15 5 0 0 s.vec rfl hv
  rw [newTrace_of_runs s _ w es (hr s rfl)]
  exact hs

/-! ## The search as a whole -/

theorem replay_hist_length (es : List Event) (s : State) :
    (replay es s).hist.length = s.hist.length + (checkEvents es).length := by
  induction es generalizing s with
  | nil => rfl
  | cons e es ih =>
    rw [replay_cons, ih]
    cases e with
    | permute cfg n v =>
      rw [checkEvents_cons_permute]
      rfl
    | check cfg v =>
      have : ((Event.check cfg v).apply s).hist.length = s.hist.length + 1 := by
        show (Check_Gears cfg (setVec v s)).hist.length = _
        rw [Check_Gears_hist]
        simp
        rfl
      rw [this, checkEvents_cons_check, List.length_cons]
      omega

theorem take_append_pad (c : Cfg) (p pad : List Nat) (hp : p.length = arity c) :
    (p ++ pad).take (arity c) = p := by
  rw [List.take_append_of_le_length (by omega), List.take_of_length_le (by omega)]

theorem search_error_le_sentinel (mode : Int) (s : State) (hv : 5 ≤ s.vec.length) (c : Cfg) :
    (((Search_Gears mode s).1).soln c).error ≤ INITIAL_ERROR := by
  obtain ⟨es, w, hT, _, _⟩ := Search_Gears_runs mode s hv
  rw [hT]
  have h := replay_error_le es (resetErrors s) c
  rw [resetErrors_soln] at h
  exact h

theorem search_error_bound (mode : Int) (s : State) (hv : 5 ≤ s.vec.length) (c : Cfg)
    (p pad : List Nat) (hp : Assignment c p) (hval : validAt c (p ++ pad) = 1) :
    (((Search_Gears mode s).1).soln c).error ≤ |pitchAt c (p ++ pad) - s.goal_pitch| := by
  obtain ⟨es, w, hT, _, hs⟩ := Search_Gears_runs mode s hv
  obtain ⟨u, hu, hut⟩ := checks_cover s.vec hv es hs c p hp
  have ht : u.take (arity c) = (p ++ pad).take (arity c) := by
    rw [hut, take_append_pad c p pad hp.1]
  rw [hT, ← pitchAt_congr c u _ ht]
  exact replay_error_bound es (resetErrors s) c u hu (by rw [validAt_congr c u _ ht]; exact hval)

theorem search_error_cases (mode : Int) (s : State) (hv : 5 ≤ s.vec.length) (c : Cfg) :
    (((Search_Gears mode s).1).soln c).error = INITIAL_ERROR ∨
      ∃ p pad, Assignment c p ∧ validAt c (p ++ pad) = 1 ∧
        (((Search_Gears mode s).1).soln c).error = |pitchAt c (p ++ pad) - s.goal_pitch| := by
  obtain ⟨es, w, hT, _, hs⟩ := Search_Gears_runs mode s hv
  rw [hT]
  rcases replay_error_cases es (resetErrors s) c with h | ⟨u, hu, h1, h2⟩
  · left
    show ((replay es (resetErrors s)).soln c).error = _
    rw [h, resetErrors_soln]
  · right
    refine ⟨u.take (arity c), u.drop (arity c), checks_sound s.vec hv es hs c u hu, ?_, ?_⟩
    · rw [List.take_append_drop]
      exact h1
    · rw [List.take_append_drop]
      show ((replay es (resetErrors s)).soln c).error = _
      rw [h2]
      rfl

theorem search_sound (mode : Int) (s : State) (hv : 5 ≤ s.vec.length) :
    SolnSound s.goal_pitch ((Search_Gears mode s).1).soln ∧
      (∀ t ∈ newHist s (Search_Gears mode s).1, SolnSound s.goal_pitch t) ∧
      (newHist s (Search_Gears mode s).1).length
        = (checkEvents (newTrace s (Search_Gears mode s).1)).length := by
  obtain ⟨es, w, hT, _, hs⟩ := Search_Gears_runs mode s hv
  obtain ⟨h1, H, h2, h3⟩ := replay_sound es (resetErrors s) (resetErrors_sound s)
  have hh : newHist s (Search_Gears mode s).1 = H := by
    rw [hT]
    show List.drop s.hist.length (replay es (resetErrors s)).hist = H
    rw [h2, resetErrors_hist, List.drop_left]
  have ht : newTrace s (Search_Gears mode s).1 = es := by
    have := newTrace_of_runs (resetErrors s) _ w es hT
    exact this
  refine ⟨by rw [hT]; exact h1, by rw [hh]; exact h3, ?_⟩
  rw [hh, ht]
  have := replay_hist_length es (resetErrors s)
  rw [h2, List.length_append] at this
  omega

theorem example_assignment :
    Assignment .GEAR_CONFIG_0 [6, 9, 5] ∧ validAt .GEAR_CONFIG_0 ([6, 9, 5] ++ []) = 1 ∧
      pitchAt .GEAR_CONFIG_0 ([6, 9, 5] ++ []) = 1 / 15 := by
  refine ⟨⟨rfl, by decide, by decide⟩, ?_, ?_⟩
  · show Gear_Valid .GEAR_CONFIG_0 60 70 50 30 30 = 1
    rw [Gear_Valid_0_iff, Calc_Length_eq]
    decide
  · show Calc_Pitch .GEAR_CONFIG_0 60 70 50 30 30 = 1 / 15
    simp only [Calc_Pitch, IDLER_TEETH, LEADSCREW_TPI]
    norm_num

theorem main_goal_error (mode : Int) (s : State) (hv : 5 ≤ s.vec.length)
    (hg : s.goal_pitch = (175 / 100) / MM_PER_INCH) :
    (((Search_Gears mode s).1).soln .GEAR_CONFIG_0).error ≤ 17 / 7620 := by
  obtain ⟨h1, h2, h3⟩ := example_assignment
  have := search_error_bound mode s hv .GEAR_CONFIG_0 [6, 9, 5] [] h1 h2
  rw [h3, hg] at this
  have e : |(1 : ℚ) / 15 - 175 / 100 / MM_PER_INCH| = 17 / 7620 := by
    unfold MM_PER_INCH
    rw [abs_of_neg (by norm_num)]
    norm_num
  rwa [e] at this

/-! ## Claims on the search -/

/-- C1: after `Search_Gears`, for every configuration the stored error is the
minimum of the sentinel 1 and the errors `|Calc_Pitch - goal_pitch|` of all
assignments of pairwise distinct catalog positions to the slots of the
configuration that `Gear_Valid` accepts (whatever positions `pad` fill the unused
trailing slots): it is at most the sentinel, at most the error of every feasible
assignment, and it is the sentinel or the error of a feasible assignment; with no
feasible assignment it is the sentinel. -/
theorem C1_per_configuration_optimality (mode : Int) (s : State)
    (hv : s.vec.length = 10) (cfg : Cfg) :
    (((Search_Gears mode s).1).soln cfg).error ≤ INITIAL_ERROR ∧
    (∀ p pad, Assignment cfg p → validAt cfg (p ++ pad) = 1 →
      (((Search_Gears mode s).1).soln cfg).error ≤ |pitchAt cfg (p ++ pad) - s.goal_pitch|) ∧
    ((((Search_Gears mode s).1).soln cfg).error = INITIAL_ERROR ∨
      ∃ p pad, Assignment cfg p ∧ validAt cfg (p ++ pad) = 1 ∧
        (((Search_Gears mode s).1).soln cfg).error = |pitchAt cfg (p ++ pad) - s.goal_pitch|) ∧
    ((∀ p pad, Assignment cfg p → validAt cfg (p ++ pad) ≠ 1) →
      (((Search_Gears mode s).1).soln cfg).error = INITIAL_ERROR) := by
  have hv5 : 5 ≤ s.vec.length := by omega
  refine ⟨search_error_le_sentinel mode s hv5 cfg,
    fun p pad hp hval => search_error_bound mode s hv5 cfg p pad hp hval,
    search_error_cases mode s hv5 cfg, ?_⟩
  intro hnone
  rcases search_error_cases mode s hv5 cfg with h | ⟨p, pad, hp, hval, _⟩
  · exact h
  · exact absurd hval (hnone p pad hp)

theorem C1_per_configuration_optimality_witness :
    initState.vec.length = 10 ∧
      (((Search_Gears 0 initState).1).soln .GEAR_CONFIG_0).error ≤ INITIAL_ERROR ∧
      (((Search_Gears 0 initState).1).soln .GEAR_CONFIG_0).error
        ≤ |pitchAt .GEAR_CONFIG_0 ([6, 9, 5] ++ []) - initState.goal_pitch| :=
  ⟨rfl, (C1_per_configuration_optimality 0 initState rfl .GEAR_CONFIG_0).1,
    (C1_per_configuration_optimality 0 initState rfl .GEAR_CONFIG_0).2.1 [6, 9, 5] []
      example_assignment.1 example_assignment.2.1⟩

theorem Search_Gears_eq (mode : Int) (s : State) :
    Search_Gears mode s =
      (Combine_Gears 0 0 (NUM_GEARS - 1) 5 (resetErrors s),
        (findBest (Combine_Gears 0 0 (NUM_GEARS - 1) 5 (resetErrors s)).soln).2) := rfl

theorem pair_best_eq (X : State) (b : Option Cfg) (h : b = (findBest X.soln).2) :
    ((X, b) : State × Option Cfg).2 = (findBest ((X, b) : State × Option Cfg).1.soln).2 := h

theorem search_best_eq (mode : Int) (s : State) :
    (Search_Gears mode s).2 = (findBest ((Search_Gears mode s).1).soln).2 := by
  rewrite [Search_Gears_eq]
  exact pair_best_eq _ _ rfl

theorem main_goal_selected (mode : Int) (s : State) (hv : 5 ≤ s.vec.length)
    (hg : s.goal_pitch = (175 / 100) / MM_PER_INCH) :
    ∃ b, (Search_Gears mode s).2 = some b ∧
      (((Search_Gears mode s).1).soln b).error < INITIAL_ERROR ∧
      ∀ i, (((Search_Gears mode s).1).soln b).error
        ≤ (((Search_Gears mode s).1).soln i).error := by
  have herr := main_goal_error mode s hv hg
  have hspec := findBest_spec ((Search_Gears mode s).1).soln
  rw [search_best_eq]
  cases hb : (findBest ((Search_Gears mode s).1).soln).2 with
  | none =>
    have := (hspec.2.mp hb) .GEAR_CONFIG_0
    unfold INITIAL_ERROR at this
    have h17 : (17 : ℚ) / 7620 < 1 := by norm_num
    linarith
  | some b =>
    obtain ⟨h1, h2, _⟩ := hspec.1 b hb
    exact ⟨b, rfl, h1, h2⟩

theorem initState_vec_length : 5 ≤ initState.vec.length := by
  simp [initState]

theorem initState_goal : initState.goal_pitch = (175 / 100) / MM_PER_INCH := by
  simp only [initState]

/-- C2: the selection loop of `Search_Gears` picks, for every solution table, a
configuration only if its error is below the sentinel; the picked configuration has
the lowest stored error and, among those with that error, the lowest index; nothing
is picked exactly when every error is at least the sentinel.  For the target of
`main` (1.75 mm) a configuration is picked and its error is at most the final error
of each of the four configurations. -/
theorem C2_cross_configuration_selection :
    (∀ soln : Cfg → GS,
      (∀ b, (findBest soln).2 = some b →
        (soln b).error < INITIAL_ERROR ∧ (∀ i, (soln b).error ≤ (soln i).error) ∧
        (∀ i, (soln i).error = (soln b).error → b.idx ≤ i.idx)) ∧
      ((findBest soln).2 = none ↔ ∀ i, INITIAL_ERROR ≤ (soln i).error)) ∧
    (∀ (mode : Int) (s : State),
      (Search_Gears mode s).2 = (findBest ((Search_Gears mode s).1).soln).2) ∧
    (∀ (mode : Int) (s : State), s.vec.length = 10 →
      s.goal_pitch = (175 / 100) / MM_PER_INCH →
      ∃ b, (Search_Gears mode s).2 = some b ∧
        (((Search_Gears mode s).1).soln b).error < INITIAL_ERROR ∧
        ∀ i, (((Search_Gears mode s).1).soln b).error
          ≤ (((Search_Gears mode s).1).soln i).error) ∧
    (∃ b, (Search_Gears 0 initState).2 = some b ∧
      ∀ i, (((Search_Gears 0 initState).1).soln b).error
        ≤ (((Search_Gears 0 initState).1).soln i).error) := by
  refine ⟨findBest_spec, search_best_eq,
    fun mode s hv hg => main_goal_selected mode s (by omega) hg, ?_⟩
  obtain ⟨b, hb, _, h2⟩ := main_goal_selected 0 initState initState_vec_length initState_goal
  exact ⟨b, hb, h2⟩

/-- C3: during one `Search_Gears` call the solution table is sound right after the
reset, after every `Check_Gears` call of the descent (one entry of the history per
call) and at the end: every configuration whose error is below the sentinel holds
tooth counts that `Gear_Valid` accepts and whose pitch error is the stored error,
whatever the table held before the call. -/
theorem C3_solution_invariant (mode : Int) (s : State) (hv : s.vec.length = 10) :
    SolnSound s.goal_pitch (resetErrors s).soln ∧
    (∀ t ∈ newHist s (Search_Gears mode s).1, SolnSound s.goal_pitch t) ∧
    (newHist s (Search_Gears mode s).1).length
      = (checkEvents (newTrace s (Search_Gears mode s).1)).length ∧
    SolnSound s.goal_pitch ((Search_Gears mode s).1).soln := by
  obtain ⟨h1, h2, h3⟩ := search_sound mode s (by omega)
  exact ⟨resetErrors_sound s, h2, h3, h1⟩

theorem C3_solution_invariant_witness :
    initState.vec.length = 10 ∧
      SolnSound initState.goal_pitch ((Search_Gears 0 initState).1).soln :=
  ⟨rfl, (C3_solution_invariant 0 initState rfl).2.2.2⟩

/-- C4: during `Combine_Gears(0,0,15,5)` the entries into `Permute_Gears` made for a
configuration, read through the first `arity` buffer positions, are pairwise
different, there are `C(16, arity)` of them (560 for configuration 0, 1820 for
configurations 2 and 3, 4368 for configuration 1), and they are exactly the
strictly increasing tuples of that length over the positions 0..15; in particular
no position occurs twice in a tuple. -/
theorem C4_combination_coverage (s : State) (hv : s.vec.length = 10) :
    (∀ c : Cfg,
      ((trigsOf c (newTrace s (Combine_Gears 0 0 15 5 s))).map (List.take (arity c))).Nodup ∧
      ((trigsOf c (newTrace s (Combine_Gears 0 0 15 5 s))).map (List.take (arity c))).length
        = Nat.choose 16 (arity c) ∧
      (∀ t : List Nat,
        t ∈ (trigsOf c (newTrace s (Combine_Gears 0 0 15 5 s))).map (List.take (arity c)) ↔
          t.length = arity c ∧ t.Sorted (· < ·) ∧ ∀ x ∈ t, x ≤ 15) ∧
      (∀ t ∈ (trigsOf c (newTrace s (Combine_Gears 0 0 15 5 s))).map (List.take (arity c)),
        t.Nodup)) ∧
    (trigsOf .GEAR_CONFIG_0 (newTrace s (Combine_Gears 0 0 15 5 s))).length = 560 ∧
    (trigsOf .GEAR_CONFIG_2 (newTrace s (Combine_Gears 0 0 15 5 s))).length = 1820 ∧
    (trigsOf .GEAR_CONFIG_3 (newTrace s (Combine_Gears 0 0 15 5 s))).length = 1820 ∧
    (trigsOf .GEAR_CONFIG_1 (newTrace s (Combine_Gears 0 0 15 5 s))).length = 4368 := by
  have hs := Combine_Gears_trace s (by omega)
  have hmem : ∀ (c : Cfg) (t : List Nat), t ∈ incTuples 15 (arity c) 0 ↔
      t.length = arity c ∧ t.Sorted (· < ·) ∧ ∀ x ∈ t, x ≤ 15 := by
    intro c t
    rw [mem_incTuples]
    constructor
    · rintro ⟨h1, h2, h3⟩
      exact ⟨h1, h2, fun x hx => (h3 x hx).2⟩
    · rintro ⟨h1, h2, h3⟩
      exact ⟨h1, h2, fun x hx => ⟨Nat.zero_le _, h3 x hx⟩⟩
  have hlen : ∀ c : Cfg,
      (trigsOf c (newTrace s (Combine_Gears 0 0 15 5 s))).length = Nat.choose 16 (arity c) := by
    intro c
    rw [← List.length_map _ (List.take (arity c)), TraceShape_trigs _ _ hs c,
      incTuples_length 15 16 (arity c) 0 rfl]
  refine ⟨fun c => ?_, ?_, ?_, ?_, ?_⟩
  · rw [TraceShape_trigs _ _ hs c]
    refine ⟨incTuples_nodup 15 (arity c) 0, incTuples_length 15 16 (arity c) 0 rfl,
      hmem c, fun t ht => ?_⟩
    exact ((hmem c t).mp ht).2.1.nodup
  · rw [hlen]; decide
  · rw [hlen]; decide
  · rw [hlen]; decide
  · rw [hlen]; decide

theorem C4_combination_coverage_witness :
    initState.vec.length = 10 ∧
      (trigsOf .GEAR_CONFIG_0 (newTrace initState (Combine_Gears 0 0 15 5 initState))).length
        = 560 :=
  ⟨rfl, (C4_combination_coverage initState rfl).2.1⟩

/-- C5: on a buffer whose entries `vec[0..n]` are pairwise distinct,
`Permute_Gears(cfg, n)` calls `Check_Gears` exactly `(n+1)!` times, always for
`cfg`; the orderings of `vec[0..n]` seen at those calls are pairwise different and
are exactly the permutations of the entry prefix; the positions above `n` are the
same at every call and at every (recursive) entry into `Permute_Gears`; on return
`vec` is what it was on entry. -/
theorem C5_permutation_coverage (cfg : Cfg) (n : Nat) (s : State)
    (hn : n < s.vec.length) (hnd : (s.vec.take (n + 1)).Nodup) :
    (checkEvents (newTrace s (Permute_Gears cfg n s))).length = (n + 1).factorial ∧
    (∀ e ∈ checkEvents (newTrace s (Permute_Gears cfg n s)),
      e.1 = cfg ∧ e.2.length = s.vec.length ∧ e.2.drop (n + 1) = s.vec.drop (n + 1)) ∧
    ((checkEvents (newTrace s (Permute_Gears cfg n s))).map
      fun e => e.2.take (n + 1)).Nodup ∧
    (∀ p : List Nat,
      p ∈ (checkEvents (newTrace s (Permute_Gears cfg n s))).map (fun e => e.2.take (n + 1))
        ↔ p.Perm (s.vec.take (n + 1))) ∧
    (∀ e ∈ newTrace s (Permute_Gears cfg n s),
      e.buf.length = s.vec.length ∧ e.buf.drop (n + 1) = s.vec.drop (n + 1)) ∧
    (Permute_Gears cfg n s).vec = s.vec := by
  have hrun := Runs_permute cfg n s.vec hn s rfl
  have htr : newTrace s (Permute_Gears cfg n s) = permTrace cfg n s.vec :=
    newTrace_of_runs s _ _ _ hrun
  have hmap : (checkEvents (permTrace cfg n s.vec)).map (fun e => e.2.take (n + 1))
      = (perms n s.vec).map (List.take (n + 1)) := by
    rw [checkEvents_permTrace, List.map_map]
    rfl
  have hperm := perms_take_perm n s.vec hn hnd
  rw [htr]
  refine ⟨?_, ?_, ?_, ?_, ?_, ?_⟩
  · rw [checkEvents_permTrace, List.length_map, perms_length]
  · intro e he
    rw [checkEvents_permTrace, List.mem_map] at he
    obtain ⟨w, hw, rfl⟩ := he
    exact ⟨rfl, perms_mem_length n _ w hw, perms_mem_drop n _ w hw⟩
  · rw [hmap]
    exact hperm.nodup_iff.mpr (List.nodup_permutations _ hnd)
  · intro p
    rw [hmap, hperm.mem_iff, List.mem_permutations]
  · exact fun e he => permTrace_buf cfg n s.vec e he
  · rw [hrun]
    rfl

theorem C5_permutation_coverage_witness :
    (4 < (setVec [0, 1, 2, 3, 4, 5, 6, 7, 8, 9] initState).vec.length ∧
      ((setVec [0, 1, 2, 3, 4, 5, 6, 7, 8, 9] initState).vec.take (4 + 1)).Nodup) ∧
    (checkEvents (newTrace (setVec [0, 1, 2, 3, 4, 5, 6, 7, 8, 9] initState)
      (Permute_Gears .GEAR_CONFIG_1 4 (setVec [0, 1, 2, 3, 4, 5, 6, 7, 8, 9] initState)))).length
        = 120 ∧
    (Permute_Gears .GEAR_CONFIG_1 4 (setVec [0, 1, 2, 3, 4, 5, 6, 7, 8, 9] initState)).vec
      = [0, 1, 2, 3, 4, 5, 6, 7, 8, 9] :=
  ⟨⟨by decide, by decide⟩,
    (C5_permutation_coverage .GEAR_CONFIG_1 4 (setVec [0, 1, 2, 3, 4, 5, 6, 7, 8, 9] initState)
      (by decide) (by decide)).1,
    (C5_permutation_coverage .GEAR_CONFIG_1 4 (setVec [0, 1, 2, 3, 4, 5, 6, 7, 8, 9] initState)
      (by decide) (by decide)).2.2.2.2.2⟩

/-- C6: one call of `Combine_Gears(0,0,15,5)` returns and enters `Check_Gears`
exactly 614880 times: 3360 times for configuration 0, 43680 times each for
configurations 2 and 3 and 524160 times for configuration 1, whatever the state
(and so whatever the target pitch). -/
theorem C6_evaluation_count (s : State) (hv : s.vec.length = 10) :
    (checkEvents (newTrace s (Combine_Gears 0 0 15 5 s))).length = 614880 ∧
    (checksOf .GEAR_CONFIG_0 (newTrace s (Combine_Gears 0 0 15 5 s))).length = 3360 ∧
    (checksOf .GEAR_CONFIG_2 (newTrace s (Combine_Gears 0 0 15 5 s))).length = 43680 ∧
    (checksOf .GEAR_CONFIG_3 (newTrace s (Combine_Gears 0 0 15 5 s))).length = 43680 ∧
    (checksOf .GEAR_CONFIG_1 (newTrace s (Combine_Gears 0 0 15 5 s))).length = 524160 ∧
    Nat.choose 16 3 * 6 + Nat.choose 16 4 * 24 * 2 + Nat.choose 16 5 * 120 = 614880 := by
  have hs := Combine_Gears_trace s (by omega)
  have h0 : (checksOf .GEAR_CONFIG_0 (newTrace s (Combine_Gears 0 0 15 5 s))).length = 3360 := by
    rw [checksOf_length _ _ hs]; decide
  have h1 : (checksOf .GEAR_CONFIG_1 (newTrace s (Combine_Gears 0 0 15 5 s))).length
      = 524160 := by
    rw [checksOf_length _ _ hs]; decide
  have h2 : (checksOf .GEAR_CONFIG_2 (newTrace s (Combine_Gears 0 0 15 5 s))).length
      = 43680 := by
    rw [checksOf_length _ _ hs]; decide
  have h3 : (checksOf .GEAR_CONFIG_3 (newTrace s (Combine_Gears 0 0 15 5 s))).length
      = 43680 := by
    rw [checksOf_length _ _ hs]; decide
  refine ⟨?_, h0, h2, h3, h1, by decide⟩
  rw [checkEvents_length, h0, h1, h2, h3]

theorem C6_evaluation_count_witness :
    initState.vec.length = 10 ∧
      (checkEvents (newTrace initState (Combine_Gears 0 0 15 5 initState))).length = 614880 :=
  ⟨rfl, (C6_evaluation_count initState rfl).1⟩

/-! ## Claims on the feasibility checker -/

/-- C7: `Gear_Valid` returns 0 whenever the slot pair of the configuration sums to
more than 168 (A+B for configurations 0 and 3, B+C for 1 and 2) and whenever the
final output pair sums to less than 80 (B+C for configuration 0, D+E for 1, C+D for
2 and 3); in every configuration there are accepted assignments whose slot sum is
exactly 168 and whose final pair is exactly 80, so neither boundary value is
rejected. -/
theorem C7_slot_capacity_and_final_pair :
    (∀ ga gb gc gd ge : Int,
      (168 < ga + gb → Gear_Valid .GEAR_CONFIG_0 ga gb gc gd ge = 0) ∧
      (168 < ga + gb → Gear_Valid .GEAR_CONFIG_3 ga gb gc gd ge = 0) ∧
      (168 < gb + gc → Gear_Valid .GEAR_CONFIG_1 ga gb gc gd ge = 0) ∧
      (168 < gb + gc → Gear_Valid .GEAR_CONFIG_2 ga gb gc gd ge = 0) ∧
      (gb + gc < 80 → Gear_Valid .GEAR_CONFIG_0 ga gb gc gd ge = 0) ∧
      (gd + ge < 80 → Gear_Valid .GEAR_CONFIG_1 ga gb gc gd ge = 0) ∧
      (gc + gd < 80 → Gear_Valid .GEAR_CONFIG_2 ga gb gc gd ge = 0) ∧
      (gc + gd < 80 → Gear_Valid .GEAR_CONFIG_3 ga gb gc gd ge = 0)) ∧
    (∃ ga gb gc gd ge : Int, ga + gb = 168 ∧ gb + gc = 80 ∧
      Gear_Valid .GEAR_CONFIG_0 ga gb gc gd ge = 1) ∧
    (∃ ga gb gc gd ge : Int, gb + gc = 168 ∧ gd + ge = 80 ∧
      Gear_Valid .GEAR_CONFIG_1 ga gb gc gd ge = 1) ∧
    (∃ ga gb gc gd ge : Int, gb + gc = 168 ∧ gc + gd = 80 ∧
      Gear_Valid .GEAR_CONFIG_2 ga gb gc gd ge = 1) ∧
    (∃ ga gb gc gd ge : Int, ga + gb = 168 ∧ gc + gd = 80 ∧
      Gear_Valid .GEAR_CONFIG_3 ga gb gc gd ge = 1) := by
  refine ⟨?_, ⟨100, 68, 12, 0, 0, by decide, by decide, ?_⟩,
    ⟨124, 128, 40, 40, 40, by decide, by decide, ?_⟩,
    ⟨100, 100, 68, 12, 0, by decide, by decide, ?_⟩,
    ⟨128, 40, 40, 40, 0, by decide, by decide, ?_⟩⟩
  · intro ga gb gc gd ge
    have key : ∀ cfg, Gear_Valid cfg ga gb gc gd ge ≠ 1 → Gear_Valid cfg ga gb gc gd ge = 0 :=
      fun cfg h => (Gear_Valid_zero_or_one cfg ga gb gc gd ge).resolve_right h
    refine ⟨fun h => key _ ?_, fun h => key _ ?_, fun h => key _ ?_, fun h => key _ ?_,
      fun h => key _ ?_, fun h => key _ ?_, fun h => key _ ?_, fun h => key _ ?_⟩
    · intro hv; rw [Gear_Valid_0_iff] at hv; omega
    · intro hv; rw [Gear_Valid_3_iff] at hv; omega
    · intro hv; rw [Gear_Valid_1_iff] at hv; omega
    · intro hv; rw [Gear_Valid_2_iff] at hv; omega
    · intro hv; rw [Gear_Valid_0_iff] at hv; omega
    · intro hv; rw [Gear_Valid_1_iff] at hv; omega
    · intro hv; rw [Gear_Valid_2_iff] at hv; omega
    · intro hv; rw [Gear_Valid_3_iff] at hv; omega
  · rw [Gear_Valid_0_iff, Calc_Length_eq]; decide
  · rw [Gear_Valid_1_iff, Calc_Length_eq]; decide
  · rw [Gear_Valid_2_iff, Calc_Length_eq]; decide
  · rw [Gear_Valid_3_iff, Calc_Length_eq]; decide

/-- C8 as stated fails: configuration 2 accepts A=100, B=30, C=90, D=80 and
configuration 1 accepts A=60, B=50, C=90, D=70, E=100 (all catalog values), although
`|A - B|` is 70 and 10. -/
theorem C8_counterexample :
    (Gear_Valid .GEAR_CONFIG_2 100 30 90 80 30 = 1 ∧ ¬ |(100 : Int) - 30| ≤ 6) ∧
    (Gear_Valid .GEAR_CONFIG_1 60 50 90 70 100 = 1 ∧ ¬ |(60 : Int) - 50| ≤ 6) := by
  refine ⟨⟨?_, by decide⟩, ⟨?_, by decide⟩⟩
  · rw [Gear_Valid_2_iff, Calc_Length_eq]; decide
  · rw [Gear_Valid_1_iff, Calc_Length_eq]; decide

/-- C8 (amended): for configurations 1 and 2 every assignment that `Gear_Valid`
accepts satisfies `B - A ≤ 6`: the check is one-sided, it rejects a second gear B
that exceeds the first gear A by more than 6. -/
theorem C8_first_stage_imbalance (cfg : Cfg) (ga gb gc gd ge : Int)
    (hcfg : cfg = .GEAR_CONFIG_1 ∨ cfg = .GEAR_CONFIG_2)
    (h : Gear_Valid cfg ga gb gc gd ge = 1) : gb - ga ≤ 6 := by
  rcases hcfg with rfl | rfl
  · rw [Gear_Valid_1_iff] at h; omega
  · rw [Gear_Valid_2_iff] at h; omega

theorem C8_first_stage_imbalance_witness :
    Gear_Valid .GEAR_CONFIG_2 100 30 90 80 30 = 1 ∧ (30 : Int) - 100 ≤ 6 :=
  have h : Gear_Valid .GEAR_CONFIG_2 100 30 90 80 30 = 1 := by
    rw [Gear_Valid_2_iff, Calc_Length_eq]; decide
  ⟨h, C8_first_stage_imbalance .GEAR_CONFIG_2 100 30 90 80 30 (Or.inr rfl) h⟩

/-- C9: for configuration 1, acceptance implies both clearances
`(B+C) - (A+D)` and `(D+E) - (C+30)` are at least 4, and an assignment that passes
the slot-sum, final-pair, A/B-difference and train-length checks is accepted exactly
when both clearances are at least 4; a clearance of exactly 4 is accepted and a
clearance of 3 is rejected. -/
theorem C9_config1_clearances :
    (∀ ga gb gc gd ge : Int, Gear_Valid .GEAR_CONFIG_1 ga gb gc gd ge = 1 →
      4 ≤ (gb + gc) - (ga + gd) ∧ 4 ≤ (gd + ge) - (gc + 30)) ∧
    (∀ ga gb gc gd ge : Int, gb + gc ≤ 168 → 80 ≤ gd + ge → gb - ga ≤ 6 →
      154 ≤ Calc_Length .GEAR_CONFIG_1 ga gb gc gd ge →
      (Gear_Valid .GEAR_CONFIG_1 ga gb gc gd ge = 1 ↔
        4 ≤ (gb + gc) - (ga + gd) ∧ 4 ≤ (gd + ge) - (gc + 30))) ∧
    (Gear_Valid .GEAR_CONFIG_1 70 70 50 46 38 = 1 ∧
      ((70 : Int) + 50) - (70 + 46) = 4 ∧ ((46 : Int) + 38) - (50 + 30) = 4) ∧
    (Gear_Valid .GEAR_CONFIG_1 70 70 50 47 38 = 0 ∧
      ((70 : Int) + 50) - (70 + 47) = 3) ∧
    (Gear_Valid .GEAR_CONFIG_1 70 70 50 46 37 = 0 ∧
      ((46 : Int) + 37) - (50 + 30) = 3) := by
  have key : ∀ ga gb gc gd ge : Int, Gear_Valid .GEAR_CONFIG_1 ga gb gc gd ge ≠ 1 →
      Gear_Valid .GEAR_CONFIG_1 ga gb gc gd ge = 0 :=
    fun ga gb gc gd ge h => (Gear_Valid_zero_or_one _ ga gb gc gd ge).resolve_right h
  refine ⟨?_, ?_, ⟨?_, by decide, by decide⟩, ⟨key _ _ _ _ _ ?_, by decide⟩,
    ⟨key _ _ _ _ _ ?_, by decide⟩⟩
  · intro ga gb gc gd ge h
    rw [Gear_Valid_1_iff] at h
    exact ⟨h.2.2.2.1, h.2.2.2.2.1⟩
  · intro ga gb gc gd ge h1 h2 h3 h4
    rw [Gear_Valid_1_iff]
    exact ⟨fun h => ⟨h.2.2.2.1, h.2.2.2.2.1⟩, fun h => ⟨h1, h2, h3, h.1, h.2, h4⟩⟩
  · rw [Gear_Valid_1_iff, Calc_Length_eq]; decide
  · intro hv; rw [Gear_Valid_1_iff] at hv; omega
  · intro hv; rw [Gear_Valid_1_iff] at hv; omega

/-- C10: for configuration 3, `Gear_Valid` returns 1 exactly when `A+B ≤ 168`,
`C+D ≥ 80`, `(A+B) - (C+30) ≥ 4`, `(C+D) - (B+30) ≥ 4` and the train length is at
least 154; the two clearance checks use the same hub size 30 and the same minimum
clearance 4. -/
theorem C10_config3_clearances (ga gb gc gd ge : Int) :
    Gear_Valid .GEAR_CONFIG_3 ga gb gc gd ge = 1 ↔
      ga + gb ≤ 168 ∧ 80 ≤ gc + gd ∧
      4 ≤ (ga + gb) - (gc + 30) ∧ 4 ≤ (gc + gd) - (gb + 30) ∧
      154 ≤ Calc_Length .GEAR_CONFIG_3 ga gb gc gd ge :=
  Gear_Valid_3_iff ga gb gc gd ge

/-! ## Train length on tooth counts that are not negative -/

/-- On non-negative tooth counts every truncated half is an integer quotient. -/
theorem Calc_Length_nonneg (cfg : Cfg) (ga gb gc gd ge : Int)
    (ha : 0 ≤ ga) (hb : 0 ≤ gb) (hc : 0 ≤ gc) (hd : 0 ≤ gd) (he : 0 ≤ ge) :
    Calc_Length cfg ga gb gc gd ge =
      match cfg with
      | .GEAR_CONFIG_0 => 20 + ga + gb + gc / 2
      | .GEAR_CONFIG_1 => 20 + ga / 2 + gb / 2 + gc / 2 + gd / 2 + ge / 2
      | .GEAR_CONFIG_2 => 20 + ga / 2 + gb / 2 + gc + gd / 2
      | .GEAR_CONFIG_3 => 20 + ga + gb / 2 + gc / 2 + gd / 2 := by
  have key : ∀ x : Int, 0 ≤ x → x.tdiv 2 = x / 2 :=
    fun x hx => Int.tdiv_eq_ediv hx (by norm_num)
  rw [Calc_Length_eq]
  cases cfg
  · simp only []
    rw [key _ (by omega)]
    omega
  · simp only []
    rw [key (2 * 20 + ga) (by omega)]
    rw [key (2 * ((2 * 20 + ga) / 2) + gb) (by omega)]
    rw [key (2 * ((2 * ((2 * 20 + ga) / 2) + gb) / 2) + gc) (by omega)]
    rw [key (2 * ((2 * ((2 * ((2 * 20 + ga) / 2) + gb) / 2) + gc) / 2) + gd) (by omega)]
    rw [key _ (by omega)]
    omega
  · simp only []
    rw [key (2 * 20 + ga) (by omega)]
    rw [key (2 * ((2 * 20 + ga) / 2) + gb) (by omega)]
    rw [key _ (by omega)]
    omega
  · simp only []
    rw [key (2 * (20 + ga) + gb) (by omega)]
    rw [key (2 * ((2 * (20 + ga) + gb) / 2) + gc) (by omega)]
    rw [key _ (by omega)]
    omega

/-- C11: in every configuration an assignment that passes the configuration's own
checks is accepted exactly when its train length is at least 154, and nothing with a
train length below 154 is accepted; in each configuration there is an assignment of
train length exactly 154 that is accepted and one of train length 153 that passes
the configuration's own checks and is rejected. -/
theorem C11_train_length_boundary :
    (∀ (cfg : Cfg) (ga gb gc gd ge : Int),
      Gear_Valid cfg ga gb gc gd ge = 1 → 154 ≤ Calc_Length cfg ga gb gc gd ge) ∧
    (∀ ga gb gc gd ge : Int, ga + gb ≤ 168 → 80 ≤ gb + gc →
      (Gear_Valid .GEAR_CONFIG_0 ga gb gc gd ge = 1 ↔
        154 ≤ Calc_Length .GEAR_CONFIG_0 ga gb gc gd ge)) ∧
    (∀ ga gb gc gd ge : Int, gb + gc ≤ 168 → 80 ≤ gd + ge → gb - ga ≤ 6 →
      4 ≤ (gb + gc) - (ga + gd) → 4 ≤ (gd + ge) - (gc + 30) →
      (Gear_Valid .GEAR_CONFIG_1 ga gb gc gd ge = 1 ↔
        154 ≤ Calc_Length .GEAR_CONFIG_1 ga gb gc gd ge)) ∧
    (∀ ga gb gc gd ge : Int, gb + gc ≤ 168 → 80 ≤ gc + gd → gb - ga ≤ 6 →
      (Gear_Valid .GEAR_CONFIG_2 ga gb gc gd ge = 1 ↔
        154 ≤ Calc_Length .GEAR_CONFIG_2 ga gb gc gd ge)) ∧
    (∀ ga gb gc gd ge : Int, ga + gb ≤ 168 → 80 ≤ gc + gd →
      4 ≤ (ga + gb) - (gc + 30) → 4 ≤ (gc + gd) - (gb + 30) →
      (Gear_Valid .GEAR_CONFIG_3 ga gb gc gd ge = 1 ↔
        154 ≤ Calc_Length .GEAR_CONFIG_3 ga gb gc gd ge)) ∧
    (Calc_Length .GEAR_CONFIG_0 60 50 48 0 0 = 154 ∧
      Gear_Valid .GEAR_CONFIG_0 60 50 48 0 0 = 1 ∧
      Calc_Length .GEAR_CONFIG_0 60 50 46 0 0 = 153 ∧
      Gear_Valid .GEAR_CONFIG_0 60 50 46 0 0 = 0) ∧
    (Calc_Length .GEAR_CONFIG_1 60 60 40 36 72 = 154 ∧
      Gear_Valid .GEAR_CONFIG_1 60 60 40 36 72 = 1 ∧
      Calc_Length .GEAR_CONFIG_1 60 60 40 36 70 = 153 ∧
      Gear_Valid .GEAR_CONFIG_1 60 60 40 36 70 = 0) ∧
    (Calc_Length .GEAR_CONFIG_2 60 60 50 48 0 = 154 ∧
      Gear_Valid .GEAR_CONFIG_2 60 60 50 48 0 = 1 ∧
      Calc_Length .GEAR_CONFIG_2 60 60 50 46 0 = 153 ∧
      Gear_Valid .GEAR_CONFIG_2 60 60 50 46 0 = 0) ∧
    (Calc_Length .GEAR_CONFIG_3 60 40 50 58 0 = 154 ∧
      Gear_Valid .GEAR_CONFIG_3 60 40 50 58 0 = 1 ∧
      Calc_Length .GEAR_CONFIG_3 60 40 50 56 0 = 153 ∧
      Gear_Valid .GEAR_CONFIG_3 60 40 50 56 0 = 0) := by
  have zero : ∀ (cfg : Cfg) (ga gb gc gd ge : Int), Gear_Valid cfg ga gb gc gd ge ≠ 1 →
      Gear_Valid cfg ga gb gc gd ge = 0 :=
    fun cfg ga gb gc gd ge h => (Gear_Valid_zero_or_one cfg ga gb gc gd ge).resolve_right h
  refine ⟨?_, ?_, ?_, ?_, ?_, ⟨?_, ?_, ?_, zero _ _ _ _ _ _ ?_⟩, ⟨?_, ?_, ?_, zero _ _ _ _ _ _ ?_⟩,
    ⟨?_, ?_, ?_, zero _ _ _ _ _ _ ?_⟩, ⟨?_, ?_, ?_, zero _ _ _ _ _ _ ?_⟩⟩
  · intro cfg ga gb gc gd ge h
    cases cfg
    · exact ((Gear_Valid_0_iff ga gb gc gd ge).mp h).2.2
    · exact ((Gear_Valid_1_iff ga gb gc gd ge).mp h).2.2.2.2.2
    · exact ((Gear_Valid_2_iff ga gb gc gd ge).mp h).2.2.2
    · exact ((Gear_Valid_3_iff ga gb gc gd ge).mp h).2.2.2.2
  · intro ga gb gc gd ge h1 h2
    rw [Gear_Valid_0_iff]
    exact ⟨fun h => h.2.2, fun h => ⟨h1, h2, h⟩⟩
  · intro ga gb gc gd ge h1 h2 h3 h4 h5
    rw [Gear_Valid_1_iff]
    exact ⟨fun h => h.2.2.2.2.2, fun h => ⟨h1, h2, h3, h4, h5, h⟩⟩
  · intro ga gb gc gd ge h1 h2 h3
    rw [Gear_Valid_2_iff]
    exact ⟨fun h => h.2.2.2, fun h => ⟨h1, h2, h3, h⟩⟩
  · intro ga gb gc gd ge h1 h2 h3 h4
    rw [Gear_Valid_3_iff]
    exact ⟨fun h => h.2.2.2.2, fun h => ⟨h1, h2, h3, h4, h⟩⟩
  · rw [Calc_Length_eq]; decide
  · rw [Gear_Valid_0_iff, Calc_Length_eq]; decide
  · rw [Calc_Length_eq]; decide
  · intro h; rw [Gear_Valid_0_iff, Calc_Length_eq] at h; revert h; decide
  · rw [Calc_Length_eq]; decide
  · rw [Gear_Valid_1_iff, Calc_Length_eq]; decide
  · rw [Calc_Length_eq]; decide
  · intro h; rw [Gear_Valid_1_iff, Calc_Length_eq] at h; revert h; decide
  · rw [Calc_Length_eq]; decide
  · rw [Gear_Valid_2_iff, Calc_Length_eq]; decide
  · rw [Calc_Length_eq]; decide
  · intro h; rw [Gear_Valid_2_iff, Calc_Length_eq] at h; revert h; decide
  · rw [Calc_Length_eq]; decide
  · rw [Gear_Valid_3_iff, Calc_Length_eq]; decide
  · rw [Calc_Length_eq]; decide
  · intro h; rw [Gear_Valid_3_iff, Calc_Length_eq] at h; revert h; decide

/-- C12 at a failing input: the catalog gears A=45, B=35, C=68, D=30, E=90 pass every
other check of configuration 1; the exact sum `20 + (A+B+C+D+E)/2` is 154, but
`Calc_Length` truncates the two odd halves separately and returns 153, and
`Gear_Valid` rejects the assignment. -/
theorem C12_truncation_at_failing_input :
    Calc_Length .GEAR_CONFIG_1 45 35 68 30 90 = 153 ∧
    ⌊(20 : ℚ) + (((45 : Int) : ℚ) + ((35 : Int) : ℚ) + ((68 : Int) : ℚ) + ((30 : Int) : ℚ)
      + ((90 : Int) : ℚ)) / 2⌋ = 154 ∧
    ((35 : Int) + 68 ≤ 168 ∧ (80 : Int) ≤ 30 + 90 ∧ (35 : Int) - 45 ≤ 6 ∧
      (4 : Int) ≤ (35 + 68) - (45 + 30) ∧ (4 : Int) ≤ (30 + 90) - (68 + 30)) ∧
    Gear_Valid .GEAR_CONFIG_1 45 35 68 30 90 = 0 := by
  refine ⟨by rw [Calc_Length_eq]; decide, by norm_num, by decide, ?_⟩
  refine (Gear_Valid_zero_or_one _ _ _ _ _ _).resolve_right ?_
  intro h
  rw [Gear_Valid_1_iff, Calc_Length_eq] at h
  revert h
  decide

/-- C13: on positive tooth counts, over exact rationals, `Calc_Pitch` is the pitch
ratio of the table divided by 12: `40/(12*C)` for configuration 0 (whatever A and B),
`(40/A)*(B/C)*(D/E)/12` for configuration 1, `(40/A)*(B/D)/12` for configuration 2
(whatever C) and `40*C/(12*B*D)` for configuration 3 (whatever A). -/
theorem C13_pitch_formula (ga gb gc gd ge : Int)
    (ha : 0 < ga) (hb : 0 < gb) (hc : 0 < gc) (hd : 0 < gd) (he : 0 < ge) :
    (Calc_Pitch .GEAR_CONFIG_0 ga gb gc gd ge = (40 / (ga : ℚ)) * ((ga : ℚ) / gc) / 12 ∧
      Calc_Pitch .GEAR_CONFIG_0 ga gb gc gd ge = 40 / (12 * (gc : ℚ))) ∧
    Calc_Pitch .GEAR_CONFIG_1 ga gb gc gd ge
      = (40 / (ga : ℚ)) * ((gb : ℚ) / gc) * ((gd : ℚ) / ge) / 12 ∧
    Calc_Pitch .GEAR_CONFIG_2 ga gb gc gd ge = (40 / (ga : ℚ)) * ((gb : ℚ) / gd) / 12 ∧
    (Calc_Pitch .GEAR_CONFIG_3 ga gb gc gd ge
        = (40 / (ga : ℚ)) * ((ga : ℚ) / gb) * ((gc : ℚ) / gd) / 12 ∧
      Calc_Pitch .GEAR_CONFIG_3 ga gb gc gd ge = 40 * (gc : ℚ) / (12 * (gb : ℚ) * gd)) ∧
    (∀ ga' gb' : Int, 0 < ga' →
      Calc_Pitch .GEAR_CONFIG_0 ga' gb' gc gd ge = Calc_Pitch .GEAR_CONFIG_0 ga gb gc gd ge) ∧
    (∀ gc' : Int,
      Calc_Pitch .GEAR_CONFIG_2 ga gb gc' gd ge = Calc_Pitch .GEAR_CONFIG_2 ga gb gc gd ge) ∧
    (∀ ga' : Int, 0 < ga' →
      Calc_Pitch .GEAR_CONFIG_3 ga' gb gc gd ge = Calc_Pitch .GEAR_CONFIG_3 ga gb gc gd ge) := by
  have ha' : (ga : ℚ) ≠ 0 := by exact_mod_cast ha.ne'
  have hb' : (gb : ℚ) ≠ 0 := by exact_mod_cast hb.ne'
  have hc' : (gc : ℚ) ≠ 0 := by exact_mod_cast hc.ne'
  have hd' : (gd : ℚ) ≠ 0 := by exact_mod_cast hd.ne'
  have he' : (ge : ℚ) ≠ 0 := by exact_mod_cast he.ne'
  simp only [Calc_Pitch, IDLER_TEETH, LEADSCREW_TPI]
  refine ⟨⟨trivial, ?_⟩, trivial, trivial, ⟨trivial, ?_⟩, ?_, ?_, ?_⟩
  · field_simp
    ring
  · field_simp
    ring
  · intro ga' gb' h
    have : (ga' : ℚ) ≠ 0 := by exact_mod_cast h.ne'
    field_simp
  · intro gc'
    trivial
  · intro ga' h
    have : (ga' : ℚ) ≠ 0 := by exact_mod_cast h.ne'
    field_simp

theorem C13_pitch_formula_witness :
    ((0 : Int) < 60 ∧ (0 : Int) < 70 ∧ (0 : Int) < 50 ∧ (0 : Int) < 80 ∧ (0 : Int) < 90) ∧
      Calc_Pitch .GEAR_CONFIG_0 60 70 50 80 90 = 40 / (12 * ((50 : Int) : ℚ)) :=
  ⟨by decide,
    (C13_pitch_formula 60 70 50 80 90 (by decide) (by decide) (by decide) (by decide)
      (by decide)).1.2⟩

/-! ## Catalog bounds and the range of feasible pitches -/

theorem Check_Gears_valid_count (cfg : Cfg) (s : State) :
    (Check_Gears cfg s).valid_count =
      if validAt cfg s.vec ≠ 0 then s.valid_count + 1 else s.valid_count := by
  unfold Check_Gears validAt
  simp only []
  split_ifs <;> rfl

theorem gear_set_bounds (k : Nat) (h : k < NUM_GEARS) :
    30 ≤ gear_set.getD k 0 ∧ gear_set.getD k 0 ≤ 100 := by
  have h16 : k < 16 := h
  interval_cases k <;> exact ⟨by decide, by decide⟩

theorem gearAt_append_bounds (p pad : List Nat) (hp : ∀ x ∈ p, x < NUM_GEARS) (i : Nat)
    (hi : i < p.length) :
    30 ≤ gearAt (p ++ pad) i ∧ gearAt (p ++ pad) i ≤ 100 := by
  unfold gearAt
  apply gear_set_bounds
  rw [List.getD_eq_getElem?_getD, List.getElem?_append_left hi, List.getElem?_eq_getElem hi]
  exact hp _ (List.getElem_mem _)

/-- A feasible assignment drawn from the catalog has a pitch strictly between 0 and 1
inch. -/
theorem pitch_range (c : Cfg) (p pad : List Nat) (hp : Assignment c p)
    (hval : validAt c (p ++ pad) = 1) :
    0 < pitchAt c (p ++ pad) ∧ pitchAt c (p ++ pad) < 1 := by
  obtain ⟨hlen, _, hb⟩ := hp
  have g : ∀ i, i < arity c → 30 ≤ gearAt (p ++ pad) i ∧ gearAt (p ++ pad) i ≤ 100 :=
    fun i hi => gearAt_append_bounds p pad hb i (by rw [hlen]; exact hi)
  have cast : ∀ x : Int, 30 ≤ x ∧ x ≤ 100 → (30 : ℚ) ≤ (x : ℚ) ∧ (x : ℚ) ≤ 100 :=
    fun x hx => ⟨by exact_mod_cast hx.1, by exact_mod_cast hx.2⟩
  unfold pitchAt Calc_Pitch
  unfold validAt at hval
  simp only [IDLER_TEETH, LEADSCREW_TPI]
  cases c
  · obtain ⟨a1, a2⟩ := cast _ (g 0 (by decide))
    obtain ⟨c1, c2⟩ := cast _ (g 2 (by decide))
    simp only []
    have ha : (0 : ℚ) < (gearAt (p ++ pad) 0 : ℚ) := by linarith
    have hc : (0 : ℚ) < (gearAt (p ++ pad) 2 : ℚ) := by linarith
    refine ⟨by positivity, ?_⟩
    have e : 40 / (gearAt (p ++ pad) 0 : ℚ)
          * ((gearAt (p ++ pad) 0 : ℚ) / (gearAt (p ++ pad) 2 : ℚ)) / 12
        = 40 / (12 * (gearAt (p ++ pad) 2 : ℚ)) := by
      field_simp
      ring
    rw [e, div_lt_one (by positivity)]
    linarith
  · obtain ⟨a1, a2⟩ := cast _ (g 0 (by decide))
    obtain ⟨b1, b2⟩ := cast _ (g 1 (by decide))
    obtain ⟨c1, c2⟩ := cast _ (g 2 (by decide))
    obtain ⟨d1, d2⟩ := cast _ (g 3 (by decide))
    obtain ⟨e1, e2⟩ := cast _ (g 4 (by decide))
    rw [Gear_Valid_1_iff] at hval
    have hab : (gearAt (p ++ pad) 1 : ℚ) ≤ (gearAt (p ++ pad) 0 : ℚ) + 6 := by
      have := hval.2.2.1
      have h' : gearAt (p ++ pad) 1 ≤ gearAt (p ++ pad) 0 + 6 := by omega
      exact_mod_cast h'
    simp only []
    have ha : (0 : ℚ) < (gearAt (p ++ pad) 0 : ℚ) := by linarith
    have hb' : (0 : ℚ) < (gearAt (p ++ pad) 1 : ℚ) := by linarith
    have hc : (0 : ℚ) < (gearAt (p ++ pad) 2 : ℚ) := by linarith
    have hd : (0 : ℚ) < (gearAt (p ++ pad) 3 : ℚ) := by linarith
    have he : (0 : ℚ) < (gearAt (p ++ pad) 4 : ℚ) := by linarith
    refine ⟨by positivity, ?_⟩
    have e : 40 / (gearAt (p ++ pad) 0 : ℚ)
          * ((gearAt (p ++ pad) 1 : ℚ) / (gearAt (p ++ pad) 2 : ℚ))
          * ((gearAt (p ++ pad) 3 : ℚ) / (gearAt (p ++ pad) 4 : ℚ)) / 12
        = (40 * (gearAt (p ++ pad) 1 : ℚ) * (gearAt (p ++ pad) 3 : ℚ))
          / (12 * (gearAt (p ++ pad) 0 : ℚ) * ((gearAt (p ++ pad) 2 : ℚ)
            * (gearAt (p ++ pad) 4 : ℚ))) := by
      field_simp
      ring
    rw [e, div_lt_one (by positivity)]
    have h1 : (gearAt (p ++ pad) 1 : ℚ) * (gearAt (p ++ pad) 3 : ℚ)
        ≤ ((gearAt (p ++ pad) 0 : ℚ) + 6) * 100 :=
      mul_le_mul hab d2 (le_of_lt hd) (by linarith)
    have h2 : (30 : ℚ) * 30 ≤ (gearAt (p ++ pad) 2 : ℚ) * (gearAt (p ++ pad) 4 : ℚ) :=
      mul_le_mul c1 e1 (by norm_num) (le_of_lt hc)
    have h3 : (gearAt (p ++ pad) 0 : ℚ) * (30 * 30)
        ≤ (gearAt (p ++ pad) 0 : ℚ) * ((gearAt (p ++ pad) 2 : ℚ) * (gearAt (p ++ pad) 4 : ℚ)) :=
      mul_le_mul_of_nonneg_left h2 (le_of_lt ha)
    nlinarith
  · obtain ⟨a1, a2⟩ := cast _ (g 0 (by decide))
    obtain ⟨b1, b2⟩ := cast _ (g 1 (by decide))
    obtain ⟨d1, d2⟩ := cast _ (g 3 (by decide))
    simp only []
    have ha : (0 : ℚ) < (gearAt (p ++ pad) 0 : ℚ) := by linarith
    have hb' : (0 : ℚ) < (gearAt (p ++ pad) 1 : ℚ) := by linarith
    have hd : (0 : ℚ) < (gearAt (p ++ pad) 3 : ℚ) := by linarith
    refine ⟨by positivity, ?_⟩
    have e : 40 / (gearAt (p ++ pad) 0 : ℚ)
          * ((gearAt (p ++ pad) 1 : ℚ) / (gearAt (p ++ pad) 3 : ℚ)) / 12
        = (40 * (gearAt (p ++ pad) 1 : ℚ))
          / (12 * ((gearAt (p ++ pad) 0 : ℚ) * (gearAt (p ++ pad) 3 : ℚ))) := by
      field_simp
      ring
    rw [e, div_lt_one (by positivity)]
    have h2 : (30 : ℚ) * 30 ≤ (gearAt (p ++ pad) 0 : ℚ) * (gearAt (p ++ pad) 3 : ℚ) :=
      mul_le_mul a1 d1 (by norm_num) (le_of_lt ha)
    nlinarith
  · obtain ⟨a1, a2⟩ := cast _ (g 0 (by decide))
    obtain ⟨b1, b2⟩ := cast _ (g 1 (by decide))
    obtain ⟨c1, c2⟩ := cast _ (g 2 (by decide))
    obtain ⟨d1, d2⟩ := cast _ (g 3 (by decide))
    simp only []
    have ha : (0 : ℚ) < (gearAt (p ++ pad) 0 : ℚ) := by linarith
    have hb' : (0 : ℚ) < (gearAt (p ++ pad) 1 : ℚ) := by linarith
    have hc : (0 : ℚ) < (gearAt (p ++ pad) 2 : ℚ) := by linarith
    have hd : (0 : ℚ) < (gearAt (p ++ pad) 3 : ℚ) := by linarith
    refine ⟨by positivity, ?_⟩
    have e : 40 / (gearAt (p ++ pad) 0 : ℚ)
          * ((gearAt (p ++ pad) 0 : ℚ) / (gearAt (p ++ pad) 1 : ℚ))
          * ((gearAt (p ++ pad) 2 : ℚ) / (gearAt (p ++ pad) 3 : ℚ)) / 12
        = (40 * (gearAt (p ++ pad) 2 : ℚ))
          / (12 * ((gearAt (p ++ pad) 1 : ℚ) * (gearAt (p ++ pad) 3 : ℚ))) := by
      field_simp
      ring
    rw [e, div_lt_one (by positivity)]
    have h2 : (30 : ℚ) * 30 ≤ (gearAt (p ++ pad) 1 : ℚ) * (gearAt (p ++ pad) 3 : ℚ) :=
      mul_le_mul b1 d1 (by norm_num) (le_of_lt hb')
    nlinarith

/-! ## The history of the solution table -/

theorem replay_hist_mono (es : List Event) (s : State) :
    ∃ H, (replay es s).hist = s.hist ++ H ∧
      H.Pairwise (fun a b => ∀ c, (b c).error ≤ (a c).error) ∧
      ∀ t ∈ H, ∀ c, (t c).error ≤ (s.soln c).error ∧
        ((replay es s).soln c).error ≤ (t c).error := by
  induction es generalizing s with
  | nil => exact ⟨[], by simp [replay_nil], List.Pairwise.nil, by simp⟩
  | cons e es ih =>
    rw [replay_cons]
    cases e with
    | permute cfg n u =>
      obtain ⟨H, h1, h2, h3⟩ := ih ((Event.permute cfg n u).apply s)
      exact ⟨H, h1, h2, h3⟩
    | check cfg u =>
      obtain ⟨H, h1, h2, h3⟩ := ih ((Event.check cfg u).apply s)
      have hh : ((Event.check cfg u).apply s).hist
          = s.hist ++ [((Event.check cfg u).apply s).soln] :=
        Check_Gears_hist cfg (setVec u s)
      have hstep : ∀ c, (((Event.check cfg u).apply s).soln c).error ≤ (s.soln c).error :=
        fun c => step_error_le cfg c (setVec u s)
      refine ⟨((Event.check cfg u).apply s).soln :: H, ?_, ?_, ?_⟩
      · rw [h1, hh]
        simp
      · rw [List.pairwise_cons]
        exact ⟨fun t ht c => (h3 t ht c).1, h2⟩
      · intro t ht c
        rw [List.mem_cons] at ht
        rcases ht with rfl | ht
        · exact ⟨hstep c, replay_error_le es _ c⟩
        · exact ⟨le_trans (h3 t ht c).1 (hstep c), (h3 t ht c).2⟩

theorem search_hist_mono (mode : Int) (s : State) (hv : 5 ≤ s.vec.length) :
    (newHist s (Search_Gears mode s).1).Pairwise (fun a b => ∀ c, (b c).error ≤ (a c).error) ∧
      ∀ t ∈ newHist s (Search_Gears mode s).1, ∀ c, (t c).error ≤ INITIAL_ERROR ∧
        (((Search_Gears mode s).1).soln c).error ≤ (t c).error := by
  obtain ⟨es, w, hT, _, _⟩ := Search_Gears_runs mode s hv
  obtain ⟨H, h1, h2, h3⟩ := replay_hist_mono es (resetErrors s)
  have hh : newHist s (Search_Gears mode s).1 = H := by
    rw [hT]
    show List.drop s.hist.length (replay es (resetErrors s)).hist = H
    rw [h1, resetErrors_hist, List.drop_left]
  rw [hh, hT]
  refine ⟨h2, fun t ht c => ?_⟩
  have := h3 t ht c
  rw [resetErrors_soln] at this
  exact this

/-! ## Claims on single steps and on the outcome -/

/-- C14: one `Check_Gears(cfg)` step never increases `soln[cfg].error` and leaves the
solution of every other configuration as it is; it overwrites `soln[cfg]` only for a
feasible candidate whose error is strictly below the stored one (and then stores the
candidate); a feasible candidate whose error equals the stored one changes nothing in
`soln`; an infeasible candidate changes neither `soln` nor `valid_count`.  Over the
descent of one `Search_Gears` call the errors in the successive solution tables
never increase. -/
theorem C14_monotone_update :
    (∀ (cfg : Cfg) (s : State),
      ((Check_Gears cfg s).soln cfg).error ≤ (s.soln cfg).error ∧
      (∀ c, c ≠ cfg → (Check_Gears cfg s).soln c = s.soln c) ∧
      ((Check_Gears cfg s).soln ≠ s.soln →
        validAt cfg s.vec = 1 ∧ |pitchAt cfg s.vec - s.goal_pitch| < (s.soln cfg).error) ∧
      (validAt cfg s.vec = 1 → |pitchAt cfg s.vec - s.goal_pitch| < (s.soln cfg).error →
        (Check_Gears cfg s).soln cfg =
          { error := |pitchAt cfg s.vec - s.goal_pitch|
            a := gearAt s.vec 0, b := gearAt s.vec 1, c := gearAt s.vec 2
            d := gearAt s.vec 3, e := gearAt s.vec 4 }) ∧
      (validAt cfg s.vec = 1 → |pitchAt cfg s.vec - s.goal_pitch| = (s.soln cfg).error →
        (Check_Gears cfg s).soln = s.soln) ∧
      (validAt cfg s.vec = 0 →
        (Check_Gears cfg s).soln = s.soln ∧ (Check_Gears cfg s).valid_count = s.valid_count)) ∧
    (∀ (mode : Int) (s : State), s.vec.length = 10 →
      (newHist s (Search_Gears mode s).1).Pairwise
        (fun a b => ∀ c, (b c).error ≤ (a c).error) ∧
      ∀ t ∈ newHist s (Search_Gears mode s).1, ∀ c, (t c).error ≤ INITIAL_ERROR ∧
        (((Search_Gears mode s).1).soln c).error ≤ (t c).error) := by
  refine ⟨fun cfg s => ⟨step_error_le cfg cfg s, ?_, ?_, ?_, ?_, ?_⟩,
    fun mode s hv => search_hist_mono mode s (by omega)⟩
  · intro c hc
    rw [Check_Gears_soln]
    split_ifs
    · exact Function.update_noteq hc _ _
    · rfl
  · intro hne
    rw [Check_Gears_soln] at hne
    split_ifs at hne with h
    · exact ⟨(validAt_ne_zero_iff cfg s.vec).mp h.1, h.2⟩
    · exact absurd rfl hne
  · intro hv hlt
    rw [Check_Gears_soln, if_pos ⟨(validAt_ne_zero_iff cfg s.vec).mpr hv, hlt⟩,
      Function.update_same]
  · intro _ heq
    rw [Check_Gears_soln, if_neg]
    rintro ⟨_, hlt⟩
    rw [heq] at hlt
    exact lt_irrefl _ hlt
  · intro h0
    constructor
    · rw [Check_Gears_soln, if_neg]
      rintro ⟨hne, _⟩
      exact hne h0
    · rw [Check_Gears_valid_count, if_neg]
      exact fun hne => hne h0

/-- C17 as stated fails: for the target pitch 10 the catalog assignment A=60, B=70,
C=50 of configuration 0 is accepted and its pitch error is not below the sentinel. -/
theorem C17_counterexample :
    Assignment .GEAR_CONFIG_0 [6, 9, 5] ∧ validAt .GEAR_CONFIG_0 ([6, 9, 5] ++ []) = 1 ∧
      ¬ |pitchAt .GEAR_CONFIG_0 ([6, 9, 5] ++ []) - 10| < INITIAL_ERROR := by
  obtain ⟨h1, h2, h3⟩ := example_assignment
  refine ⟨h1, h2, ?_⟩
  rw [h3]
  unfold INITIAL_ERROR
  rw [abs_of_neg (by norm_num)]
  norm_num

/-- C17 (amended): for every target pitch between 0 and 1 inch, every assignment
drawn from the catalog that `Gear_Valid` accepts has a pitch error strictly below the
sentinel, so a `Check_Gears` step on it while the sentinel is still stored replaces
the sentinel. -/
theorem C17_sentinel_dominance (c : Cfg) (p pad : List Nat) (goal : ℚ)
    (hp : Assignment c p) (hval : validAt c (p ++ pad) = 1)
    (h0 : 0 ≤ goal) (h1 : goal ≤ 1) :
    |pitchAt c (p ++ pad) - goal| < INITIAL_ERROR ∧
    ∀ s : State, s.vec = p ++ pad → s.goal_pitch = goal →
      (s.soln c).error = INITIAL_ERROR →
      ((Check_Gears c s).soln c).error = |pitchAt c (p ++ pad) - goal| := by
  obtain ⟨hpos, hlt⟩ := pitch_range c p pad hp hval
  have herr : |pitchAt c (p ++ pad) - goal| < INITIAL_ERROR := by
    unfold INITIAL_ERROR
    rw [abs_lt]
    constructor <;> linarith
  refine ⟨herr, ?_⟩
  intro s hs hg he
  rw [Check_Gears_soln, hs, hg, he,
    if_pos ⟨(validAt_ne_zero_iff c (p ++ pad)).mpr hval, herr⟩, Function.update_same]

theorem C17_sentinel_dominance_witness :
    (Assignment .GEAR_CONFIG_0 [6, 9, 5] ∧ validAt .GEAR_CONFIG_0 ([6, 9, 5] ++ []) = 1 ∧
      (0 : ℚ) ≤ 1 / 2 ∧ (1 : ℚ) / 2 ≤ 1) ∧
    |pitchAt .GEAR_CONFIG_0 ([6, 9, 5] ++ []) - 1 / 2| < INITIAL_ERROR :=
  ⟨⟨example_assignment.1, example_assignment.2.1, by norm_num, by norm_num⟩,
    (C17_sentinel_dominance .GEAR_CONFIG_0 [6, 9, 5] [] (1 / 2) example_assignment.1
      example_assignment.2.1 (by norm_num) (by norm_num)).1⟩

/-- C18: `Gear_Valid`, `Calc_Pitch` and `Calc_Length` for configuration 0 do not
depend on D and E, and for configurations 2 and 3 not on E; so the verdict and the
pitch that `Check_Gears` computes, and with them the error and the counter it
leaves, are the same for two buffers that agree on the slots of the configuration. -/
theorem C18_unused_slots_ignored :
    (∀ ga gb gc gd ge gd' ge' : Int,
      Gear_Valid .GEAR_CONFIG_0 ga gb gc gd ge = Gear_Valid .GEAR_CONFIG_0 ga gb gc gd' ge' ∧
      Calc_Pitch .GEAR_CONFIG_0 ga gb gc gd ge = Calc_Pitch .GEAR_CONFIG_0 ga gb gc gd' ge' ∧
      Calc_Length .GEAR_CONFIG_0 ga gb gc gd ge = Calc_Length .GEAR_CONFIG_0 ga gb gc gd' ge') ∧
    (∀ ga gb gc gd ge ge' : Int,
      Gear_Valid .GEAR_CONFIG_2 ga gb gc gd ge = Gear_Valid .GEAR_CONFIG_2 ga gb gc gd ge' ∧
      Calc_Pitch .GEAR_CONFIG_2 ga gb gc gd ge = Calc_Pitch .GEAR_CONFIG_2 ga gb gc gd ge' ∧
      Calc_Length .GEAR_CONFIG_2 ga gb gc gd ge = Calc_Length .GEAR_CONFIG_2 ga gb gc gd ge') ∧
    (∀ ga gb gc gd ge ge' : Int,
      Gear_Valid .GEAR_CONFIG_3 ga gb gc gd ge = Gear_Valid .GEAR_CONFIG_3 ga gb gc gd ge' ∧
      Calc_Pitch .GEAR_CONFIG_3 ga gb gc gd ge = Calc_Pitch .GEAR_CONFIG_3 ga gb gc gd ge' ∧
      Calc_Length .GEAR_CONFIG_3 ga gb gc gd ge = Calc_Length .GEAR_CONFIG_3 ga gb gc gd ge') ∧
    (∀ (c : Cfg) (v w : List Nat) (s : State), v.take (arity c) = w.take (arity c) →
      validAt c v = validAt c w ∧ pitchAt c v = pitchAt c w ∧
      ((Check_Gears c (setVec v s)).soln c).error = ((Check_Gears c (setVec w s)).soln c).error ∧
      (Check_Gears c (setVec v s)).valid_count = (Check_Gears c (setVec w s)).valid_count) ∧
    arity .GEAR_CONFIG_0 = 3 ∧ arity .GEAR_CONFIG_2 = 4 ∧ arity .GEAR_CONFIG_3 = 4 := by
  refine ⟨fun _ _ _ _ _ _ _ => ⟨rfl, rfl, rfl⟩, fun _ _ _ _ _ _ => ⟨rfl, rfl, rfl⟩,
    fun _ _ _ _ _ _ => ⟨rfl, rfl, rfl⟩, ?_, rfl, rfl, rfl⟩
  intro c v w s h
  have hv := validAt_congr c v w h
  have hp := pitchAt_congr c v w h
  refine ⟨hv, hp, ?_, ?_⟩
  · rw [Check_Gears_soln, Check_Gears_soln]
    show (((if validAt c v ≠ 0 ∧ |pitchAt c v - s.goal_pitch| < (s.soln c).error then _ else _) :
      Cfg → GS) c).error = (((if validAt c w ≠ 0 ∧ |pitchAt c w - s.goal_pitch|
        < (s.soln c).error then _ else _) : Cfg → GS) c).error
    rw [hv, hp]
    split_ifs
    · rw [Function.update_same, Function.update_same]
      show |pitchAt c v - s.goal_pitch| = |pitchAt c w - s.goal_pitch|
      rw [hp]
    · rfl
  · rw [Check_Gears_valid_count, Check_Gears_valid_count]
    show (if validAt c v ≠ 0 then _ else _) = (if validAt c w ≠ 0 then _ else _)
    rw [hv]
    rfl

/-! ## Whether a winner exists -/

theorem search_winner (mode : Int) (s : State) (hv : 5 ≤ s.vec.length)
    (h0 : 0 ≤ s.goal_pitch) (h1 : s.goal_pitch ≤ 1) :
    (((Search_Gears mode s).1).soln .GEAR_CONFIG_0).error < INITIAL_ERROR ∧
    ∃ b, (Search_Gears mode s).2 = some b ∧
      (((Search_Gears mode s).1).soln b).error < INITIAL_ERROR ∧
      ∀ i, (((Search_Gears mode s).1).soln b).error
        ≤ (((Search_Gears mode s).1).soln i).error := by
  obtain ⟨h1', h2, h3⟩ := example_assignment
  have hb := search_error_bound mode s hv .GEAR_CONFIG_0 [6, 9, 5] [] h1' h2
  have hlt : |pitchAt .GEAR_CONFIG_0 ([6, 9, 5] ++ []) - s.goal_pitch| < INITIAL_ERROR := by
    rw [h3]
    unfold INITIAL_ERROR
    rw [abs_lt]
    constructor <;> linarith
  have h0' := lt_of_le_of_lt hb hlt
  refine ⟨h0', ?_⟩
  have hspec := findBest_spec ((Search_Gears mode s).1).soln
  rw [search_best_eq]
  cases hbest : (findBest ((Search_Gears mode s).1).soln).2 with
  | none =>
    have := (hspec.2.mp hbest) .GEAR_CONFIG_0
    exact absurd h0' (not_lt.mpr this)
  | some b =>
    obtain ⟨g1, g2, _⟩ := hspec.1 b hbest
    exact ⟨b, rfl, g1, g2⟩

theorem search_no_winner (mode : Int) (s : State) (hv : 5 ≤ s.vec.length)
    (hg : 2 ≤ s.goal_pitch) :
    (∀ c, (((Search_Gears mode s).1).soln c).error = INITIAL_ERROR) ∧
      (Search_Gears mode s).2 = none := by
  have hall : ∀ c, (((Search_Gears mode s).1).soln c).error = INITIAL_ERROR := by
    intro c
    rcases search_error_cases mode s hv c with h | ⟨p, pad, hp, hval, he⟩
    · exact h
    · have hle := search_error_le_sentinel mode s hv c
      obtain ⟨_, hlt⟩ := pitch_range c p pad hp hval
      rw [he] at hle ⊢
      unfold INITIAL_ERROR at hle ⊢
      rw [abs_of_neg (by linarith)] at hle ⊢
      linarith
  refine ⟨hall, ?_⟩
  rw [search_best_eq, (findBest_spec _).2]
  intro i
  rw [hall i]

theorem initState_goal_range : 0 < initState.goal_pitch ∧ initState.goal_pitch ≤ 1 := by
  rw [initState_goal]
  unfold MM_PER_INCH
  constructor <;> norm_num

theorem farState_vec : farState.vec.length = 10 := by
  simp [farState, initState]

theorem farState_goal : (2 : ℚ) ≤ farState.goal_pitch := by
  simp only [farState]
  norm_num

theorem initState_vec_ten : initState.vec.length = 10 := by
  simp [initState]

/-- C16 fails at a target pitch of 10 inches (`farState`): after the descent all four
solutions still hold the sentinel error, and `Search_Gears` makes its call
`Display_Gears(best, mode)` all the same, with `best` never assigned; it has no
outcome of its own for a target without solution. -/
theorem C16_counterexample :
    (∀ c, (((Search_Gears 0 farState).1).soln c).error = INITIAL_ERROR) ∧
    Search_Gears_calls 0 farState = [Call.Display_Gears none 0] ∧
    Search_Gears_calls 0 farState ≠ [] := by
  obtain ⟨hall, hbest⟩ := search_no_winner 0 farState (by rw [farState_vec]; decide)
    farState_goal
  refine ⟨hall, ?_, ?_⟩
  · show [Call.Display_Gears (Search_Gears 0 farState).2 0] = _
    rw [hbest]
  · exact List.cons_ne_nil _ _

/-- C16, amended: the selection loop of `Search_Gears` leaves `best` unassigned
exactly when all four solutions still hold the sentinel error after the descent;
in that case the one call `Display_Gears(best, mode)` is still made, with the
unassigned `best`; and the case occurs for every target pitch of at least 2 inches. -/
theorem C16_no_solution_outcome (mode : Int) (s : State) (hv : s.vec.length = 10) :
    ((∀ c, (((Search_Gears mode s).1).soln c).error = INITIAL_ERROR) ↔
      (Search_Gears mode s).2 = none) ∧
    ((∀ c, (((Search_Gears mode s).1).soln c).error = INITIAL_ERROR) →
      Search_Gears_calls mode s = [Call.Display_Gears none mode]) ∧
    (2 ≤ s.goal_pitch →
      ∀ c, (((Search_Gears mode s).1).soln c).error = INITIAL_ERROR) := by
  have hv5 : 5 ≤ s.vec.length := by omega
  have hiff : (∀ c, (((Search_Gears mode s).1).soln c).error = INITIAL_ERROR) ↔
      (Search_Gears mode s).2 = none := by
    rw [search_best_eq, (findBest_spec _).2]
    constructor
    · intro h i
      rw [h i]
    · intro h c
      exact le_antisymm (search_error_le_sentinel mode s hv5 c) (h c)
  refine ⟨hiff, fun h => ?_, fun hg => (search_no_winner mode s hv5 hg).1⟩
  show [Call.Display_Gears (Search_Gears mode s).2 mode] = _
  rw [hiff.mp h]

theorem C16_no_solution_outcome_witness :
    farState.vec.length = 10 ∧
      ((2 : ℚ) ≤ farState.goal_pitch →
        ∀ c, (((Search_Gears 0 farState).1).soln c).error = INITIAL_ERROR) :=
  ⟨farState_vec, (C16_no_solution_outcome 0 farState farState_vec).2.2⟩

/-- C19: for every target pitch with `0 < goal_pitch ≤ 1` some configuration ends
with an error strictly below the sentinel, so the selection loop assigns `best`, to
one of the configurations 0..3, before it is handed to `Display_Gears`. -/
theorem C19_winner_exists (mode : Int) (s : State) (hv : s.vec.length = 10)
    (h0 : 0 < s.goal_pitch) (h1 : s.goal_pitch ≤ 1) :
    (∃ c, (((Search_Gears mode s).1).soln c).error < INITIAL_ERROR) ∧
    (Search_Gears mode s).2 ≠ none ∧
    ∃ b, (Search_Gears mode s).2 = some b ∧ b.idx ≤ 3 ∧
      (((Search_Gears mode s).1).soln b).error < INITIAL_ERROR := by
  obtain ⟨hc, b, hb, hlt, _⟩ := search_winner mode s (by omega) (le_of_lt h0) h1
  refine ⟨⟨_, hc⟩, by rw [hb]; exact Option.some_ne_none b, b, hb, ?_, hlt⟩
  cases b <;> decide

theorem C19_winner_exists_witness :
    (initState.vec.length = 10 ∧ 0 < initState.goal_pitch ∧ initState.goal_pitch ≤ 1) ∧
      (Search_Gears 0 initState).2 ≠ none :=
  ⟨⟨initState_vec_ten, initState_goal_range.1, initState_goal_range.2⟩,
    (C19_winner_exists 0 initState initState_vec_ten initState_goal_range.1
      initState_goal_range.2).2.1⟩

/-! ## Loops of state transformers -/

theorem Runs_unique {f : State → State} {v w w' : List Nat} {es es' : List Event}
    (h : Runs f v es w) (h' : Runs f v es' w') : es = es' ∧ w = w' := by
  have e := (h (setVec v initState) rfl).symm.trans (h' (setVec v initState) rfl)
  have e1 := congrArg State.trace e
  have e2 := congrArg State.vec e
  rw [show (setVec w (replay es (setVec v initState))).trace
      = (replay es (setVec v initState)).trace from rfl,
    show (setVec w' (replay es' (setVec v initState))).trace
      = (replay es' (setVec v initState)).trace from rfl, replay_trace, replay_trace] at e1
  exact ⟨List.append_cancel_left e1, e2⟩

theorem Runs_foldl (body : Nat → State → State) (Inv : List Nat → Prop)
    (Ev : List Event → Prop) (hnil : Ev [])
    (happ : ∀ a b, Ev a → Ev b → Ev (a ++ b)) (l : List Nat)
    (hbody : ∀ i ∈ l, ∀ v0, Inv v0 → ∃ es w, Runs (body i) v0 es w ∧ Inv w ∧ Ev es) :
    ∀ v0, Inv v0 →
      ∃ es w, Runs (fun s => l.foldl (fun s i => body i s) s) v0 es w ∧ Inv w ∧ Ev es := by
  induction l with
  | nil =>
    intro v0 h0
    exact ⟨[], v0, Runs.id v0, h0, hnil⟩
  | cons i l ih =>
    intro v0 h0
    obtain ⟨es1, w1, hr1, hi1, he1⟩ := hbody i (List.mem_cons_self _ _) v0 h0
    obtain ⟨es2, w2, hr2, hi2, he2⟩ :=
      ih (fun j hj => hbody j (List.mem_cons_of_mem _ hj)) w1 hi1
    refine ⟨es1 ++ es2, w2, ?_, hi2, happ _ _ he1 he2⟩
    intro s hs
    show List.foldl _ s (i :: l) = _
    rw [List.foldl_cons]
    have h1 := hr1 s hs
    have h2 := hr2 (setVec w1 (replay es1 s)) (setVec_vec _ _)
    beta_reduce at h2
    rw [h1, h2, replay_setVec, replay_append]

/-- The body of the loop of `Combine_Gears` at depth `kx`. -/
theorem Runs_body (n kx i : Nat) (v0 : List Nat) (es : List Event) (w : List Nat)
    (h : Runs (Combine_Gears (i + 1) (kx + 1) n 5) (v0.set kx i) es w) :
    Runs (fun s => Combine_Gears (i + 1) (kx + 1) n 5 { s with vec := s.vec.set kx i })
      v0 es w := by
  intro s hs
  have := h (setVec (v0.set kx i) s) (setVec_vec _ _)
  rw [replay_setVec] at this
  rw [← this, ← hs]
  rfl

/-- `Combine_Gears` below depth 5 is the permutation searches of its depth followed by
its loop. -/
theorem Runs_combine_step (n kx ix : Nat) (v : List Nat) (hv : 5 ≤ v.length) (hk : kx < 5)
    (es : List Event) (w : List Nat)
    (h : Runs (fun s => (List.range' ix (n + 1 - ix)).foldl
      (fun s i => Combine_Gears (i + 1) (kx + 1) n 5 { s with vec := s.vec.set kx i }) s)
      v es w) :
    Runs (Combine_Gears ix kx n 5) v (levelTrace kx v ++ es) w := by
  intro s hs
  rw [Combine_Gears_unfold, if_neg (by omega)]
  have h1 := Runs_level kx v hv (by omega) s hs
  beta_reduce at h1
  have h2 := h (setVec v (replay (levelTrace kx v) s)) (setVec_vec _ _)
  beta_reduce at h2
  rw [h1, h2, replay_setVec, replay_append]

/-! ## Index safety of the scratch buffer -/

theorem permTrace_perm (cfg : Cfg) (n : Nat) (v : List Nat) (hn : n < v.length) (e : Event)
    (he : e ∈ permTrace cfg n v) : e.buf.Perm v ∧ e.depth ≤ n := by
  induction n generalizing v with
  | zero =>
    simp only [permTrace, List.mem_cons, List.mem_singleton, List.not_mem_nil, or_false] at he
    rcases he with rfl | rfl <;> exact ⟨List.Perm.refl _, le_refl _⟩
  | succ n ih =>
    rw [permTrace, List.mem_cons, List.mem_flatMap] at he
    rcases he with rfl | ⟨i, hi, he⟩
    · exact ⟨List.Perm.refl _, le_refl _⟩
    · rw [List.mem_range] at hi
      obtain ⟨h1, h2⟩ := ih _ (by rw [swapVec_length]; omega) he
      exact ⟨h1.trans (swapVec_perm (n + 1) i v hn (by omega)), by omega⟩

theorem GoodTrace_nil (n L : Nat) (D : List Nat) : GoodTrace n L D [] := by
  intro e he
  simp at he

theorem GoodTrace_append (n L : Nat) (D : List Nat) (a b : List Event)
    (ha : GoodTrace n L D a) (hb : GoodTrace n L D b) : GoodTrace n L D (a ++ b) := by
  intro e he
  rw [List.mem_append] at he
  rcases he with he | he
  · exact ha e he
  · exact hb e he

theorem GoodTrace_permTrace (cfg : Cfg) (n m : Nat) (v : List Nat) (hm : m ≤ 4)
    (hv : 5 ≤ v.length) (hb : ∀ x ∈ v, x ≤ n) :
    GoodTrace n v.length (v.drop 5) (permTrace cfg m v) := by
  intro e he
  obtain ⟨h1, h2⟩ := permTrace_buf cfg m v e he
  obtain ⟨h3, h4⟩ := permTrace_perm cfg m v (by omega) e he
  refine ⟨h1, ?_, fun x hx => hb x (h3.mem_iff.mp hx), by omega⟩
  have : List.drop (5 - (m + 1)) (e.buf.drop (m + 1))
      = List.drop (5 - (m + 1)) (v.drop (m + 1)) := by rw [h2]
  rw [List.drop_drop, List.drop_drop] at this
  have e5 : m + 1 + (5 - (m + 1)) = 5 := by omega
  rw [e5] at this
  exact this

theorem GoodTrace_levelTrace (n kx : Nat) (v : List Nat) (hv : 5 ≤ v.length)
    (hb : ∀ x ∈ v, x ≤ n) : GoodTrace n v.length (v.drop 5) (levelTrace kx v) := by
  unfold levelTrace
  apply GoodTrace_append
  · apply GoodTrace_append
    · split
      · exact GoodTrace_permTrace _ n 2 v (by omega) hv hb
      · exact GoodTrace_nil _ _ _
    · split
      · exact GoodTrace_append _ _ _ _ _ (GoodTrace_permTrace _ n 3 v (by omega) hv hb)
          (GoodTrace_permTrace _ n 3 v (by omega) hv hb)
      · exact GoodTrace_nil _ _ _
  · split
    · exact GoodTrace_permTrace _ n 4 v (by omega) hv hb
    · exact GoodTrace_nil _ _ _

/-- `Combine_Gears ix kx n 5` on a buffer with entries at most `n` keeps the entries
at most `n`, never touches the positions from 5 on, and logs only good entries. -/
theorem Combine_good (n : Nat) (d : Nat) :
    ∀ kx ix (v : List Nat), kx + d = 5 → 5 ≤ v.length → (∀ x ∈ v, x ≤ n) →
      ∃ es w, Runs (Combine_Gears ix kx n 5) v es w ∧
        (w.length = v.length ∧ w.drop 5 = v.drop 5 ∧ ∀ x ∈ w, x ≤ n) ∧
        GoodTrace n v.length (v.drop 5) es := by
  induction d with
  | zero =>
    intro kx ix v hk hv hb
    have hk5 : kx = 5 := by omega
    subst hk5
    exact ⟨levelTrace 5 v, v, Runs_level_five ix n v hv, ⟨rfl, rfl, hb⟩,
      GoodTrace_levelTrace n 5 v hv hb⟩
  | succ d ih =>
    intro kx ix v hk hv hb
    have hk5 : kx < 5 := by omega
    obtain ⟨es, w, hr, hi, he⟩ := Runs_foldl
      (fun i s => Combine_Gears (i + 1) (kx + 1) n 5 { s with vec := s.vec.set kx i })
      (fun u => u.length = v.length ∧ u.drop 5 = v.drop 5 ∧ ∀ x ∈ u, x ≤ n)
      (GoodTrace n v.length (v.drop 5)) (GoodTrace_nil _ _ _) (GoodTrace_append _ _ _)
      (List.range' ix (n + 1 - ix))
      (by
        intro i hi v0 ⟨h1, h2, h3⟩
        rw [List.mem_range'_1] at hi
        have hset : ∀ x ∈ v0.set kx i, x ≤ n := by
          intro x hx
          rcases List.mem_or_eq_of_mem_set hx with hx | rfl
          · exact h3 x hx
          · omega
        have hdrop : (v0.set kx i).drop 5 = v0.drop 5 := by
          rw [List.drop_set, if_pos hk5]
        obtain ⟨es1, w1, hr1, ⟨a1, a2, a3⟩, g1⟩ := ih (kx + 1) (i + 1) (v0.set kx i) (by omega)
          (by rw [List.length_set]; omega) hset
        rw [List.length_set, h1, hdrop, h2] at g1
        refine ⟨es1, w1, Runs_body n kx i v0 es1 w1 hr1, ⟨?_, ?_, a3⟩, g1⟩
        · rw [a1, List.length_set, h1]
        · rw [a2, hdrop, h2])
      v ⟨rfl, rfl, hb⟩
    exact ⟨levelTrace kx v ++ es, w, Runs_combine_step n kx ix v hv hk5 es w hr, hi,
      GoodTrace_append _ _ _ _ _ (GoodTrace_levelTrace n kx v hv hb) he⟩

theorem mem_checkEvents (c : Cfg) (v : List Nat) (es : List Event) :
    (c, v) ∈ checkEvents es ↔ Event.check c v ∈ es := by
  induction es with
  | nil => simp
  | cons e es ih =>
    cases e with
    | permute cfg n u => simp [ih]
    | check cfg u => simp [ih]

theorem getD_of_drop_eq (v w : List Nat) (h : v.drop 5 = w.drop 5) :
    ∀ j, 5 ≤ j → v.getD j 0 = w.getD j 0 := by
  intro j hj
  have e := congrArg (fun l => l.getD (j - 5) 0) h
  simp only [List.getD_eq_getElem?_getD, List.getElem?_drop] at e
  rw [show 5 + (j - 5) = j from by omega] at e
  simpa [List.getD_eq_getElem?_getD] using e

theorem Combine_Gears_five (ix n : Nat) (s : State) :
    Combine_Gears ix 5 n 5 s = Permute_Gears .GEAR_CONFIG_1 4 s := by
  rw [Combine_Gears_unfold]
  simp

theorem Combine_Gears_good (s : State) (hv : 5 ≤ s.vec.length) (hb : ∀ x ∈ s.vec, x ≤ 15) :
    GoodTrace 15 s.vec.length (s.vec.drop 5) (newTrace s (Combine_Gears 0 0 15 5 s)) ∧
      (Combine_Gears 0 0 15 5 s).vec.length = s.vec.length ∧
      (Combine_Gears 0 0 15 5 s).vec.drop 5 = s.vec.drop 5 ∧
      ∀ x ∈ (Combine_Gears 0 0 15 5 s).vec, x ≤ 15 := by
  obtain ⟨es, w, hr, ⟨h1, h2, h3⟩, hg⟩ := Combine_good 15 5 0 0 s.vec rfl hv hb
  rw [newTrace_of_runs s _ w es (hr s rfl), hr s rfl]
  exact ⟨hg, h1, h2, h3⟩

/-- C20: starting from a buffer of at least 5 entries (10 in the program) whose
entries are all in 0..15, during `Combine_Gears(0,0,15,5)` every buffer seen at a
`Check_Gears` call has its entries, in particular `vec[0..4]` with the stale
positions, in 0..15, so every `gear_set` lookup is in bounds; every write
`vec[kx] = i` lands on one of the positions 0..4: whatever the length of the buffer,
it keeps its length and every position from 5 on holds its initial value at every
logged entry and on return, and at depth 5 `Combine_Gears` returns through
`Permute_Gears` before its loop; every entry into `Permute_Gears` has `n ≤ 4`, so
every `swap(n,i)` with `i ≤ n` acts on positions 0..4; the buffer left behind has its
entries in 0..15 again. -/
theorem C20_index_safety (s : State) (hv : 5 ≤ s.vec.length)
    (hb : ∀ x ∈ s.vec, x < NUM_GEARS) :
    (∀ c v, (c, v) ∈ checkEvents (newTrace s (Combine_Gears 0 0 15 5 s)) →
      v.length = s.vec.length ∧ v.drop 5 = s.vec.drop 5 ∧ (∀ x ∈ v, x < NUM_GEARS) ∧
        ∀ i, i < 5 → v.getD i 0 < NUM_GEARS) ∧
    (∀ e ∈ newTrace s (Combine_Gears 0 0 15 5 s),
      e.buf.length = s.vec.length ∧ e.buf.drop 5 = s.vec.drop 5 ∧
        (∀ j, 5 ≤ j → e.buf.getD j 0 = s.vec.getD j 0) ∧
        (∀ x ∈ e.buf, x < NUM_GEARS) ∧ e.depth ≤ 4) ∧
    ((Combine_Gears 0 0 15 5 s).vec.length = s.vec.length ∧
      (Combine_Gears 0 0 15 5 s).vec.drop 5 = s.vec.drop 5 ∧
      (∀ j, 5 ≤ j → (Combine_Gears 0 0 15 5 s).vec.getD j 0 = s.vec.getD j 0) ∧
      ∀ x ∈ (Combine_Gears 0 0 15 5 s).vec, x < NUM_GEARS) ∧
    (∀ (ix n : Nat) (t : State),
      Combine_Gears ix 5 n 5 t = Permute_Gears .GEAR_CONFIG_1 4 t) := by
  have h16 : NUM_GEARS = 16 := rfl
  have hb' : ∀ x ∈ s.vec, x ≤ 15 := fun x hx => by have := hb x hx; omega
  obtain ⟨hg, h1, h2, h3⟩ := Combine_Gears_good s hv hb'
  have hall : ∀ e ∈ newTrace s (Combine_Gears 0 0 15 5 s),
      e.buf.length = s.vec.length ∧ e.buf.drop 5 = s.vec.drop 5 ∧
        (∀ j, 5 ≤ j → e.buf.getD j 0 = s.vec.getD j 0) ∧
        (∀ x ∈ e.buf, x < NUM_GEARS) ∧ e.depth ≤ 4 := by
    intro e he
    obtain ⟨a, b, c, d⟩ := hg e he
    exact ⟨a, b, getD_of_drop_eq _ _ b, fun x hx => by have := c x hx; omega, d⟩
  refine ⟨?_, hall,
    ⟨h1, h2, getD_of_drop_eq _ _ h2, fun x hx => by have := h3 x hx; omega⟩,
    Combine_Gears_five⟩
  intro c v hcv
  rw [mem_checkEvents] at hcv
  obtain ⟨a, b, _, c', _⟩ := hall _ hcv
  have a' : v.length = s.vec.length := a
  have b' : v.drop 5 = s.vec.drop 5 := b
  have c'' : ∀ x ∈ v, x < NUM_GEARS := c'
  refine ⟨a', b', c'', fun i hi => ?_⟩
  rw [List.getD_eq_getElem _ _ (by omega : i < v.length)]
  exact c'' _ (List.getElem_mem _)

theorem initState_vec_bound : ∀ x ∈ initState.vec, x < NUM_GEARS := by
  intro x hx
  simp only [initState, List.mem_replicate] at hx
  rw [hx.2]
  decide

theorem initState_vec_five : 5 ≤ initState.vec.length := by
  rw [initState_vec_ten]
  decide

theorem C20_index_safety_witness :
    (5 ≤ initState.vec.length ∧ ∀ x ∈ initState.vec, x < NUM_GEARS) ∧
      ∀ e ∈ newTrace initState (Combine_Gears 0 0 15 5 initState),
        e.buf.length = initState.vec.length ∧ e.buf.drop 5 = initState.vec.drop 5 ∧
          (∀ j, 5 ≤ j → e.buf.getD j 0 = initState.vec.getD j 0) ∧
          (∀ x ∈ e.buf, x < NUM_GEARS) ∧ e.depth ≤ 4 :=
  ⟨⟨initState_vec_five, initState_vec_bound⟩,
    (C20_index_safety initState initState_vec_five initState_vec_bound).2.1⟩

/-! ## Stale positions of the scratch buffer -/

theorem getD_set_ne (v : List Nat) (kx i j : Nat) (h : kx ≠ j) :
    (v.set kx i).getD j 0 = v.getD j 0 := by
  simp only [List.getD_eq_getElem?_getD, List.getElem?_set_ne h]

theorem getD_set_self (v : List Nat) (kx i : Nat) (h : kx < v.length) :
    (v.set kx i).getD kx 0 = i := by
  simp [List.getD_eq_getElem?_getD, List.getElem?_set_self h]

theorem getD_of_take_eq (w u : List Nat) (k j : Nat) (h : w.take k = u.take k) (hj : j < k) :
    w.getD j 0 = u.getD j 0 := by
  have e1 : (w.take k)[j]? = w[j]? := List.getElem?_take_of_lt hj
  have e2 : (u.take k)[j]? = u[j]? := List.getElem?_take_of_lt hj
  rw [List.getD_eq_getElem?_getD, List.getD_eq_getElem?_getD, ← e1, ← e2, h]

theorem take_of_take_succ (w u : List Nat) (k : Nat) (h : w.take (k + 1) = u.take (k + 1)) :
    w.take k = u.take k := by
  have e1 : w.take k = (w.take (k + 1)).take k := by
    rw [List.take_take, Nat.min_eq_left (by omega)]
  have e2 : u.take k = (u.take (k + 1)).take k := by
    rw [List.take_take, Nat.min_eq_left (by omega)]
  rw [e1, e2, h]

theorem NoTrigs_nil (kx : Nat) : NoTrigs kx [] := fun _ _ => rfl

theorem NoTrigs_append (kx : Nat) (a b : List Event) (ha : NoTrigs kx a) (hb : NoTrigs kx b) :
    NoTrigs kx (a ++ b) := by
  intro c hc
  rw [trigsOf_append, ha c hc, hb c hc]
  rfl

theorem StaleAll_nil (n j : Nat) : StaleAll n j [] := by
  intro c _ u hu
  simp at hu

theorem StaleAll_append (n j : Nat) (a b : List Event) (ha : StaleAll n j a)
    (hb : StaleAll n j b) : StaleAll n j (a ++ b) := by
  intro c hc u hu
  rw [trigsOf_append, List.mem_append] at hu
  rcases hu with hu | hu
  · exact ha c hc u hu
  · exact hb c hc u hu

theorem StaleTail_append (n j : Nat) (a b : List Event) (ha : StaleTail n j a)
    (hb : StaleAll n j b) : StaleTail n j (a ++ b) := by
  intro c hc u hu
  rw [trigsOf_append] at hu
  cases hta : trigsOf c a with
  | nil =>
    rw [hta, List.nil_append] at hu
    exact hb c hc u (List.mem_of_mem_tail hu)
  | cons x xs =>
    rw [hta, List.cons_append, List.tail_cons, List.mem_append] at hu
    rcases hu with hu | hu
    · apply ha c hc u
      rw [hta, List.tail_cons]
      exact hu
    · exact hb c hc u hu

theorem NoTrigs_levelTrace (kx : Nat) (v : List Nat) : NoTrigs kx (levelTrace kx v) := by
  intro c hc
  rw [trigsOf_levelTrace, if_neg (by omega)]

theorem combineLoop_nil (n kx : Nat) (v : List Nat) : Runs (combineLoop n kx []) v [] v :=
  Runs.id v

theorem combineLoop_cons (n kx i : Nat) (l : List Nat) (v0 w1 w2 : List Nat)
    (es1 es2 : List Event)
    (h1 : Runs (Combine_Gears (i + 1) (kx + 1) n 5) (v0.set kx i) es1 w1)
    (h2 : Runs (combineLoop n kx l) w1 es2 w2) :
    Runs (combineLoop n kx (i :: l)) v0 (es1 ++ es2) w2 := by
  intro s hs
  show combineLoop n kx l
    (Combine_Gears (i + 1) (kx + 1) n 5 { s with vec := s.vec.set kx i }) = _
  have hb := Runs_body n kx i v0 es1 w1 h1 s hs
  beta_reduce at hb
  rw [hb, h2 _ (setVec_vec _ _), replay_setVec, replay_append]

theorem combineLoop_concat (n kx i : Nat) (l : List Nat) (v0 w1 w2 : List Nat)
    (es1 es2 : List Event) (h1 : Runs (combineLoop n kx l) v0 es1 w1)
    (h2 : Runs (Combine_Gears (i + 1) (kx + 1) n 5) (w1.set kx i) es2 w2) :
    Runs (combineLoop n kx (l ++ [i])) v0 (es1 ++ es2) w2 := by
  intro s hs
  have e : combineLoop n kx (l ++ [i]) s
      = Combine_Gears (i + 1) (kx + 1) n 5
          { (combineLoop n kx l s) with vec := (combineLoop n kx l s).vec.set kx i } := by
    unfold combineLoop
    rw [List.foldl_append]
    rfl
  have hb := Runs_body n kx i w1 es2 w2 h2 (combineLoop n kx l s) (by rw [h1 s hs]; rfl)
  beta_reduce at hb
  rw [e]
  refine hb.trans ?_
  rw [h1 s hs, replay_setVec, replay_append]

theorem loop_basic (n j kx : Nat)
    (ih : ∀ ix u, 5 ≤ u.length → ∃ es w, Runs (Combine_Gears ix (kx + 1) n 5) u es w ∧
      StaleSpec n j (kx + 1) ix u es w)
    (l : List Nat) (v0 : List Nat) (h5 : 5 ≤ v0.length) :
    ∃ es w, Runs (combineLoop n kx l) v0 es w ∧ w.length = v0.length ∧
      w.take kx = v0.take kx ∧ NoTrigs (kx + 1) es := by
  induction l generalizing v0 with
  | nil => exact ⟨[], v0, combineLoop_nil n kx v0, rfl, rfl, NoTrigs_nil _⟩
  | cons i l ihl =>
    obtain ⟨es1, w1, hr1, a1, a2, a3, _, _⟩ := ih (i + 1) (v0.set kx i)
      (by rw [List.length_set]; exact h5)
    rw [List.length_set] at a1
    have hpre : w1.take kx = v0.take kx := by
      rw [take_of_take_succ _ _ _ a2, take_set_self]
    obtain ⟨es2, w2, hr2, b1, b2, b3⟩ := ihl w1 (by omega)
    exact ⟨es1 ++ es2, w2, combineLoop_cons n kx i l v0 w1 w2 es1 es2 hr1 hr2,
      by rw [b1, a1], by rw [b2, hpre], NoTrigs_append _ _ _ a3 b3⟩

theorem loop_A (n j kx : Nat) (hk : kx < j)
    (ih : ∀ ix u, 5 ≤ u.length → ∃ es w, Runs (Combine_Gears ix (kx + 1) n 5) u es w ∧
      StaleSpec n j (kx + 1) ix u es w)
    (l : List Nat) (v0 : List Nat) (h5 : 5 ≤ v0.length) (hF : v0.getD j 0 = n) :
    ∃ es w, Runs (combineLoop n kx l) v0 es w ∧ w.getD j 0 = n ∧ StaleAll n j es := by
  induction l generalizing v0 with
  | nil => exact ⟨[], v0, combineLoop_nil n kx v0, hF, StaleAll_nil _ _⟩
  | cons i l ihl =>
    obtain ⟨es1, w1, hr1, a1, _, _, a4, _⟩ := ih (i + 1) (v0.set kx i)
      (by rw [List.length_set]; exact h5)
    rw [List.length_set] at a1
    obtain ⟨f1, s1⟩ := a4 (by omega) (by rw [getD_set_ne _ _ _ _ (by omega)]; exact hF)
    obtain ⟨es2, w2, hr2, f2, s2⟩ := ihl w1 (by omega) f1
    exact ⟨es1 ++ es2, w2, combineLoop_cons n kx i l v0 w1 w2 es1 es2 hr1 hr2, f2,
      StaleAll_append _ _ _ _ s1 s2⟩

theorem loop_J (n j : Nat) (hj : j < 5)
    (ih : ∀ ix u, 5 ≤ u.length → ∃ es w, Runs (Combine_Gears ix (j + 1) n 5) u es w ∧
      StaleSpec n j (j + 1) ix u es w)
    (l : List Nat) (i : Nat) (v0 : List Nat) (h5 : 5 ≤ v0.length) :
    ∃ es w, Runs (combineLoop n j (l ++ [i])) v0 es w ∧ w.getD j 0 = i := by
  obtain ⟨es1, w1, hr1, a1, _, _⟩ := loop_basic n j j ih l v0 h5
  obtain ⟨es2, w2, hr2, b1, b2, _⟩ := ih (i + 1) (w1.set j i)
    (by rw [List.length_set]; omega)
  refine ⟨es1 ++ es2, w2, combineLoop_concat n j i l v0 w1 w2 es1 es2 hr1 hr2, ?_⟩
  rw [getD_of_take_eq w2 (w1.set j i) (j + 1) j b2 (by omega), getD_set_self _ _ _ (by omega)]

theorem loop_B (n j kx : Nat) (hk : kx < j)
    (ih : ∀ ix u, 5 ≤ u.length → ∃ es w, Runs (Combine_Gears ix (kx + 1) n 5) u es w ∧
      StaleSpec n j (kx + 1) ix u es w)
    (i : Nat) (l : List Nat) (v0 : List Nat) (h5 : 5 ≤ v0.length)
    (hi : i + 1 + (j - (kx + 1)) ≤ n) :
    ∃ es w, Runs (combineLoop n kx (i :: l)) v0 es w ∧ w.getD j 0 = n ∧ StaleTail n j es := by
  obtain ⟨es1, w1, hr1, a1, _, _, _, a5⟩ := ih (i + 1) (v0.set kx i)
    (by rw [List.length_set]; exact h5)
  rw [List.length_set] at a1
  obtain ⟨f1, s1⟩ := a5 (by omega) hi
  obtain ⟨es2, w2, hr2, f2, s2⟩ := loop_A n j kx hk ih l w1 (by omega) f1
  exact ⟨es1 ++ es2, w2, combineLoop_cons n kx i l v0 w1 w2 es1 es2 hr1 hr2, f2,
    StaleTail_append _ _ _ _ s1 s2⟩

theorem Runs_combine_loop (n kx ix : Nat) (v : List Nat) (hv : 5 ≤ v.length) (hk : kx < 5)
    (es : List Event) (w : List Nat)
    (h : Runs (combineLoop n kx (List.range' ix (n + 1 - ix))) v es w) :
    Runs (Combine_Gears ix kx n 5) v (levelTrace kx v ++ es) w :=
  Runs_combine_step n kx ix v hv hk es w h

theorem trigsOf_level_append (c : Cfg) (kx : Nat) (v : List Nat) (es : List Event)
    (hno : NoTrigs (kx + 1) es) :
    trigsOf c (levelTrace kx v ++ es) = (if arity c = kx then [v] else []) ∨
      (arity c ≠ kx ∧ trigsOf c (levelTrace kx v ++ es) = trigsOf c es) := by
  rw [trigsOf_append, trigsOf_levelTrace]
  by_cases h : arity c = kx
  · left
    rw [hno c (by omega), List.append_nil]
  · right
    rw [if_neg h]
    exact ⟨h, rfl⟩

/-- The descent and the stale position `j`: once position `j` holds `n` it holds `n`
at every later permutation search that does not use it, and it holds `n` after the
first such search when the descent is long enough to write it. -/
theorem Combine_stale (n j : Nat) (hj : j < 5) (d : Nat) :
    ∀ kx ix (v : List Nat), kx + d = 5 → 5 ≤ v.length →
      ∃ es w, Runs (Combine_Gears ix kx n 5) v es w ∧ StaleSpec n j kx ix v es w := by
  induction d with
  | zero =>
    intro kx ix v hk hv
    have hk5 : kx = 5 := by omega
    subst hk5
    exact ⟨levelTrace 5 v, v, Runs_level_five ix n v hv, rfl, rfl, NoTrigs_levelTrace 5 v,
      fun h => absurd h (by omega), fun h => absurd h (by omega)⟩
  | succ d ih =>
    intro kx ix v hk hv
    have hk5 : kx < 5 := by omega
    have ihk : ∀ ix u, 5 ≤ u.length →
        ∃ es w, Runs (Combine_Gears ix (kx + 1) n 5) u es w ∧
          StaleSpec n j (kx + 1) ix u es w :=
      fun ix u hu => ih (kx + 1) ix u (by omega) hu
    obtain ⟨es, w, hr, a1, a2, a3⟩ :=
      loop_basic n j kx ihk (List.range' ix (n + 1 - ix)) v hv
    have hnt : NoTrigs kx (levelTrace kx v ++ es) := by
      apply NoTrigs_append _ _ _ (NoTrigs_levelTrace kx v)
      intro c hc
      exact a3 c (by omega)
    -- the final value of position `j` when depth `j` runs its loop at least once
    have hJ : kx = j → ix ≤ n → w.getD j 0 = n := by
      intro hkj hix
      subst hkj
      have hl : List.range' ix (n + 1 - ix) = List.range' ix (n - ix) ++ [n] := by
        have e : n + 1 - ix = (n - ix) + 1 := by omega
        rw [e, List.range'_concat]
        congr 2
        omega
      obtain ⟨es', w', hr', hw'⟩ := loop_J n kx hj ihk (List.range' ix (n - ix)) n v hv
      rw [← hl] at hr'
      obtain ⟨_, e2⟩ := Runs_unique hr hr'
      rw [e2]
      exact hw'
    refine ⟨levelTrace kx v ++ es, w, Runs_combine_loop n kx ix v hv hk5 es w hr, a1, a2, hnt,
      ?_, ?_⟩
    · intro hkj hF
      by_cases hkeq : kx = j
      · constructor
        · by_cases hix : ix ≤ n
          · exact hJ hkeq hix
          · have hl : List.range' ix (n + 1 - ix) = [] := by
              have e : n + 1 - ix = 0 := by omega
              rw [e]
              rfl
            rw [hl] at hr
            obtain ⟨_, e2⟩ := Runs_unique hr (combineLoop_nil n kx v)
            rw [e2]
            exact hF
        · intro c hc u hu
          rcases trigsOf_level_append c kx v es a3 with h | ⟨hne, h⟩
          · rw [h] at hu
            split at hu
            · rw [List.mem_singleton] at hu
              rw [hu]
              exact hF
            · simp at hu
          · rw [h, a3 c (by omega)] at hu
            simp at hu
      · obtain ⟨es', w', hr', hw', hs'⟩ := loop_A n j kx (by omega) ihk
          (List.range' ix (n + 1 - ix)) v hv hF
        obtain ⟨e1, e2⟩ := Runs_unique hr hr'
        rw [e1, e2]
        refine ⟨hw', ?_⟩
        intro c hc u hu
        rw [trigsOf_append, trigsOf_levelTrace, List.mem_append] at hu
        rcases hu with hu | hu
        · split at hu
          · rw [List.mem_singleton] at hu
            rw [hu]
            exact hF
          · simp at hu
        · exact hs' c hc u hu
    · intro hkj hB
      by_cases hkeq : kx = j
      · refine ⟨hJ hkeq (by omega), ?_⟩
        intro c hc u hu
        rcases trigsOf_level_append c kx v es a3 with h | ⟨hne, h⟩
        · rw [h] at hu
          split at hu <;> simp at hu
        · rw [h, a3 c (by omega)] at hu
          simp at hu
      · have hl : List.range' ix (n + 1 - ix) = ix :: List.range' (ix + 1) (n - ix) := by
          have e : n + 1 - ix = (n - ix) + 1 := by omega
          rw [e, List.range'_succ]
        obtain ⟨es', w', hr', hw', hs'⟩ := loop_B n j kx (by omega) ihk ix
          (List.range' (ix + 1) (n - ix)) v hv (by omega)
        rw [← hl] at hr'
        obtain ⟨e1, e2⟩ := Runs_unique hr hr'
        rw [e1, e2]
        refine ⟨hw', ?_⟩
        intro c hc u hu
        rw [← e1] at hu
        rcases trigsOf_level_append c kx v es a3 with h | ⟨hne, h⟩
        · rw [h] at hu
          split at hu <;> simp at hu
        · rw [h, e1] at hu
          exact hs' c hc u hu

/-! ## The solution as a fold over the checks -/

theorem Check_Gears_soln_pick (cfg c : Cfg) (s : State) :
    (Check_Gears cfg s).soln c =
      if cfg = c then pick c s.goal_pitch (s.soln c) s.vec else s.soln c := by
  rw [Check_Gears_soln]
  by_cases h : cfg = c
  · subst h
    rw [if_pos rfl]
    unfold pick
    split_ifs
    · exact Function.update_same _ _ _
    · rfl
  · rw [if_neg h]
    split_ifs
    · exact Function.update_noteq (Ne.symm h) _ _
    · rfl

theorem bestOf_nil (c : Cfg) (goal : ℚ) (g : GS) : bestOf c goal [] g = g := rfl

theorem bestOf_cons (c : Cfg) (goal : ℚ) (w : List Nat) (L : List (List Nat)) (g : GS) :
    bestOf c goal (w :: L) g = bestOf c goal L (pick c goal g w) := rfl

theorem bestOf_append (c : Cfg) (goal : ℚ) (L M : List (List Nat)) (g : GS) :
    bestOf c goal (L ++ M) g = bestOf c goal M (bestOf c goal L g) := by
  unfold bestOf
  rw [List.foldl_append]

theorem replay_soln_bestOf (es : List Event) (s : State) (c : Cfg) :
    (replay es s).soln c = bestOf c s.goal_pitch (checksOf c es) (s.soln c) := by
  induction es generalizing s with
  | nil => rfl
  | cons e es ih =>
    rw [replay_cons, ih, apply_goal]
    cases e with
    | permute cfg n u =>
      rw [checksOf_cons_permute]
      rfl
    | check cfg u =>
      rw [checksOf_cons_check, bestOf_append]
      have : ((Event.check cfg u).apply s).soln c
          = if cfg = c then pick c s.goal_pitch (s.soln c) u else s.soln c :=
        Check_Gears_soln_pick cfg c (setVec u s)
      rw [this]
      by_cases h : cfg = c
      · rw [if_pos h, if_pos h]
        rfl
      · rw [if_neg h, if_neg h]
        rfl

theorem pick_take (c : Cfg) (goal : ℚ) (g : GS) (w : List Nat) :
    pick c goal g (w.take 5) = pick c goal g w := by
  have ht : (w.take 5).take (arity c) = w.take (arity c) := by
    rw [List.take_take, Nat.min_eq_left (arity_le_five c)]
  unfold pick
  rw [validAt_congr c _ _ ht, pitchAt_congr c _ _ ht, gearAt_take w 5 0 (by decide),
    gearAt_take w 5 1 (by decide), gearAt_take w 5 2 (by decide),
    gearAt_take w 5 3 (by decide), gearAt_take w 5 4 (by decide)]

theorem bestOf_map_take (c : Cfg) (goal : ℚ) (L : List (List Nat)) (g : GS) :
    bestOf c goal (L.map (List.take 5)) g = bestOf c goal L g := by
  induction L generalizing g with
  | nil => rfl
  | cons w L ih => rw [List.map_cons, bestOf_cons, bestOf_cons, ih, pick_take]

theorem bestOf_infeasible (c : Cfg) (goal : ℚ) (L : List (List Nat)) (g : GS)
    (h : ∀ w ∈ L, validAt c w = 0) : bestOf c goal L g = g := by
  induction L generalizing g with
  | nil => rfl
  | cons w L ih =>
    have hw : pick c goal g w = g := by
      unfold pick
      rw [if_neg]
      rintro ⟨hne, _⟩
      exact hne (h w (List.mem_cons_self _ _))
    rw [bestOf_cons, hw]
    exact ih g (fun u hu => h u (List.mem_cons_of_mem _ hu))

theorem pick_same (E : ℚ) (c : Cfg) (goal : ℚ) (g g' : GS) (w : List Nat)
    (h : SameBelow E g g') : SameBelow E (pick c goal g w) (pick c goal g' w) := by
  unfold pick
  rw [← h.1]
  split_ifs
  · exact ⟨rfl, fun _ => rfl⟩
  · exact h

theorem bestOf_same (E : ℚ) (c : Cfg) (goal : ℚ) (L : List (List Nat)) (g g' : GS)
    (h : SameBelow E g g') : SameBelow E (bestOf c goal L g) (bestOf c goal L g') := by
  induction L generalizing g g' with
  | nil => exact h
  | cons w L ih =>
    rw [bestOf_cons, bestOf_cons]
    exact ih _ _ (pick_same E c goal g g' w h)

/-! ## The checks of the first permutation search are infeasible -/

theorem gear_set_nonneg (k : Nat) : 0 ≤ gear_set.getD k 0 := by
  by_cases h : k < NUM_GEARS
  · have := (gear_set_bounds k h).1
    omega
  · rw [List.getD_eq_default _ _ (by
      have : NUM_GEARS = gear_set.length := rfl
      omega)]

theorem gear_set_low (k : Nat) (h : k ≤ 4) :
    30 ≤ gear_set.getD k 0 ∧ gear_set.getD k 0 ≤ 48 := by
  interval_cases k <;> exact ⟨by decide, by decide⟩

theorem infeasible_low (c : Cfg) (w : List Nat) (h : ∀ i, i < arity c → w.getD i 0 ≤ 4) :
    validAt c w = 0 := by
  have g : ∀ i, i < arity c → 30 ≤ gearAt w i ∧ gearAt w i ≤ 48 :=
    fun i hi => gear_set_low _ (h i hi)
  have g0 : ∀ i, 0 ≤ gearAt w i := fun i => gear_set_nonneg _
  unfold validAt
  refine (Gear_Valid_zero_or_one _ _ _ _ _ _).resolve_right ?_
  intro h1
  have n0 := g0 0
  have n1 := g0 1
  have n2 := g0 2
  have n3 := g0 3
  have n4 := g0 4
  cases c
  · have b0 := g 0 (by decide)
    have b1 := g 1 (by decide)
    have b2 := g 2 (by decide)
    rw [Gear_Valid_0_iff, Calc_Length_nonneg _ _ _ _ _ _ n0 n1 n2 n3 n4] at h1
    simp only [] at h1
    omega
  · have b0 := g 0 (by decide)
    have b1 := g 1 (by decide)
    have b2 := g 2 (by decide)
    have b3 := g 3 (by decide)
    have b4 := g 4 (by decide)
    rw [Gear_Valid_1_iff, Calc_Length_nonneg _ _ _ _ _ _ n0 n1 n2 n3 n4] at h1
    simp only [] at h1
    omega
  · have b0 := g 0 (by decide)
    have b1 := g 1 (by decide)
    have b2 := g 2 (by decide)
    have b3 := g 3 (by decide)
    rw [Gear_Valid_2_iff, Calc_Length_nonneg _ _ _ _ _ _ n0 n1 n2 n3 n4] at h1
    simp only [] at h1
    omega
  · have b0 := g 0 (by decide)
    have b1 := g 1 (by decide)
    have b2 := g 2 (by decide)
    have b3 := g 3 (by decide)
    rw [Gear_Valid_3_iff, Calc_Length_nonneg _ _ _ _ _ _ n0 n1 n2 n3 n4] at h1
    simp only [] at h1
    omega

theorem incTuples_first (n j : Nat) :
    ∀ lo, lo + j ≤ n + 1 → ∃ tl, incTuples n j lo = List.range' lo j :: tl := by
  induction j with
  | zero =>
    intro lo _
    exact ⟨[], rfl⟩
  | succ j ih =>
    intro lo h
    obtain ⟨tl, htl⟩ := ih (lo + 1) (by omega)
    refine ⟨tl.map (lo :: ·) ++ incTuples n (j + 1) (lo + 1), ?_⟩
    rw [incTuples_succ_of_le n j lo (by omega), htl, List.map_cons, List.cons_append,
      List.range'_succ]

/-! ## Permuting commutes with cutting the buffer -/

theorem getD_take_lt (u : List Nat) (k j : Nat) (h : j < k) :
    (u.take k).getD j 0 = u.getD j 0 := by
  simp only [List.getD_eq_getElem?_getD, List.getElem?_take_of_lt h]

theorem swapVec_take (i j k : Nat) (u : List Nat) (hi : i < k) (hj : j < k) :
    (swapVec i j u).take k = swapVec i j (u.take k) := by
  unfold swapVec
  rw [List.set_take, List.set_take, getD_take_lt u k j hj, getD_take_lt u k i hi]

theorem perms_map_take (n k : Nat) (hnk : n < k) (u : List Nat) :
    (perms n u).map (List.take k) = perms n (u.take k) := by
  induction n generalizing u with
  | zero => rfl
  | succ n ih =>
    rw [perms, perms, List.map_flatMap]
    apply List.flatMap_congr
    intro i hi
    rw [List.mem_range] at hi
    rw [ih (by omega), swapVec_take (n + 1) i k u hnk (by omega)]

theorem take_succ_getD (u : List Nat) (k : Nat) (h : k < u.length) :
    u.take (k + 1) = u.take k ++ [u.getD k 0] := by
  rw [List.take_succ, List.getElem?_eq_getElem h, List.getD_eq_getElem _ _ h]
  rfl

theorem take_five_stale (c : Cfg) (u : List Nat) (h5 : 5 ≤ u.length)
    (hs : ∀ j, arity c ≤ j → j < 5 → u.getD j 0 = 15) :
    u.take 5 = u.take (arity c) ++ List.replicate (5 - arity c) 15 := by
  cases c
  · have h3 := hs 3 (by decide) (by decide)
    have h4 := hs 4 (by decide) (by decide)
    show u.take 5 = u.take 3 ++ [15, 15]
    rw [take_succ_getD u 4 (by omega), take_succ_getD u 3 (by omega), h3, h4]
    simp
  · show u.take 5 = u.take 5 ++ []
    simp
  · have h4 := hs 4 (by decide) (by decide)
    show u.take 5 = u.take 4 ++ [15]
    rw [take_succ_getD u 4 (by omega), h4]
  · have h4 := hs 4 (by decide) (by decide)
    show u.take 5 = u.take 4 ++ [15]
    rw [take_succ_getD u 4 (by omega), h4]

/-! ## The search does not depend on what the buffer held -/

theorem first_checks_infeasible (c : Cfg) (u0 w : List Nat) (h5 : 5 ≤ u0.length)
    (h0 : u0.take (arity c) = List.range' 0 (arity c))
    (hw : w ∈ (perms (arity c - 1) u0).map (List.take 5)) : validAt c w = 0 := by
  rw [List.mem_map] at hw
  obtain ⟨w', hw', rfl⟩ := hw
  have hm5 := arity_le_five c
  have hlen : w'.length = u0.length := perms_mem_length _ _ _ hw'
  have hperm := perms_mem_take (arity c - 1) u0 w' (by have := arity_pos c; omega) hw'
  rw [arity_pos, h0] at hperm
  have ht : (w'.take 5).take (arity c) = w'.take (arity c) := by
    rw [List.take_take, Nat.min_eq_left hm5]
  rw [validAt_congr c _ _ ht]
  apply infeasible_low
  intro i hi
  have hil : i < (w'.take (arity c)).length := by
    rw [List.length_take]
    omega
  have hmem : (w'.take (arity c)).getD i 0 ∈ w'.take (arity c) := by
    rw [List.getD_eq_getElem _ _ hil]
    exact List.getElem_mem _
  rw [getD_take_lt w' (arity c) i hi, hperm.mem_iff, List.mem_range'_1] at hmem
  omega

theorem search_soln_canon (mode : Int) (s : State) (hv : 5 ≤ s.vec.length) (c : Cfg) :
    ((Search_Gears mode s).1).soln c
      = bestOf c s.goal_pitch (canonChecks c) ((resetErrors s).soln c) := by
  obtain ⟨es, w, hr, _, _, hs⟩ := Combine_runs 15 5 0 0 s.vec rfl hv
  have hT : (Search_Gears mode s).1 = setVec w (replay es (resetErrors s)) :=
    hr (resetErrors s) rfl
  obtain ⟨es3, w3, hr3, sp3⟩ := Combine_stale 15 3 (by decide) 5 0 0 s.vec rfl hv
  obtain ⟨es4, w4, hr4, sp4⟩ := Combine_stale 15 4 (by decide) 5 0 0 s.vec rfl hv
  obtain ⟨e3, _⟩ := Runs_unique hr3 hr
  obtain ⟨e4, _⟩ := Runs_unique hr4 hr
  subst e3
  have st3 : StaleTail 15 3 es3 := (sp3.2.2.2.2 (Nat.zero_le _) (by omega)).2
  have st4 : StaleTail 15 4 es3 := by
    have := (sp4.2.2.2.2 (Nat.zero_le _) (by omega)).2
    rw [e4] at this
    exact this
  have hm5 := arity_le_five c
  have hm3 : 3 ≤ arity c := by cases c <;> decide
  obtain ⟨tl, htl⟩ := incTuples_first 15 (arity c) 0 (by omega)
  have ht := TraceShape_trigs s.vec es3 hs c
  rw [htl] at ht
  have hlen := (hs c).1
  have hchk := (hs c).2.1
  cases htr : trigsOf c es3 with
  | nil =>
    rw [htr] at ht
    simp at ht
  | cons u0 rest =>
    rw [htr] at ht hlen hchk
    rw [List.map_cons, List.cons.injEq] at ht
    obtain ⟨hu0, hrest⟩ := ht
    have hstale : ∀ u ∈ rest, ∀ j, arity c ≤ j → j < 5 → u.getD j 0 = 15 := by
      intro u hu j hj1 hj2
      have hmem : u ∈ (trigsOf c es3).tail := by rw [htr]; exact hu
      have hj : j = 3 ∨ j = 4 := by omega
      rcases hj with rfl | rfl
      · exact st3 c hj1 u hmem
      · exact st4 c hj1 u hmem
    have hsecond : (rest.flatMap (perms (arity c - 1))).map (List.take 5) = canonChecks c := by
      unfold canonChecks
      rw [htl, List.tail_cons, ← hrest, List.map_map, List.flatMap_map, List.map_flatMap]
      apply List.flatMap_congr
      intro u hu
      rw [perms_map_take (arity c - 1) 5 (by omega) u,
        take_five_stale c u (by rw [hlen u (List.mem_cons_of_mem _ hu)]; exact hv)
          (hstale u hu)]
      rfl
    rw [hT]
    show (replay es3 (resetErrors s)).soln c = _
    rw [replay_soln_bestOf, ← bestOf_map_take, hchk, List.flatMap_cons, List.map_append,
      bestOf_append, hsecond,
      bestOf_infeasible c _ _ _ (fun w hw => first_checks_infeasible c u0 w
        (by rw [hlen u0 (List.mem_cons_self _ _)]; exact hv) hu0 hw)]
    rfl

theorem search_same (mode mode' : Int) (s s' : State) (hv : 5 ≤ s.vec.length)
    (hv' : 5 ≤ s'.vec.length) (hg : s'.goal_pitch = s.goal_pitch) (c : Cfg) :
    SameBelow INITIAL_ERROR (((Search_Gears mode s).1).soln c)
      (((Search_Gears mode' s').1).soln c) := by
  rw [search_soln_canon mode s hv c, search_soln_canon mode' s' hv' c, hg]
  apply bestOf_same
  refine ⟨by rw [resetErrors_soln, resetErrors_soln], fun h => ?_⟩
  rw [resetErrors_soln] at h
  exact absurd h (lt_irrefl _)

theorem findBest_congr (soln soln' : Cfg → GS) (h : ∀ c, (soln c).error = (soln' c).error) :
    findBest soln = findBest soln' := by
  simp only [findBest, allCfgs, List.foldl, h]

theorem search_vec_length (mode : Int) (s : State) (hv : 5 ≤ s.vec.length) :
    ((Search_Gears mode s).1).vec.length = s.vec.length := by
  obtain ⟨es, w, hT, hl, _⟩ := Search_Gears_runs mode s hv
  rw [hT]
  exact hl

theorem search_goal (mode : Int) (s : State) (hv : 5 ≤ s.vec.length) :
    ((Search_Gears mode s).1).goal_pitch = s.goal_pitch := by
  obtain ⟨es, w, hT, _, _⟩ := Search_Gears_runs mode s hv
  rw [hT]
  exact replay_goal es (resetErrors s)

/-- C15: a second `Search_Gears` run with the same target pitch, started from the
buffer and the solution table that the first run left behind, picks the same
configuration, ends with the same error for every configuration, and for every
configuration whose error is below the sentinel with the same stored tooth counts
a, b, c, d, e. -/
theorem C15_idempotence (mode : Int) (s : State) (hv : s.vec.length = 10) :
    (Search_Gears mode (Search_Gears mode s).1).2 = (Search_Gears mode s).2 ∧
    ∀ c,
      (((Search_Gears mode (Search_Gears mode s).1).1).soln c).error
        = (((Search_Gears mode s).1).soln c).error ∧
      ((((Search_Gears mode s).1).soln c).error < INITIAL_ERROR →
        ((Search_Gears mode (Search_Gears mode s).1).1).soln c
          = ((Search_Gears mode s).1).soln c) := by
  have hv5 : 5 ≤ s.vec.length := by omega
  have hv2 : 5 ≤ ((Search_Gears mode s).1).vec.length := by
    rw [search_vec_length mode s hv5]
    exact hv5
  have hsame := fun c => search_same mode mode s (Search_Gears mode s).1 hv5 hv2
    (search_goal mode s hv5) c
  refine ⟨?_, fun c => ⟨(hsame c).1.symm, fun h => ((hsame c).2 h).symm⟩⟩
  rw [search_best_eq, search_best_eq mode s,
    findBest_congr _ _ (fun c => (hsame c).1.symm)]

theorem C15_idempotence_witness :
    initState.vec.length = 10 ∧
      (Search_Gears 0 (Search_Gears 0 initState).1).2 = (Search_Gears 0 initState).2 :=
  ⟨initState_vec_ten, (C15_idempotence 0 initState initState_vec_ten).1⟩

end Gears
